import Mathlib

/-!
# Frogbot: vulnerability diff, pull-request scan decision and sweep orchestration

A shallow embedding of `commands/scanpullrequests.go` (decider and orchestrator),
of `commands/utils/email.go`, of the vulnerability-diff engine exercised by
`commands/scanpullrequest_test.go`, and of the naming templates exercised by
`commands/utils/git_test.go`.

Go values are embedded as follows.
* `error` is `Option Error`: `none` is the nil error.
* A Go function returning several results returns a tuple in the same order.
* Calls on external collaborators (VCS client, download, chdir, scan) are
  functions on an abstract world `σ`, bundled in `Env σ`; every call is recorded
  in an event log that is threaded with the world (`Machine σ`).
-/

namespace Frogbot

/-! ## Part 1. Data model of the vulnerability diff -/

/-- Go `error` values, identified by their message; the nil error is `none : Option Error`. -/
abbrev Error := String

/-- Severity of a finding: `critical > high > medium > low > unknown`.
An absent severity is the `unknown` sentinel. -/
inductive Severity where
  | critical
  | high
  | medium
  | low
  | unknown
deriving DecidableEq, Repr, Inhabited

/-- A component affected by an issue (`services.Component`). -/
structure Component where
  Name : String := ""
  Version : String := ""
deriving DecidableEq, Repr, Inhabited

/-- A Violation or Vulnerability record. `Components` is the Go map from component
identifier to `Component`, given as its list of entries in the order in which the
map is traversed; a Go map holds each key once. -/
structure Issue where
  IssueId : String
  Severity : Severity := Severity.unknown
  Summary : String := ""
  Components : List (String × Component) := []
deriving DecidableEq, Repr, Inhabited

/-- A policy violation (`services.Violation`). -/
abbrev Violation := Issue

/-- A vulnerability (`services.Vulnerability`). -/
abbrev Vulnerability := Issue

/-- One scan result (`services.ScanResponse`): an ordered sequence of violation and
vulnerability records. -/
structure ScanResult where
  Violations : List Violation := []
  Vulnerabilities : List Vulnerability := []
deriving DecidableEq, Repr, Inhabited

/-- The diff key: issue id together with the component identifier. -/
abbrev IssueIdentity := String × String

/-- One flattened row per (issue, component) pair
(`formats.VulnerabilityOrViolationRow`, the fields the tests read). -/
structure ReportRow where
  IssueId : String
  Severity : Severity
  ImpactedPackageName : String
deriving DecidableEq, Repr, Inhabited

/-- The records of one scan result in traversal order. -/
def ScanResult.issues (r : ScanResult) : List Issue :=
  r.Violations ++ r.Vulnerabilities

/-- The row of an issue for one of its components. -/
def Issue.row (iss : Issue) (component : String) : ReportRow :=
  { IssueId := iss.IssueId, Severity := iss.Severity, ImpactedPackageName := component }

/-- The identity of an issue at one of its components. -/
def Issue.identity (iss : Issue) (component : String) : IssueIdentity :=
  (iss.IssueId, component)

/-- Modelled from the spec: the first pass of `createNewIssuesRows` (file
`commands/scanpullrequest.go` is absent). "Build a set of IssueIdentity values observed
anywhere in `previous` (flattening all ScanResults and all affected components per
issue)". The set is a duplicate-free list grown by insertion. -/
def collectIdentities (previous : List ScanResult) : List IssueIdentity :=
  previous.foldl
    (fun set scan =>
      scan.issues.foldl
        (fun set iss =>
          iss.Components.foldl (fun set entry => set.insert (iss.identity entry.1)) set)
        set)
    []

/-- Modelled from the spec: `createNewIssuesRows` (file `commands/scanpullrequest.go`
is absent). "Then iterate `current` in its given order; for each (issue, component) pair
not in the previous set, emit a ReportRow. Preserve input ordering; no resorting."
The engine is total: the error result is always nil. -/
def createNewIssuesRows (previous current : List ScanResult) :
    List ReportRow × Option Error :=
  let existing := collectIdentities previous
  let rows := current.foldl
    (fun rows scan =>
      scan.issues.foldl
        (fun rows iss =>
          iss.Components.foldl
            (fun rows entry =>
              if existing.contains (iss.identity entry.1) then rows
              else rows ++ [iss.row entry.1])
            rows)
        rows)
    []
  (rows, none)

/-- Modelled from the spec: `createAllIssuesRows` (file `commands/scanpullrequest.go`
is absent). The "all issues" mode "emits every (issue, component) pair in `current`";
"an issue with zero components yields zero rows ... must be handled as empty, not as an
error". -/
def createAllIssuesRows (current : List ScanResult) : List ReportRow × Option Error :=
  let rows := current.foldl
    (fun rows scan =>
      scan.issues.foldl
        (fun rows iss =>
          iss.Components.foldl (fun rows entry => rows ++ [iss.row entry.1]) rows)
        rows)
    []
  (rows, none)

/-- Whether the identity `(issueId, component)` is observed somewhere in a collection of
scan results: some record with that id lists that component. -/
def occursIn (scans : List ScanResult) (issueId component : String) : Bool :=
  scans.any fun scan =>
    scan.issues.any fun iss =>
      iss.IssueId == issueId && iss.Components.any fun entry => entry.1 == component

/-- All records of a collection of scan results, in traversal order. -/
def allIssues (scans : List ScanResult) : List Issue :=
  scans.flatMap ScanResult.issues

/-! ### Scan data of the unit tests -/

/-- `XRAY-1`, high, affecting components A and B. -/
def xray1AB : Issue :=
  { IssueId := "XRAY-1", Severity := Severity.high, Summary := "summary-1",
    Components := [("component-A", {}), ("component-B", {})] }

/-- `XRAY-1`, high, affecting component A only. -/
def xray1A : Issue :=
  { IssueId := "XRAY-1", Severity := Severity.high, Summary := "summary-1",
    Components := [("component-A", {})] }

/-- `XRAY-2`, low, affecting components C and D. -/
def xray2CD : Issue :=
  { IssueId := "XRAY-2", Severity := Severity.low, Summary := "summary-2",
    Components := [("component-C", {}), ("component-D", {})] }

/-- `XRAY-2`, low, affecting component C only. -/
def xray2C : Issue :=
  { IssueId := "XRAY-2", Severity := Severity.low, Summary := "summary-2",
    Components := [("component-C", {})] }

/-! ## Part 2. Pull requests, comments and configuration -/

/-- A branch of a pull request (`vcsclient.BranchInfo`). -/
structure BranchInfo where
  Name : String := ""
  Repository : String := ""
deriving DecidableEq, Repr, Inhabited

/-- An open pull request (`vcsclient.PullRequestInfo`). -/
structure PullRequestInfo where
  ID : Int := 0
  Source : BranchInfo := {}
  Target : BranchInfo := {}
deriving DecidableEq, Repr, Inhabited

/-- A pull-request comment (`vcsclient.CommentInfo`). `Created` is the instant of the
`time.Time` value, so that `a.Created.After(b.Created)` is `a.Created > b.Created`. -/
structure CommentInfo where
  ID : Int := 0
  Content : String := ""
  Created : Int := 0
deriving DecidableEq, Repr, Inhabited

/-- Connection details of the JFrog platform (`utils.JFrogEnvParams`); its content is
only copied by the code under study. -/
structure JFrogEnvParams where
  Server : String := ""
deriving DecidableEq, Repr, Inhabited

/-- One project of a repository (`utils.Project`); only copied by the code under study. -/
structure Project where
  InstallCommandName : String := ""
  InstallCommandArgs : List String := []
  WorkingDirs : List String := []
deriving DecidableEq, Repr, Inhabited

/-- Git parameters (`utils.GitParams`). Every field defaults to the Go zero value. -/
structure GitParams where
  GitProvider : Nat := 0
  Token : String := ""
  ApiEndpoint : String := ""
  RepoOwner : String := ""
  RepoName : String := ""
  BaseBranch : String := ""
  PullRequestID : Int := 0
deriving DecidableEq, Repr, Inhabited

/-- Configuration of one repository (`utils.FrogbotRepoConfig`). `GitParams` is an
embedded struct in Go, so its fields are promoted (`repo.RepoOwner`). -/
structure FrogbotRepoConfig extends GitParams where
  SimplifiedOutput : Bool := false
  IncludeAllVulnerabilities : Bool := false
  FailOnSecurityIssues : Bool := false
  Watches : List String := []
  JFrogEnvParams : JFrogEnvParams := {}
  Projects : List Project := []
  ProjectKey : String := ""
deriving DecidableEq, Repr, Inhabited

/-- The configurations of all repositories (`utils.FrogbotConfigAggregator`). -/
abbrev FrogbotConfigAggregator := List FrogbotRepoConfig

/-- Identifier of a banner image (`utils.ImageSource`, a Go string type). -/
abbrev ImageSource := String

/-! ## Part 3. Effects: the world, the event log and the collaborators -/

/-- What the code under study does to the outside, in the order it does it. The first
eight constructors are calls on collaborators; `decided`, `scanned` and `swept` record
the value a callee of this file returned to its caller. -/
inductive Event where
  | ListOpenPullRequests (owner repository : String)
  | ListPullRequestComments (owner repository : String) (prID : Int)
  | downloadRepoToTempDir (git : GitParams)
  | cleanup
  | Chdir (wd : String)
  | restoreDir
  | scanPullRequest (config : FrogbotRepoConfig)
  | logError (e : Error)
  | decided (prID : Int) (shouldScan : Bool) (err : Option Error)
  | scanned (pr : PullRequestInfo) (err : Option Error)
  | swept (repo : FrogbotRepoConfig) (err : Option Error)
deriving DecidableEq, Repr

/-- The state threaded through the program: the external world and the log of events so
far. -/
structure Machine (σ : Type) where
  world : σ
  log : List Event

/-- Append one event to the log. -/
def Machine.record {σ : Type} (s : Machine σ) (e : Event) : Machine σ :=
  { world := s.world, log := s.log ++ [e] }

/-- A Go closure `func() error` acting on the world (`cleanup`, `restoreDir`). -/
abbrev Closure (σ : Type) := σ → Option Error × σ

/-- The collaborators and the parts of package `utils` that are not in the sources at
hand, as functions on an abstract world `σ`.
* `ListOpenPullRequests`, `ListPullRequestComments`: the `vcsclient.VcsClient` methods;
  a Go call returns both a value and an error.
* `sortSlice`: Go `sort.Slice` on a comment slice with the given `less`.
* `unicodeToLower`: the rune mapping `unicode.ToLower`.
* `RescanRequestComment`, `NoVulnerabilityBannerSource`, `VulnerabilitiesBannerSource`,
  `GetSimplifiedTitle`: constants and function of package `utils`.
* `downloadRepoToTempDir`, `Chdir`, `scanPullRequest`: functions of packages `commands`
  and `utils`; the first two also return the closure that undoes them. -/
structure Env (σ : Type) where
  ListOpenPullRequests : String → String → σ → (List PullRequestInfo × Option Error) × σ
  ListPullRequestComments :
    String → String → Int → σ → (List CommentInfo × Option Error) × σ
  sortSlice : (CommentInfo → CommentInfo → Bool) → List CommentInfo → List CommentInfo
  unicodeToLower : Char → Char
  RescanRequestComment : String
  NoVulnerabilityBannerSource : ImageSource
  VulnerabilitiesBannerSource : ImageSource
  GetSimplifiedTitle : ImageSource → String
  downloadRepoToTempDir : GitParams → σ → (String × Closure σ × Option Error) × σ
  Chdir : String → σ → (Closure σ × Option Error) × σ
  scanPullRequest : FrogbotRepoConfig → σ → Option Error × σ

/-- The call `client.ListOpenPullRequests(ctx, owner, repository)`, logged. -/
def Env.callListOpenPullRequests {σ : Type} (env : Env σ) (owner repository : String)
    (s : Machine σ) : (List PullRequestInfo × Option Error) × Machine σ :=
  let r := env.ListOpenPullRequests owner repository s.world
  (r.1, { world := r.2, log := s.log ++ [Event.ListOpenPullRequests owner repository] })

/-- The call `client.ListPullRequestComments(ctx, owner, repository, prID)`, logged. -/
def Env.callListPullRequestComments {σ : Type} (env : Env σ) (owner repository : String)
    (prID : Int) (s : Machine σ) : (List CommentInfo × Option Error) × Machine σ :=
  let r := env.ListPullRequestComments owner repository prID s.world
  (r.1, { world := r.2,
          log := s.log ++ [Event.ListPullRequestComments owner repository prID] })

/-- The call `downloadRepoToTempDir(client, &git)`, logged. -/
def Env.callDownloadRepoToTempDir {σ : Type} (env : Env σ) (git : GitParams)
    (s : Machine σ) : (String × Closure σ × Option Error) × Machine σ :=
  let r := env.downloadRepoToTempDir git s.world
  (r.1, { world := r.2, log := s.log ++ [Event.downloadRepoToTempDir git] })

/-- The call `utils.Chdir(wd)`, logged. -/
def Env.callChdir {σ : Type} (env : Env σ) (wd : String) (s : Machine σ) :
    (Closure σ × Option Error) × Machine σ :=
  let r := env.Chdir wd s.world
  (r.1, { world := r.2, log := s.log ++ [Event.Chdir wd] })

/-- The call `scanPullRequest(config, client)`, logged. -/
def Env.callScanPullRequest {σ : Type} (env : Env σ) (config : FrogbotRepoConfig)
    (s : Machine σ) : Option Error × Machine σ :=
  let r := env.scanPullRequest config s.world
  (r.1, { world := r.2, log := s.log ++ [Event.scanPullRequest config] })

/-- The call `cleanup()` of the closure returned by `downloadRepoToTempDir`, logged. -/
def callCleanup {σ : Type} (cleanup : Closure σ) (s : Machine σ) :
    Option Error × Machine σ :=
  let r := cleanup s.world
  (r.1, { world := r.2, log := s.log ++ [Event.cleanup] })

/-- The call `restoreDir()` of the closure returned by `utils.Chdir`, logged. -/
def callRestoreDir {σ : Type} (restoreDir : Closure σ) (s : Machine σ) :
    Option Error × Machine σ :=
  let r := restoreDir s.world
  (r.1, { world := r.2, log := s.log ++ [Event.restoreDir] })

/-- The statement `if e != nil { err = e; clientLog.Error(e) }`: the new value of `err`
and the machine after the log call. -/
def recordError {σ : Type} (e err : Option Error) (s : Machine σ) :
    Option Error × Machine σ :=
  match e with
  | some msg => (some msg, s.record (Event.logError msg))
  | none => (err, s)

/-! ## Part 4. The scan decision (`commands/scanpullrequests.go`) -/

/-- Go `unicode.IsSpace`: the Latin-1 spaces and the Unicode space separators. -/
def isSpace (c : Char) : Bool :=
  c = '\t' || c = '\n' || c = Char.ofNat 0x0B || c = Char.ofNat 0x0C || c = '\r' || c = ' '
    || c = Char.ofNat 0x85 || c = Char.ofNat 0xA0 || c = Char.ofNat 0x1680
    || (0x2000 ≤ c.toNat && c.toNat ≤ 0x200A)
    || c = Char.ofNat 0x2028 || c = Char.ofNat 0x2029 || c = Char.ofNat 0x202F
    || c = Char.ofNat 0x205F || c = Char.ofNat 0x3000

/-- Go `strings.TrimSpace`: remove all leading and trailing white space. -/
def TrimSpace (s : String) : String :=
  String.mk ((s.data.dropWhile isSpace).reverse.dropWhile isSpace).reverse

/-- Go `strings.ToLower`: map every rune by `unicode.ToLower`. -/
def ToLower {σ : Type} (env : Env σ) (s : String) : String :=
  String.mk (s.data.map env.unicodeToLower)

/-- Go `strings.HasPrefix(s, p)`. -/
def HasPrefix (s p : String) : Bool :=
  p.data.isPrefixOf s.data

/-- Source: `isFrogbotRescanComment`. -/
def isFrogbotRescanComment {σ : Type} (env : Env σ) (comment : String) : Bool :=
  ToLower env (TrimSpace comment) == env.RescanRequestComment

/-- Source: `isFrogbotResultComment`. -/
def isFrogbotResultComment {σ : Type} (env : Env σ) (comment : String) : Bool :=
  HasPrefix comment (env.GetSimplifiedTitle env.NoVulnerabilityBannerSource)
    || HasPrefix comment (env.GetSimplifiedTitle env.VulnerabilitiesBannerSource)

/-- The `less` function given to `sort.Slice`:
`pullRequestsComments[i].Created.After(pullRequestsComments[j].Created)`. -/
def createdAfter (a b : CommentInfo) : Bool :=
  decide (a.Created > b.Created)

/-- The `for _, comment := range pullRequestsComments` loop of `shouldScanPullRequest`
with the `return true, nil` that follows it. -/
def scanDecision {σ : Type} (env : Env σ) : List CommentInfo → Bool × Option Error
  | [] => (true, none)
  | comment :: rest =>
    if isFrogbotRescanComment env comment.Content then (true, none)
    else if isFrogbotResultComment env comment.Content then (false, none)
    else scanDecision env rest

/-- Source: `shouldScanPullRequest`. The results are named `(shouldScan, err)`, so the
bare `return` after a failed listing returns `(false, err)`. -/
def shouldScanPullRequest {σ : Type} (env : Env σ) (repo : FrogbotRepoConfig) (prID : Int)
    (s : Machine σ) : (Bool × Option Error) × Machine σ :=
  let call := env.callListPullRequestComments repo.RepoOwner repo.RepoName prID s
  let pullRequestsComments := call.1.1
  let err := call.1.2
  if err ≠ none then ((false, err), call.2)
  else (scanDecision env (env.sortSlice createdAfter pullRequestsComments), call.2)

/-! ## Part 5. The orchestrator (`commands/scanpullrequests.go`) -/

/-- Source: `downloadAndScanPullRequest`. The result is unnamed, so the value of each
`return` is fixed before the deferred closures run; these assign to the local `err`
only. Deferred calls run last-in first-out: `restoreDir`, then `cleanup`. -/
def downloadAndScanPullRequest {σ : Type} (env : Env σ) (pr : PullRequestInfo)
    (repo : FrogbotRepoConfig) (s : Machine σ) : Option Error × Machine σ :=
  let frogbotParams : FrogbotRepoConfig :=
    { JFrogEnvParams := repo.JFrogEnvParams
      GitProvider := repo.GitProvider
      Token := repo.Token
      ApiEndpoint := repo.ApiEndpoint
      RepoOwner := repo.RepoOwner
      RepoName := pr.Source.Repository
      BaseBranch := pr.Source.Name }
  let download := env.callDownloadRepoToTempDir frogbotParams.toGitParams s
  let wd := download.1.1
  let cleanup := download.1.2.1
  let err := download.1.2.2
  if err ≠ none then (err, download.2)
  else
    let chdir := env.callChdir wd download.2
    let restoreDir := chdir.1.1
    let err := chdir.1.2
    if err ≠ none then
      let cleaned := callCleanup cleanup chdir.2
      (err, cleaned.2)
    else
      let frogbotParams : FrogbotRepoConfig :=
        { SimplifiedOutput := true
          IncludeAllVulnerabilities := repo.IncludeAllVulnerabilities
          FailOnSecurityIssues := repo.FailOnSecurityIssues
          Watches := repo.Watches
          JFrogEnvParams := repo.JFrogEnvParams
          GitProvider := repo.GitProvider
          Token := repo.Token
          ApiEndpoint := repo.ApiEndpoint
          RepoOwner := repo.RepoOwner
          RepoName := pr.Target.Repository
          BaseBranch := pr.Target.Name
          PullRequestID := pr.ID
          Projects := repo.Projects
          ProjectKey := repo.ProjectKey }
      let scan := env.callScanPullRequest frogbotParams chdir.2
      let restored := callRestoreDir restoreDir scan.2
      let cleaned := callCleanup cleanup restored.2
      (scan.1, cleaned.2)

/-- The `for _, pr := range openPullRequests` loop of `scanAllPullRequests` with the
`return err` that follows it; `err` is the named result at loop entry. -/
def scanLoop {σ : Type} (env : Env σ) (repo : FrogbotRepoConfig) :
    List PullRequestInfo → Option Error → Machine σ → Option Error × Machine σ
  | [], err, s => (err, s)
  | pr :: rest, err, s =>
    let decision := shouldScanPullRequest env repo pr.ID s
    let shouldScan := decision.1.1
    let e := decision.1.2
    let noted := recordError e err (decision.2.record (Event.decided pr.ID shouldScan e))
    if shouldScan then
      let scan := downloadAndScanPullRequest env pr repo noted.2
      let e := scan.1
      let noted := recordError e noted.1 (scan.2.record (Event.scanned pr e))
      scanLoop env repo rest noted.1 noted.2
    else scanLoop env repo rest noted.1 noted.2

/-- Source: `scanAllPullRequests`. -/
def scanAllPullRequests {σ : Type} (env : Env σ) (repo : FrogbotRepoConfig)
    (s : Machine σ) : Option Error × Machine σ :=
  let call := env.callListOpenPullRequests repo.RepoOwner repo.RepoName s
  let openPullRequests := call.1.1
  let err := call.1.2
  if err ≠ none then (err, call.2)
  else scanLoop env repo openPullRequests err call.2

/-- Source: `ScanAllPullRequestsCmd.Run`. -/
def ScanAllPullRequestsCmd.Run {σ : Type} (env : Env σ) :
    FrogbotConfigAggregator → Machine σ → Option Error × Machine σ
  | [], s => (none, s)
  | config :: rest, s =>
    let sweep := scanAllPullRequests env config s
    let err := sweep.1
    let s1 := sweep.2.record (Event.swept config err)
    if err ≠ none then (err, s1)
    else ScanAllPullRequestsCmd.Run env rest s1

/-! ## Part 6. Views of the event log used to state the properties -/

/-- Whether an event is a step of the sweep over the pull requests of one repository:
the listing of the comments of a pull request (the one collaborator call of
`shouldScanPullRequest`), the decision returned, the download that opens
`downloadAndScanPullRequest`, and the result the latter returned. -/
def Event.isSweepStep : Event → Bool
  | Event.ListPullRequestComments _ _ _ => true
  | Event.decided _ _ _ => true
  | Event.downloadRepoToTempDir _ => true
  | Event.scanned _ _ => true
  | _ => false

/-- Whether an event is a step of the loop over repositories: the listing of the open
pull requests that opens `scanAllPullRequests`, and the result the latter returned. -/
def Event.isRepoStep : Event → Bool
  | Event.ListOpenPullRequests _ _ => true
  | Event.swept _ _ => true
  | _ => false

/-- The error a step of the sweep returned: the error of a decision or of a scan. -/
def Event.stepError : Event → Option Error
  | Event.decided _ _ err => err
  | Event.scanned _ err => err
  | _ => none

/-- Whether an event lies below the sweep: it is neither a sweep step nor a repository
step (chdir, scan, restore, cleanup, error logging). -/
def Event.isInner (ev : Event) : Bool :=
  !ev.isSweepStep && !ev.isRepoStep

/-- The git parameters of the source branch of a pull request, as
`downloadAndScanPullRequest` passes them to `downloadRepoToTempDir`. -/
def sourceBranchParams (repo : FrogbotRepoConfig) (pr : PullRequestInfo) : GitParams :=
  { GitProvider := repo.GitProvider
    Token := repo.Token
    ApiEndpoint := repo.ApiEndpoint
    RepoOwner := repo.RepoOwner
    RepoName := pr.Source.Repository
    BaseBranch := pr.Source.Name }

/-- The sweep steps of one pull request whose decision was `outcome.1` with error
`outcome.2.1`: its comments are listed and the decision is returned; the download and
the scan result `outcome.2.2` follow exactly when the decision was to scan. -/
def prSteps (repo : FrogbotRepoConfig) (pr : PullRequestInfo)
    (outcome : Bool × Option Error × Option Error) : List Event :=
  [Event.ListPullRequestComments repo.RepoOwner repo.RepoName pr.ID,
    Event.decided pr.ID outcome.1 outcome.2.1]
  ++ (if outcome.1 then
        [Event.downloadRepoToTempDir (sourceBranchParams repo pr),
          Event.scanned pr outcome.2.2]
      else [])

/-- The repository steps of one swept repository whose sweep returned `err`. -/
def repoSteps (config : FrogbotRepoConfig) (err : Option Error) : List Event :=
  [Event.ListOpenPullRequests config.RepoOwner config.RepoName, Event.swept config err]

/-! ## Part 7. A sample world -/

/-- Insertion sort, one implementation of the contract of `sort.Slice`: the result is a
permutation in which no element is `less` than one before it. -/
def insertionSortSlice (less : CommentInfo → CommentInfo → Bool) (l : List CommentInfo) :
    List CommentInfo :=
  l.insertionSort (fun a b => less b a = false)

/-- A sample world without state. The open pull requests of each repository (by name),
the comments of each pull request (by id) and the outcome of each scan (by pull request
id) are given; download, chdir, cleanup and restore succeed. The rescan phrase and the
two titles are sample values. -/
def sampleEnv (openPullRequests : String → List PullRequestInfo × Option Error)
    (comments : Int → List CommentInfo × Option Error)
    (scanResult : Int → Option Error) : Env Unit :=
  { ListOpenPullRequests := fun _ repository w => (openPullRequests repository, w)
    ListPullRequestComments := fun _ _ prID w => (comments prID, w)
    sortSlice := insertionSortSlice
    unicodeToLower := Char.toLower
    RescanRequestComment := "rescan"
    NoVulnerabilityBannerSource := "noVulnerabilityBanner"
    VulnerabilitiesBannerSource := "vulnerabilitiesBanner"
    GetSimplifiedTitle := fun source =>
      if source = "noVulnerabilityBanner" then "**Frogbot found no new vulnerabilities**"
      else if source = "vulnerabilitiesBanner" then "**Frogbot found the issues below**"
      else ""
    downloadRepoToTempDir := fun git w => ((git.BaseBranch, fun w => (none, w), none), w)
    Chdir := fun _ w => ((fun w => (none, w), none), w)
    scanPullRequest := fun config w => (scanResult config.PullRequestID, w) }

/-- The start of a run in the sample world: no event yet. -/
def start : Machine Unit :=
  { world := (), log := [] }

/-- A rescan request created at time `t`. -/
def rescanAt (t : Int) : CommentInfo :=
  { Content := " Rescan\n", Created := t }

/-- A scan-result comment created at time `t`. -/
def resultAt (t : Int) : CommentInfo :=
  { Content := "**Frogbot found the issues below**\n| table |", Created := t }

/-- A comment that is neither, created at time `t`. -/
def chatAt (t : Int) : CommentInfo :=
  { Content := "looks good to me", Created := t }

/-- The sample world of one pull request with the given comments. -/
def commentsEnv (comments : List CommentInfo) : Env Unit :=
  sampleEnv (fun _ => ([], none)) (fun _ => (comments, none)) (fun _ => none)

/-- Pull request number `n`, from the given branch to branch `main`. -/
def pullRequest (n : Int) (branch : String) : PullRequestInfo :=
  { ID := n
    Source := { Name := branch, Repository := "repo-a" }
    Target := { Name := "main", Repository := "repo-a" } }

/-- Three open pull requests. -/
def threePullRequests : List PullRequestInfo :=
  [pullRequest 1 "feature-1", pullRequest 2 "feature-2", pullRequest 3 "feature-3"]

/-- Sample repositories. -/
def repoA : FrogbotRepoConfig :=
  { RepoOwner := "jfrog", RepoName := "repo-a" }

/-- A second sample repository. -/
def repoB : FrogbotRepoConfig :=
  { RepoOwner := "jfrog", RepoName := "repo-b" }

/-- Three open pull requests without comments in every repository; the scan of a pull
request listed in `failing` fails with the error listed for it. -/
def sweepEnv (failing : List (Int × Error)) : Env Unit :=
  sampleEnv (fun _ => (threePullRequests, none)) (fun _ => ([], none))
    (fun prID => failing.lookup prID)

/-- Three open pull requests; the comments of pull request 2 cannot be listed, pull
request 1 and 3 have none; every scan succeeds. -/
def listingFailsEnv : Env Unit :=
  sampleEnv (fun _ => (threePullRequests, none))
    (fun prID => if prID = 2 then ([rescanAt 1], some "comments unavailable") else ([], none))
    (fun _ => none)

/-- The listing of the open pull requests fails, although the failed call carries three
pull requests; comments can be listed and every scan would succeed. -/
def openListingFailsEnv : Env Unit :=
  sampleEnv (fun _ => (threePullRequests, some "pull requests unavailable"))
    (fun _ => ([rescanAt 1], none)) (fun _ => none)

/-! ## Part 8. Resources of one pull-request scan -/

/-- The configuration `downloadAndScanPullRequest` passes to `scanPullRequest`: the
target branch of the pull request and the scan settings of the repository. -/
def targetScanConfig (repo : FrogbotRepoConfig) (pr : PullRequestInfo) : FrogbotRepoConfig :=
  { SimplifiedOutput := true
    IncludeAllVulnerabilities := repo.IncludeAllVulnerabilities
    FailOnSecurityIssues := repo.FailOnSecurityIssues
    Watches := repo.Watches
    JFrogEnvParams := repo.JFrogEnvParams
    GitProvider := repo.GitProvider
    Token := repo.Token
    ApiEndpoint := repo.ApiEndpoint
    RepoOwner := repo.RepoOwner
    RepoName := pr.Target.Repository
    BaseBranch := pr.Target.Name
    PullRequestID := pr.ID
    Projects := repo.Projects
    ProjectKey := repo.ProjectKey }

/-- A sample world that holds the resources in use: a successful download adds
`tempdir`, which `cleanup` removes; a successful chdir adds `cwd`, which `restoreDir`
removes. Each of the five steps returns the error given for it. -/
def resourceEnv (downloadErr chdirErr scanErr restoreErr cleanupErr : Option Error) :
    Env (List String) :=
  { ListOpenPullRequests := fun _ _ w => ((threePullRequests, none), w)
    ListPullRequestComments := fun _ _ _ w => (([], none), w)
    sortSlice := insertionSortSlice
    unicodeToLower := Char.toLower
    RescanRequestComment := "rescan"
    NoVulnerabilityBannerSource := "noVulnerabilityBanner"
    VulnerabilitiesBannerSource := "vulnerabilitiesBanner"
    GetSimplifiedTitle := fun _ => "**Frogbot**"
    downloadRepoToTempDir := fun git w =>
      ((git.BaseBranch, fun w => (cleanupErr, w.erase "tempdir"), downloadErr),
        if downloadErr = none then "tempdir" :: w else w)
    Chdir := fun _ w =>
      ((fun w => (restoreErr, w.erase "cwd"), chdirErr),
        if chdirErr = none then "cwd" :: w else w)
    scanPullRequest := fun _ w => (scanErr, w) }

/-- The start of a run in the resource world: nothing in use, no event yet. -/
def idle : Machine (List String) :=
  { world := [], log := [] }

/-! ## Part 9. E-mail receivers (`commands/utils/email.go`) -/

/-- A commit (`vcsclient.CommitInfo`). -/
structure CommitInfo where
  Hash : String := ""
  AuthorName : String := ""
  CommitterName : String := ""
  Url : String := ""
  Timestamp : Int := 0
  Message : String := ""
  ParentHashes : List String := []
  AuthorEmail : String := ""
deriving DecidableEq, Repr, Inhabited

/-- Source: `excludedEmailAddresses`. -/
def excludedEmailAddresses : List String :=
  ["no-reply", "no_reply", "noreply", "no.reply", "frogbot"]

/-- Whether `sub` occurs in a list of characters: at its start or further on. -/
def containsChars (sub : List Char) : List Char → Bool
  | [] => sub.isEmpty
  | c :: cs => sub.isPrefixOf (c :: cs) || containsChars sub cs

/-- Go `strings.Contains(s, substr)`. -/
def Contains (s substr : String) : Bool :=
  containsChars substr.data s.data

/-- Source: `shouldExcludeEmailAddress`. -/
def shouldExcludeEmailAddress (emailAddress : String) : List String → Bool
  | [] => false
  | excludedEmailAddress :: rest =>
    if excludedEmailAddress ≠ "" && Contains emailAddress excludedEmailAddress then true
    else shouldExcludeEmailAddress emailAddress rest

/-- The set `datastructures.Set[string]` of gofrog, a Go map used as a set: its elements,
each once. `MakeSet` is the empty set. -/
abbrev StringSet := List String

/-- The method `Add` of `datastructures.Set`: `set.container[t] = struct{}{}`. -/
def StringSet.Add (set : StringSet) (t : String) : StringSet :=
  if t ∈ set then set else set ++ [t]

/-- The loop of `getEmailReceiversFromCommits` over the commits. -/
def collectEmailReceivers (preConfiguredEmailReceivers : List String) :
    List CommitInfo → StringSet → StringSet
  | [], emailReceivers => emailReceivers
  | commit :: rest, emailReceivers =>
    if shouldExcludeEmailAddress commit.AuthorEmail excludedEmailAddresses
        || shouldExcludeEmailAddress commit.AuthorEmail preConfiguredEmailReceivers then
      collectEmailReceivers preConfiguredEmailReceivers rest emailReceivers
    else
      collectEmailReceivers preConfiguredEmailReceivers rest
        (emailReceivers.Add commit.AuthorEmail)

/-- Source: `getEmailReceiversFromCommits`. `ToSlice` ranges over a Go map, whose order
is not specified: `mapOrder` is the order in which the elements come out. -/
def getEmailReceiversFromCommits (mapOrder : List String → List String)
    (commits : List CommitInfo) (preConfiguredEmailReceivers : List String) :
    List String × Option Error :=
  let emailReceivers := collectEmailReceivers preConfiguredEmailReceivers commits []
  (mapOrder emailReceivers, none)

/-- A commit by the given author. -/
def commitBy (email : String) : CommitInfo :=
  { AuthorEmail := email }

/-! ## Part 10. The scan of one pull request -/

/-- Modelled from the spec: the collaborators of the scan of one pull request, which
file `commands/scanpullrequest.go` (absent) consumes, as the spec's section on external
interfaces lists them: `DownloadRepository(owner, repo, branch) → local path`,
`Scan(workingDirs, scanParams) → [ScanResult]`, `Render([ReportRow]) → markdown` and
`AddComment(owner, repo, prID, body)`; and the two error values of that file:
`securityIssueFoundErr`, the distinguished security-gate error, and the error for a
configuration that is not that of a single repository. -/
structure ScanEnv (σ : Type) where
  DownloadRepository : String → String → String → σ → (String × Option Error) × σ
  Scan : List String → FrogbotRepoConfig → σ → (List ScanResult × Option Error) × σ
  Render : List ReportRow → String
  AddPullRequestComment : String → String → Int → String → σ → Option Error × σ
  securityIssueFoundErr : Error
  invalidConfigurationErr : Error

/-- Modelled from the spec: `scanPullRequest` (file `commands/scanpullrequest.go` is
absent), the scan of the pull request whose source branch is the working directory.
"Scan → download target branch (implicit, via the PR-scan primitive) → scan → diff →
render → post comment"; a failing step returns its error; then the security gate: "a
distinguished, user-visible error returned when new issues exist and the fail-on-issues
policy is set". -/
def scanPullRequest {σ : Type} (scanEnv : ScanEnv σ) (repoConfig : FrogbotRepoConfig)
    (w : σ) : Option Error × σ :=
  let source := scanEnv.Scan ["."] repoConfig w
  if source.1.2 ≠ none then (source.1.2, source.2)
  else
    let download := scanEnv.DownloadRepository repoConfig.RepoOwner repoConfig.RepoName
      repoConfig.BaseBranch source.2
    if download.1.2 ≠ none then (download.1.2, download.2)
    else
      let target := scanEnv.Scan [download.1.1] repoConfig download.2
      if target.1.2 ≠ none then (target.1.2, target.2)
      else
        let rows := createNewIssuesRows target.1.1 source.1.1
        if rows.2 ≠ none then (rows.2, target.2)
        else
          let message := scanEnv.Render rows.1
          let posted := scanEnv.AddPullRequestComment repoConfig.RepoOwner
            repoConfig.RepoName repoConfig.PullRequestID message target.2
          if posted.1 ≠ none then (posted.1, posted.2)
          else if repoConfig.FailOnSecurityIssues && !rows.1.isEmpty then
            (some scanEnv.securityIssueFoundErr, posted.2)
          else (none, posted.2)

/-- Modelled from the spec: `ScanPullRequestCmd.Run` (file
`commands/scanpullrequest.go` is absent), the "single-PR entry point (used by CI triggers
bound to one specific PR)": it scans the pull request of the one configured repository.
The spec says nothing on another number of repositories; that is an error here. -/
def ScanPullRequestCmd.Run {σ : Type} (scanEnv : ScanEnv σ)
    (configAggregator : FrogbotConfigAggregator) (w : σ) : Option Error × σ :=
  match configAggregator with
  | [repoConfig] => scanPullRequest scanEnv repoConfig w
  | _ => (some scanEnv.invalidConfigurationErr, w)

/-- A sample world for the scan of one pull request: the scan of the working directory
finds `current`, the scan of the downloaded target branch finds `previous`; every step
succeeds. -/
def sampleScanEnv (previous current : List ScanResult) : ScanEnv Unit :=
  { DownloadRepository := fun _ _ branch w => ((branch, none), w)
    Scan := fun workingDirs _ w => ((if workingDirs = ["."] then current else previous, none), w)
    Render := fun rows => if rows.isEmpty then "no new issues" else "new issues found"
    AddPullRequestComment := fun _ _ _ _ w => (none, w)
    securityIssueFoundErr := "issues were detected by Frogbot"
    invalidConfigurationErr := "a single repository configuration is expected" }

/-- A repository configuration bound to pull request 1 with the given policy. -/
def singleRepo (failOnSecurityIssues : Bool) : FrogbotRepoConfig :=
  { RepoOwner := "jfrog", RepoName := "test-proj", BaseBranch := "master",
    PullRequestID := 1, FailOnSecurityIssues := failOnSecurityIssues }

/-! ## Part 11. The naming templates -/

/-- The UTF-8 encoding of one character, as the bytes Go holds for it in a string. -/
def utf8Bytes (c : Char) : List Nat :=
  let n := c.toNat
  if n < 0x80 then [n]
  else if n < 0x800 then [0xC0 + n / 64, 0x80 + n % 64]
  else if n < 0x10000 then [0xE0 + n / 4096, 0x80 + n / 64 % 64, 0x80 + n % 64]
  else [0xF0 + n / 262144, 0x80 + n / 4096 % 64, 0x80 + n / 64 % 64, 0x80 + n % 64]

/-- The bytes of a Go string. -/
def stringBytes (s : String) : List Nat :=
  s.data.flatMap utf8Bytes

/-- MD5 (RFC 1321): rotation of a 32-bit word to the left. -/
def md5Rotl (x n : Nat) : Nat :=
  ((x <<< n) ||| (x >>> (32 - n))) % 4294967296

/-- MD5: the per-round shift amounts. -/
def md5Shifts : List Nat :=
  [7, 12, 17, 22, 7, 12, 17, 22, 7, 12, 17, 22, 7, 12, 17, 22,
   5, 9, 14, 20, 5, 9, 14, 20, 5, 9, 14, 20, 5, 9, 14, 20,
   4, 11, 16, 23, 4, 11, 16, 23, 4, 11, 16, 23, 4, 11, 16, 23,
   6, 10, 15, 21, 6, 10, 15, 21, 6, 10, 15, 21, 6, 10, 15, 21]

/-- MD5: the per-round constants `floor(2^32 * |sin(i + 1)|)`. -/
def md5Constants : List Nat :=
  [0xd76aa478, 0xe8c7b756, 0x242070db, 0xc1bdceee, 0xf57c0faf, 0x4787c62a, 0xa8304613,
   0xfd469501, 0x698098d8, 0x8b44f7af, 0xffff5bb1, 0x895cd7be, 0x6b901122, 0xfd987193,
   0xa679438e, 0x49b40821, 0xf61e2562, 0xc040b340, 0x265e5a51, 0xe9b6c7aa, 0xd62f105d,
   0x02441453, 0xd8a1e681, 0xe7d3fbc8, 0x21e1cde6, 0xc33707d6, 0xf4d50d87, 0x455a14ed,
   0xa9e3e905, 0xfcefa3f8, 0x676f02d9, 0x8d2a4c8a, 0xfffa3942, 0x8771f681, 0x6d9d6122,
   0xfde5380c, 0xa4beea44, 0x4bdecfa9, 0xf6bb4b60, 0xbebfbc70, 0x289b7ec6, 0xeaa127fa,
   0xd4ef3085, 0x04881d05, 0xd9d4d039, 0xe6db99e5, 0x1fa27cf8, 0xc4ac5665, 0xf4292244,
   0x432aff97, 0xab9423a7, 0xfc93a039, 0x655b59c3, 0x8f0ccc92, 0xffeff47d, 0x85845dd1,
   0x6fa87e4f, 0xfe2ce6e0, 0xa3014314, 0x4e0811a1, 0xf7537e82, 0xbd3af235, 0x2ad7d2bb,
   0xeb86d391]

/-- MD5: the padded message: a `0x80` byte, zero bytes up to 56 modulo 64, then the
length in bits as 8 little-endian bytes. -/
def md5Pad (message : List Nat) : List Nat :=
  let bits := message.length * 8 % 18446744073709551616
  message ++ [0x80] ++ List.replicate ((119 - message.length % 64) % 64) 0
    ++ (List.range 8).map (fun i => bits / 256 ^ i % 256)

/-- MD5: the 16 little-endian words of a 64-byte block. -/
def md5Words (block : List Nat) : List Nat :=
  (List.range 16).map fun i =>
    block.getD (4 * i) 0 + 256 * block.getD (4 * i + 1) 0
      + 65536 * block.getD (4 * i + 2) 0 + 16777216 * block.getD (4 * i + 3) 0

/-- MD5: one of the 64 rounds on the state `(A, B, C, D)`. -/
def md5Round (words : List Nat) (state : Nat × Nat × Nat × Nat) (i : Nat) :
    Nat × Nat × Nat × Nat :=
  let a := state.1
  let b := state.2.1
  let c := state.2.2.1
  let d := state.2.2.2
  let notB := b ^^^ 4294967295
  let notD := d ^^^ 4294967295
  let f :=
    if i < 16 then (b &&& c) ||| (notB &&& d)
    else if i < 32 then (d &&& b) ||| (notD &&& c)
    else if i < 48 then b ^^^ c ^^^ d
    else c ^^^ (b ||| notD)
  let g :=
    if i < 16 then i
    else if i < 32 then (5 * i + 1) % 16
    else if i < 48 then (3 * i + 5) % 16
    else 7 * i % 16
  let sum := (f + a + md5Constants.getD i 0 + words.getD g 0) % 4294967296
  (d, (b + md5Rotl sum (md5Shifts.getD i 0)) % 4294967296, b, c)

/-- MD5: the state after one 64-byte block. -/
def md5Block (state : Nat × Nat × Nat × Nat) (block : List Nat) : Nat × Nat × Nat × Nat :=
  let out := (List.range 64).foldl (md5Round (md5Words block)) state
  ((state.1 + out.1) % 4294967296, (state.2.1 + out.2.1) % 4294967296,
    (state.2.2.1 + out.2.2.1) % 4294967296, (state.2.2.2 + out.2.2.2) % 4294967296)

/-- MD5: the state after the first `count` blocks of the padded message. -/
def md5Blocks : Nat → List Nat → Nat × Nat × Nat × Nat → Nat × Nat × Nat × Nat
  | 0, _, state => state
  | count + 1, bytes, state => md5Blocks count (bytes.drop 64) (md5Block state (bytes.take 64))

/-- The two lower-case hexadecimal digits of a byte. -/
def hexByte (b : Nat) : List Char :=
  ["0123456789abcdef".data.getD (b / 16) '0', "0123456789abcdef".data.getD (b % 16) '0']

/-- The four little-endian bytes of a 32-bit word. -/
def wordBytes (x : Nat) : List Nat :=
  [x % 256, x / 256 % 256, x / 65536 % 256, x / 16777216 % 256]

/-- MD5 digest of a byte sequence, rendered as 32 hexadecimal digits
(`hex.EncodeToString(hash.Sum(nil))`). -/
def md5Hex (message : List Nat) : String :=
  let padded := md5Pad message
  let state := md5Blocks (padded.length / 64) padded
    (0x67452301, 0xefcdab89, 0x98badcfe, 0x10325476)
  String.mk ((wordBytes state.1 ++ wordBytes state.2.1 ++ wordBytes state.2.2.1
    ++ wordBytes state.2.2.2).flatMap hexByte)

/-- Modelled from the spec: `Md5Hash` of package `utils` (absent), the "deterministic
content hash (e.g., 128-bit digest rendered as hex)" of its arguments in sequence: the
MD5 digest of their concatenated bytes in hexadecimal, without error. -/
def Md5Hash (values : List String) : String × Option Error :=
  (md5Hex (values.flatMap stringBytes), none)

/-- The placeholder for the impacted package. -/
def PackagePlaceHolder : String := "$\x7bIMPACTED_PACKAGE\x7d"

/-- The placeholder for the fix version. -/
def FixVersionPlaceHolder : String := "$\x7bFIX_VERSION\x7d"

/-- The placeholder for the branch-name hash. -/
def BranchHashPlaceHolder : String := "$\x7bBRANCH_NAME_HASH\x7d"

/-- Modelled from the spec: the default branch-name template,
"branch name → `frogbot-<package>-<hash>`". -/
def BranchNameTemplate : String :=
  "frogbot-" ++ PackagePlaceHolder ++ "-" ++ BranchHashPlaceHolder

/-- Modelled from the spec: the default commit-message template,
"commit message → `Upgrade <package> to <version>`". -/
def CommitMessageTemplate : String :=
  "Upgrade " ++ PackagePlaceHolder ++ " to " ++ FixVersionPlaceHolder

/-- Modelled from the spec: the default pull-request title template,
"PR title → `[🐸 Frogbot] Update version of <package> to <version>`". -/
def PullRequestTitleTemplate : String :=
  "[🐸 Frogbot] Update version of " ++ PackagePlaceHolder ++ " to " ++ FixVersionPlaceHolder

/-- Modelled from the spec: the default branch-name template of the aggregated variant,
which "omits `IMPACTED_PACKAGE`/`FIX_VERSION` and is keyed by the
package-manager/ecosystem name instead"; the unit test expects
`frogbot-update-go-dependencies` for Go. -/
def AggregatedBranchNameTemplate : String :=
  "frogbot-update-" ++ BranchHashPlaceHolder ++ "-dependencies"

/-- Modelled from the spec: the substitution of the naming templates (file
`commands/utils/git.go` is absent), on characters. "Substitution is literal
find-and-replace; unknown placeholders are left verbatim": the template is read once from
left to right; where a placeholder of `values` starts, its value is put out and the
placeholder is skipped (`skip` counts the characters still to skip); any other character
is put out as it is. -/
def replacePlaceHolders (values : List (List Char × List Char)) :
    Nat → List Char → List Char
  | _, [] => []
  | skip + 1, _ :: cs => replacePlaceHolders values skip cs
  | 0, c :: cs =>
    match values.find? (fun entry => !entry.1.isEmpty && entry.1.isPrefixOf (c :: cs)) with
    | some entry => entry.2 ++ replacePlaceHolders values (entry.1.length - 1) cs
    | none => c :: replacePlaceHolders values 0 cs

/-- Modelled from the spec: the naming-template engine on strings: "given a naming
template string ... containing recognized placeholders, and a TemplateContext, produce a
final string". `values` pairs the placeholders of the context with their values.
Rendering cannot fail. -/
def renderTemplate (template : String) (values : List (String × String)) : String :=
  String.mk (replacePlaceHolders (values.map fun entry => (entry.1.data, entry.2.data)) 0
    template.data)

/-- The three recognized placeholders with the values of a template context: the
impacted package, the fix version and the hash. -/
def branchValues (impactedPackage fixVersion hash : String) : List (String × String) :=
  [(PackagePlaceHolder, impactedPackage), (FixVersionPlaceHolder, fixVersion),
    (BranchHashPlaceHolder, hash)]

/-- The naming templates of the configuration (`CustomTemplates` in the unit tests);
an empty template stands for the default. -/
structure CustomTemplates where
  branchNameTemplate : String := ""
  commitMessageTemplate : String := ""
  pullRequestTitleTemplate : String := ""
deriving DecidableEq, Repr, Inhabited

/-- The part of `GitManager` the naming functions read. -/
structure GitManager where
  customTemplates : CustomTemplates := {}
deriving DecidableEq, Repr, Inhabited

/-- A package manager (`coreutils.Technology`, a Go string type whose value is the name,
e.g. `go`). -/
abbrev Technology := String

/-- Modelled from the spec: `GenerateCommitMessage` (file `commands/utils/git.go` is
absent). All three recognized placeholders are substituted. The context of a commit
message is a package and a fix version, without a base branch to hash: its hash is the
empty string. -/
def GitManager.GenerateCommitMessage (gm : GitManager) (impactedPackage fixVersion : String) :
    String :=
  let template :=
    if gm.customTemplates.commitMessageTemplate = "" then CommitMessageTemplate
    else gm.customTemplates.commitMessageTemplate
  renderTemplate template (branchValues impactedPackage fixVersion "")

/-- Modelled from the spec: `GeneratePullRequestTitle` (file `commands/utils/git.go` is
absent). All three recognized placeholders are substituted. The context of a title is a
package and a fix version, without a base branch to hash: its hash is the empty string. -/
def GitManager.GeneratePullRequestTitle (gm : GitManager)
    (impactedPackage fixVersion : String) : String :=
  let template :=
    if gm.customTemplates.pullRequestTitleTemplate = "" then PullRequestTitleTemplate
    else gm.customTemplates.pullRequestTitleTemplate
  renderTemplate template (branchValues impactedPackage fixVersion "")

/-- Modelled from the spec: `GenerateFixBranchName` (file `commands/utils/git.go` is
absent). The hash is a digest of a seed built from the fix context; the unit test fixes
the seed: its expected hash `41b1f45136b25e3624b15999bd57a476` for branch `md5Branch`,
package `mquery` and version `3.4.5` is the MD5 digest of `frogbotmd5Branchmquery3.4.5`. -/
def GitManager.GenerateFixBranchName (gm : GitManager)
    (branch impactedPackage fixVersion : String) : String × Option Error :=
  let hash := Md5Hash ["frogbot", branch, impactedPackage, fixVersion]
  if hash.2 ≠ none then ("", hash.2)
  else
    let branchFormat :=
      if gm.customTemplates.branchNameTemplate = "" then BranchNameTemplate
      else gm.customTemplates.branchNameTemplate
    (renderTemplate branchFormat (branchValues impactedPackage fixVersion hash.1), none)

/-- Modelled from the spec: `GenerateAggregatedFixBranchName` (file
`commands/utils/git.go` is absent): "no single package/version pair is available"; the
name of the package manager takes the place of the hash. -/
def GitManager.GenerateAggregatedFixBranchName (gm : GitManager) (tech : Technology) :
    String × Option Error :=
  let branchFormat :=
    if gm.customTemplates.branchNameTemplate = "" then AggregatedBranchNameTemplate
    else gm.customTemplates.branchNameTemplate
  (renderTemplate branchFormat [(BranchHashPlaceHolder, tech)], none)

/-- A piece of a naming template: literal text, or a placeholder `$` `{` name `}`. -/
inductive Segment where
  | text (chars : List Char)
  | hole (name : List Char)
deriving DecidableEq, Repr

/-- The characters of a piece as written in the template. -/
def Segment.source : Segment → List Char
  | Segment.text chars => chars
  | Segment.hole name => '$' :: '\x7b' :: name ++ ['\x7d']

/-- Literal text holds no `$`; the name of a placeholder holds neither `$` nor the closing
brace. -/
def Segment.WellFormed : Segment → Prop
  | Segment.text chars => '$' ∉ chars
  | Segment.hole name => '$' ∉ name ∧ '\x7d' ∉ name

instance (segment : Segment) : Decidable segment.WellFormed := by
  cases segment <;> unfold Segment.WellFormed <;> infer_instance

/-- The characters a piece stands for under `values`: literal text stands for itself, a
placeholder for the value `values` gives it, and for itself when `values` has none. -/
def Segment.rendered (values : List (String × String)) : Segment → List Char
  | Segment.text chars => chars
  | Segment.hole name =>
    match values.find? (fun entry => entry.1.data = (Segment.hole name).source) with
    | some entry => entry.2.data
    | none => (Segment.hole name).source

/-- `result` is `template` with occurrences of placeholders of `values` replaced by their
values and every other character unchanged: the template is cut into stretches of text
in which no placeholder of `values` occurs, each but the last followed by a placeholder of
`values`; the result has the same stretches, with each placeholder replaced by its
value. -/
def IsRendering (values : List (String × String)) (template result : String) : Prop :=
  ∃ (pieces : List (List Char × String × String)) (last : List Char),
    template.data = pieces.flatMap (fun piece => piece.1 ++ piece.2.1.data) ++ last
    ∧ result.data = pieces.flatMap (fun piece => piece.1 ++ piece.2.2.data) ++ last
    ∧ (∀ piece ∈ pieces, piece.2 ∈ values ∧ ∀ entry ∈ values, ¬ entry.1.data <:+: piece.1)
    ∧ ∀ entry ∈ values, ¬ entry.1.data <:+: last

/-! ## Theorems, part 1. The vulnerability diff -/

theorem foldl_append_flatMap {α β : Type} (f : α → List β) (l : List α) (acc : List β) :
    l.foldl (fun rows x => rows ++ f x) acc = acc ++ l.flatMap f := by
  induction l generalizing acc with
  | nil => simp
  | cons x xs ih => simp [ih, List.append_assoc]

theorem mem_foldl_of_step {α β : Type} (g : List β → α → List β) (P : α → β → Prop)
    (hstep : ∀ s a x, x ∈ g s a ↔ x ∈ s ∨ P a x) (l : List α) (acc : List β) (x : β) :
    x ∈ l.foldl g acc ↔ x ∈ acc ∨ ∃ a ∈ l, P a x := by
  induction l generalizing acc with
  | nil => simp
  | cons a as ih =>
    rw [List.foldl_cons, ih, hstep]
    constructor
    · rintro ((h | h) | ⟨b, hb, h⟩)
      · exact Or.inl h
      · exact Or.inr ⟨a, List.mem_cons_self _ _, h⟩
      · exact Or.inr ⟨b, List.mem_cons_of_mem _ hb, h⟩
    · rintro (h | ⟨b, hb, h⟩)
      · exact Or.inl (Or.inl h)
      · rcases List.mem_cons.mp hb with rfl | hb
        · exact Or.inl (Or.inr h)
        · exact Or.inr ⟨b, hb, h⟩

theorem mem_collectIdentities (previous : List ScanResult) (x : IssueIdentity) :
    x ∈ collectIdentities previous ↔
      ∃ scan ∈ previous, ∃ iss ∈ scan.issues, ∃ entry ∈ iss.Components,
        iss.identity entry.1 = x := by
  unfold collectIdentities
  rw [mem_foldl_of_step _ (fun scan x => ∃ iss ∈ scan.issues, ∃ entry ∈ iss.Components,
        iss.identity entry.1 = x)]
  · simp
  · intro s scan y
    rw [mem_foldl_of_step _ (fun (iss : Issue) y => ∃ entry ∈ iss.Components,
        iss.identity entry.1 = y)]
    intro s iss y
    rw [mem_foldl_of_step _ (fun (entry : String × Component) y => iss.identity entry.1 = y)]
    intro s entry y
    rw [List.mem_insert_iff]
    constructor
    · rintro (h | h)
      · exact Or.inr h.symm
      · exact Or.inl h
    · rintro (h | h)
      · exact Or.inr h
      · exact Or.inl h.symm

theorem contains_collectIdentities (previous : List ScanResult) (issueId component : String) :
    (collectIdentities previous).contains (issueId, component)
      = occursIn previous issueId component := by
  rw [Bool.eq_iff_iff, List.contains_iff_exists_mem_beq]
  simp only [beq_iff_eq, exists_eq_right']
  rw [mem_collectIdentities]
  simp only [occursIn, List.any_eq_true, Bool.and_eq_true, beq_iff_eq, Issue.identity,
    Prod.mk.injEq]
  constructor
  · rintro ⟨scan, hs, iss, hi, entry, he, h1, h2⟩
    exact ⟨scan, hs, iss, hi, h1, entry, he, h2⟩
  · rintro ⟨scan, hs, iss, hi, h1, entry, he, h2⟩
    exact ⟨scan, hs, iss, hi, entry, he, h1, h2⟩

theorem foldl_components_all (iss : Issue) (entries : List (String × Component))
    (acc : List ReportRow) :
    entries.foldl (fun rows entry => rows ++ [iss.row entry.1]) acc
      = acc ++ entries.map (fun entry => iss.row entry.1) := by
  induction entries generalizing acc with
  | nil => simp
  | cons e es ih => simp [ih]

theorem foldl_components_new (p : String × Component → Bool) (iss : Issue)
    (entries : List (String × Component)) (acc : List ReportRow) :
    entries.foldl (fun rows entry => if p entry then rows else rows ++ [iss.row entry.1]) acc
      = acc ++ (entries.filter fun entry => !p entry).map (fun entry => iss.row entry.1) := by
  induction entries generalizing acc with
  | nil => simp
  | cons e es ih =>
    rw [List.foldl_cons, ih]
    cases h : p e
    · simp only [List.filter_cons, h, Bool.false_eq_true, if_false, Bool.not_false, if_true,
        List.map_cons, List.append_assoc, List.singleton_append]
    · simp only [List.filter_cons, h, if_true, Bool.not_true, Bool.false_eq_true, if_false]

theorem createNewIssuesRows_eq (previous current : List ScanResult) :
    createNewIssuesRows previous current =
      ((allIssues current).flatMap (fun iss =>
          (iss.Components.filter fun entry => !occursIn previous iss.IssueId entry.1).map
            (fun entry => iss.row entry.1)), none) := by
  unfold createNewIssuesRows allIssues
  simp only [Issue.identity, contains_collectIdentities]
  simp only [foldl_components_new (fun entry => occursIn previous _ entry.1)]
  rw [Prod.mk.injEq]
  refine ⟨?_, rfl⟩
  have inner : ∀ (l : List Issue) (acc : List ReportRow),
      l.foldl (fun rows iss => rows ++
          (iss.Components.filter fun entry => !occursIn previous iss.IssueId entry.1).map
            (fun entry => iss.row entry.1)) acc
        = acc ++ l.flatMap (fun iss =>
          (iss.Components.filter fun entry => !occursIn previous iss.IssueId entry.1).map
            (fun entry => iss.row entry.1)) :=
    fun l acc => foldl_append_flatMap _ l acc
  simp only [inner]
  rw [foldl_append_flatMap (fun scan : ScanResult => scan.issues.flatMap (fun iss =>
          (iss.Components.filter fun entry => !occursIn previous iss.IssueId entry.1).map
            (fun entry => iss.row entry.1)))]
  simp [List.flatMap_assoc]

theorem createAllIssuesRows_eq (current : List ScanResult) :
    createAllIssuesRows current =
      ((allIssues current).flatMap (fun iss =>
          iss.Components.map (fun entry => iss.row entry.1)), none) := by
  unfold createAllIssuesRows allIssues
  simp only [foldl_components_all]
  rw [Prod.mk.injEq]
  refine ⟨?_, rfl⟩
  have inner : ∀ (l : List Issue) (acc : List ReportRow),
      l.foldl (fun rows iss => rows ++ iss.Components.map (fun entry => iss.row entry.1)) acc
        = acc ++ l.flatMap (fun iss => iss.Components.map (fun entry => iss.row entry.1)) :=
    fun l acc => foldl_append_flatMap _ l acc
  simp only [inner]
  rw [foldl_append_flatMap (fun scan : ScanResult => scan.issues.flatMap (fun iss =>
          iss.Components.map (fun entry => iss.row entry.1)))]
  simp [List.flatMap_assoc]

theorem allIssues_violations (l : List Issue) : allIssues [{ Violations := l }] = l := by
  simp [allIssues, ScanResult.issues]

theorem Issue.row_injective (iss : Issue) : Function.Injective iss.row := by
  intro a b h
  simpa [Issue.row] using h

/-- C1. `createNewIssuesRows previous current` returns a nil error and exactly the rows
of the (issue, component) pairs of `current` whose identity occurs nowhere in
`previous`, issues in the order of `current`. In particular the result is empty when
every pair of `current` occurs in `previous` (so also when both hold the same pairs) and
when `current` holds no issue; previous `{XRAY-1: A,B}` with current
`{XRAY-1: A,B; XRAY-2: C,D}` gives exactly the two `XRAY-2` rows. -/
theorem createNewIssuesRows_diff (previous current : List ScanResult) :
    (createNewIssuesRows previous current).2 = none
    ∧ (createNewIssuesRows previous current).1 =
        (allIssues current).flatMap (fun iss =>
          (iss.Components.filter fun entry => !occursIn previous iss.IssueId entry.1).map
            fun entry =>
              ({ IssueId := iss.IssueId, Severity := iss.Severity,
                 ImpactedPackageName := entry.1 } : ReportRow))
    ∧ ((∀ iss ∈ allIssues current, ∀ entry ∈ iss.Components,
          occursIn previous iss.IssueId entry.1 = true) →
        (createNewIssuesRows previous current).1 = [])
    ∧ (allIssues current = [] → (createNewIssuesRows previous current).1 = [])
    ∧ createNewIssuesRows [{ Violations := [xray1AB] }] [{ Violations := [xray1AB, xray2CD] }]
        = ([{ IssueId := "XRAY-2", Severity := Severity.low, ImpactedPackageName := "component-C" },
            { IssueId := "XRAY-2", Severity := Severity.low, ImpactedPackageName := "component-D" }],
           none) := by
  refine ⟨rfl, ?_, ?_, ?_, by decide⟩
  · rw [createNewIssuesRows_eq]; rfl
  · intro h
    rw [createNewIssuesRows_eq]
    simp only [List.flatMap_eq_nil_iff, List.map_eq_nil_iff, List.filter_eq_nil_iff]
    intro iss hiss entry hentry
    simp [h iss hiss entry hentry]
  · intro h
    rw [createNewIssuesRows_eq, h]
    rfl

/-- C10. `createAllIssuesRows` returns a nil error and one row per (issue, component)
pair, grouped by issue in input order, each row carrying the id and severity of its
issue and the component as impacted package; the number of rows is the sum of the
component counts; an issue with zero components contributes no row (the result is the
same with and without it); two issues with two components each give four rows. -/
theorem createAllIssuesRows_rows (current : List ScanResult) :
    (createAllIssuesRows current).2 = none
    ∧ (createAllIssuesRows current).1 =
        (allIssues current).flatMap (fun iss =>
          iss.Components.map fun entry =>
            ({ IssueId := iss.IssueId, Severity := iss.Severity,
               ImpactedPackageName := entry.1 } : ReportRow))
    ∧ (createAllIssuesRows current).1.length
        = ((allIssues current).map fun iss => iss.Components.length).sum
    ∧ (∀ (without : List ScanResult) (pre post : List Issue) (iss : Issue),
        allIssues current = pre ++ iss :: post → allIssues without = pre ++ post →
        iss.Components = [] →
        createAllIssuesRows current = createAllIssuesRows without)
    ∧ createAllIssuesRows [{ Vulnerabilities := [xray1AB, xray2CD] }]
        = ([{ IssueId := "XRAY-1", Severity := Severity.high, ImpactedPackageName := "component-A" },
            { IssueId := "XRAY-1", Severity := Severity.high, ImpactedPackageName := "component-B" },
            { IssueId := "XRAY-2", Severity := Severity.low, ImpactedPackageName := "component-C" },
            { IssueId := "XRAY-2", Severity := Severity.low, ImpactedPackageName := "component-D" }],
           none) := by
  refine ⟨rfl, ?_, ?_, ?_, by decide⟩
  · rw [createAllIssuesRows_eq]; rfl
  · rw [createAllIssuesRows_eq]
    simp [List.length_flatMap, Function.comp_def]
  · intro without pre post iss hcurrent hwithout hempty
    rw [createAllIssuesRows_eq, createAllIssuesRows_eq, hcurrent, hwithout]
    simp [hempty]

/-- C9. When `previous` contains no violation and no vulnerability,
`createNewIssuesRows previous current` returns the same rows and nil error as
`createAllIssuesRows current`: every (issue, component) row of `current`, issues in the
order of `current`. -/
theorem createNewIssuesRows_empty_previous (previous current : List ScanResult)
    (hprev : ∀ scan ∈ previous, scan.Violations = [] ∧ scan.Vulnerabilities = []) :
    createNewIssuesRows previous current = createAllIssuesRows current
    ∧ (createNewIssuesRows previous current).2 = none
    ∧ (createNewIssuesRows previous current).1 =
        (allIssues current).flatMap (fun iss =>
          iss.Components.map fun entry =>
            ({ IssueId := iss.IssueId, Severity := iss.Severity,
               ImpactedPackageName := entry.1 } : ReportRow)) := by
  have hocc : ∀ issueId component, occursIn previous issueId component = false := by
    intro issueId component
    rw [Bool.eq_false_iff]
    intro h
    simp only [occursIn, List.any_eq_true] at h
    obtain ⟨scan, hscan, iss, hiss, _⟩ := h
    have := hprev scan hscan
    simp [ScanResult.issues, this.1, this.2] at hiss
  have heq : createNewIssuesRows previous current = createAllIssuesRows current := by
    rw [createNewIssuesRows_eq, createAllIssuesRows_eq]
    simp [hocc]
  refine ⟨heq, rfl, ?_⟩
  rw [heq, createAllIssuesRows_eq]; rfl

/-- Witness of C9: previous without violations and current
`{XRAY-1 affects A; XRAY-2 affects C}` give the rows `(XRAY-1, high, A)` then
`(XRAY-2, low, C)`. -/
theorem createNewIssuesRows_empty_previous_witness :
    (∀ scan ∈ [({ Violations := [] } : ScanResult)],
        scan.Violations = [] ∧ scan.Vulnerabilities = [])
    ∧ createNewIssuesRows [{ Violations := [] }] [{ Violations := [xray1A, xray2C] }]
        = ([{ IssueId := "XRAY-1", Severity := Severity.high, ImpactedPackageName := "component-A" },
            { IssueId := "XRAY-2", Severity := Severity.low, ImpactedPackageName := "component-C" }],
           none)
    ∧ createNewIssuesRows [{ Violations := [] }] [{ Violations := [xray1A, xray2C] }]
        = createAllIssuesRows [{ Violations := [xray1A, xray2C] }] :=
  ⟨by decide, by decide,
    (createNewIssuesRows_empty_previous [{ Violations := [] }]
      [{ Violations := [xray1A, xray2C] }] (by decide)).1⟩

theorem countP_rows_of_issue (previous : List ScanResult) (issueId component : String)
    (iss : Issue) (entries : List (String × Component)) :
    (((entries.filter fun entry => !occursIn previous iss.IssueId entry.1).map
        fun entry => iss.row entry.1).countP
      fun row => row.IssueId == issueId && row.ImpactedPackageName == component)
    = if occursIn previous issueId component = true then 0
      else (entries.map fun entry => iss.identity entry.1).count (issueId, component) := by
  induction entries with
  | nil => simp
  | cons e es ih =>
    by_cases hid : iss.IssueId = issueId
    · by_cases hcomp : e.1 = component
      · subst hid
        subst hcomp
        cases hold : occursIn previous iss.IssueId e.1
        · simp [List.filter_cons, hold, Issue.row, Issue.identity] at ih ⊢
          exact ih
        · simp [List.filter_cons, hold] at ih ⊢
          exact ih
      · have hne : ¬ (iss.identity e.1 = (issueId, component)) := by
          simp [Issue.identity, hcomp]
        have hrow : ((iss.row e.1).IssueId == issueId
            && (iss.row e.1).ImpactedPackageName == component) = false := by
          simp [Issue.row, hcomp]
        have hcnt : ((e :: es).map fun entry => iss.identity entry.1).count
              (issueId, component)
            = (es.map fun entry => iss.identity entry.1).count (issueId, component) := by
          simp [List.count_cons, hne]
        rw [hcnt, ← ih]
        cases hold : occursIn previous iss.IssueId e.1
        · simp [List.filter_cons, hold, List.countP_cons, hrow]
        · simp [List.filter_cons, hold]
    · have hne : ¬ (iss.identity e.1 = (issueId, component)) := by
        simp [Issue.identity, hid]
      have hrow : ((iss.row e.1).IssueId == issueId
          && (iss.row e.1).ImpactedPackageName == component) = false := by
        simp [Issue.row, hid]
      have hcnt : ((e :: es).map fun entry => iss.identity entry.1).count
            (issueId, component)
          = (es.map fun entry => iss.identity entry.1).count (issueId, component) := by
        simp [List.count_cons, hne]
      rw [hcnt, ← ih]
      cases hold : occursIn previous iss.IssueId e.1
      · simp [List.filter_cons, hold, List.countP_cons, hrow]
      · simp [List.filter_cons, hold]

theorem countP_rows_of_issues (previous : List ScanResult) (issueId component : String)
    (issues : List Issue) :
    ((issues.flatMap fun iss =>
        (iss.Components.filter fun entry => !occursIn previous iss.IssueId entry.1).map
          fun entry => iss.row entry.1).countP
      fun row => row.IssueId == issueId && row.ImpactedPackageName == component)
    = if occursIn previous issueId component = true then 0
      else (issues.flatMap fun iss =>
        iss.Components.map fun entry => iss.identity entry.1).count (issueId, component) := by
  induction issues with
  | nil => simp
  | cons iss rest ih =>
    rw [List.flatMap_cons, List.countP_append, ih, countP_rows_of_issue, List.flatMap_cons,
      List.count_append]
    split <;> rfl

/-- C8, counterexample: previous `{XRAY-1 affects A}` and a current made of two scan
results that both list `XRAY-1 affects A,B`: the issue occurs in both and affects B in
current only, yet two rows are emitted for B, one per listing. -/
theorem createNewIssuesRows_repeats_listed_twice :
    createNewIssuesRows [{ Vulnerabilities := [xray1A] }]
        [{ Vulnerabilities := [xray1AB] }, { Vulnerabilities := [xray1AB] }]
      = ([{ IssueId := "XRAY-1", Severity := Severity.high, ImpactedPackageName := "component-B" },
          { IssueId := "XRAY-1", Severity := Severity.high, ImpactedPackageName := "component-B" }],
         none)
    ∧ occursIn [{ Vulnerabilities := [xray1A] }] "XRAY-1" "component-B" = false
    ∧ occursIn [{ Vulnerabilities := [xray1A] }] "XRAY-1" "component-A" = true
    ∧ ((createNewIssuesRows [{ Vulnerabilities := [xray1A] }]
        [{ Vulnerabilities := [xray1AB] }, { Vulnerabilities := [xray1AB] }]).1.countP
        fun row => row.IssueId == "XRAY-1" && row.ImpactedPackageName == "component-B") = 2 := by
  decide

/-- C8, amended. For every issue id and component, the number of rows that
`createNewIssuesRows` emits for them is the number of times `current` lists the issue
with that component when the pair does not occur in `previous`, and zero when it does.
So a component the issue affects in current but not in previous gets exactly one row
when current lists the pair once, and a component it affects in both gets none. E.g.
previous `{XRAY-1 affects A}` and current `{XRAY-1 affects A,B; XRAY-2 affects C,D}` give
`[(XRAY-1,B), (XRAY-2,C), (XRAY-2,D)]`. -/
theorem createNewIssuesRows_new_components (previous current : List ScanResult)
    (issueId component : String) :
    (occursIn previous issueId component = false →
      ((createNewIssuesRows previous current).1.countP
          fun row => row.IssueId == issueId && row.ImpactedPackageName == component)
        = ((allIssues current).flatMap fun iss =>
            iss.Components.map fun entry => (iss.IssueId, entry.1)).count
              (issueId, component))
    ∧ (occursIn previous issueId component = false →
      ((allIssues current).flatMap fun iss =>
          iss.Components.map fun entry => (iss.IssueId, entry.1)).count
            (issueId, component) = 1 →
      ((createNewIssuesRows previous current).1.countP
          fun row => row.IssueId == issueId && row.ImpactedPackageName == component) = 1)
    ∧ (occursIn previous issueId component = true →
      ∀ row ∈ (createNewIssuesRows previous current).1,
        ¬ (row.IssueId = issueId ∧ row.ImpactedPackageName = component))
    ∧ createNewIssuesRows [{ Vulnerabilities := [xray1A] }]
          [{ Vulnerabilities := [xray1AB, xray2CD] }]
        = ([{ IssueId := "XRAY-1", Severity := Severity.high, ImpactedPackageName := "component-B" },
            { IssueId := "XRAY-2", Severity := Severity.low, ImpactedPackageName := "component-C" },
            { IssueId := "XRAY-2", Severity := Severity.low, ImpactedPackageName := "component-D" }],
           none) := by
  have hcount := countP_rows_of_issues previous issueId component (allIssues current)
  have hrows : (createNewIssuesRows previous current).1
      = (allIssues current).flatMap fun iss =>
          (iss.Components.filter fun entry => !occursIn previous iss.IssueId entry.1).map
            fun entry => iss.row entry.1 := by
    rw [createNewIssuesRows_eq]
  refine ⟨?_, ?_, ?_, by decide⟩
  · intro hnew
    rw [hrows, hcount]
    simp [hnew, Issue.identity]
  · intro hnew hone
    rw [hrows, hcount]
    simpa [hnew, Issue.identity] using hone
  · intro hold row hrow hpair
    have hzero : ((createNewIssuesRows previous current).1.countP
        fun row => row.IssueId == issueId && row.ImpactedPackageName == component) = 0 := by
      rw [hrows, hcount]
      simp [hold]
    rw [List.countP_eq_zero] at hzero
    exact hzero row hrow (by simp [hpair.1, hpair.2])

/-! ## Theorems, part 2. The scan decision -/

theorem scanDecision_of_no_bot {σ : Type} (env : Env σ) (l : List CommentInfo)
    (hnone : ∀ c ∈ l, isFrogbotRescanComment env c.Content = false
      ∧ isFrogbotResultComment env c.Content = false) :
    scanDecision env l = (true, none) := by
  induction l with
  | nil => rfl
  | cons c cs ih =>
    have hc := hnone c (List.mem_cons_self _ _)
    simp only [scanDecision, hc.1, hc.2, Bool.false_eq_true, if_false]
    exact ih fun d hd => hnone d (List.mem_cons_of_mem _ hd)

theorem scanDecision_of_first_bot {σ : Type} (env : Env σ) (l : List CommentInfo)
    (newest : CommentInfo)
    (hsorted : l.Pairwise (fun a b => createdAfter b a = false))
    (hmem : newest ∈ l)
    (hbot : isFrogbotRescanComment env newest.Content = true
      ∨ isFrogbotResultComment env newest.Content = true)
    (hothers : ∀ c ∈ l, (isFrogbotRescanComment env c.Content = true
      ∨ isFrogbotResultComment env c.Content = true) →
        c = newest ∨ c.Created < newest.Created) :
    scanDecision env l = (isFrogbotRescanComment env newest.Content, none) := by
  induction l with
  | nil => cases hmem
  | cons c cs ih =>
    rw [List.pairwise_cons] at hsorted
    by_cases hc : c = newest
    · subst hc
      cases hres : isFrogbotRescanComment env c.Content
      · have hresult : isFrogbotResultComment env c.Content = true := by
          rcases hbot with h | h
          · rw [hres] at h; cases h
          · exact h
        simp [scanDecision, hres, hresult]
      · simp [scanDecision, hres]
    · have hin : newest ∈ cs := by
        rcases List.mem_cons.mp hmem with h | h
        · exact absurd h.symm hc
        · exact h
      have horder : ¬ newest.Created > c.Created := by
        have := hsorted.1 newest hin
        simpa [createdAfter] using this
      have hquiet : isFrogbotRescanComment env c.Content = false
          ∧ isFrogbotResultComment env c.Content = false := by
        rw [← Bool.not_eq_true, ← Bool.not_eq_true, ← not_or]
        intro h
        rcases hothers c (List.mem_cons_self _ _) h with h1 | h1
        · exact hc h1
        · exact horder h1
      simp only [scanDecision, hquiet.1, hquiet.2, Bool.false_eq_true, if_false]
      exact ih hsorted.2 hin fun d hd => hothers d (List.mem_cons_of_mem _ hd)

theorem shouldScanPullRequest_of_listed {σ : Type} (env : Env σ) (repo : FrogbotRepoConfig)
    (prID : Int) (s : Machine σ) (comments : List CommentInfo) (w : σ)
    (hlist : env.ListPullRequestComments repo.RepoOwner repo.RepoName prID s.world
      = ((comments, none), w)) :
    shouldScanPullRequest env repo prID s
      = (scanDecision env (env.sortSlice createdAfter comments),
          { world := w,
            log := s.log ++
              [Event.ListPullRequestComments repo.RepoOwner repo.RepoName prID] }) := by
  simp [shouldScanPullRequest, Env.callListPullRequestComments, hlist]

/-- C3. When the comments are listed without error, `sort.Slice` returns a permutation
of them, and no comment is a rescan request or a scan-result comment (in particular when
there is no comment at all), `shouldScanPullRequest` returns `(true, nil)`. -/
theorem shouldScanPullRequest_no_bot_history {σ : Type} (env : Env σ)
    (repo : FrogbotRepoConfig) (prID : Int) (s : Machine σ) (comments : List CommentInfo)
    (w : σ)
    (hlist : env.ListPullRequestComments repo.RepoOwner repo.RepoName prID s.world
      = ((comments, none), w))
    (hperm : (env.sortSlice createdAfter comments).Perm comments)
    (hnone : ∀ c ∈ comments, isFrogbotRescanComment env c.Content = false
      ∧ isFrogbotResultComment env c.Content = false) :
    (shouldScanPullRequest env repo prID s).1 = (true, none) := by
  rw [shouldScanPullRequest_of_listed env repo prID s comments w hlist]
  exact scanDecision_of_no_bot env _ fun c hc => hnone c (hperm.mem_iff.mp hc)

theorem exists_newest_bot_comment {σ : Type} (env : Env σ) (l : List CommentInfo)
    (hsome : ∃ c ∈ l, isFrogbotRescanComment env c.Content = true
      ∨ isFrogbotResultComment env c.Content = true) :
    ∃ newest ∈ l,
      (isFrogbotRescanComment env newest.Content = true
        ∨ isFrogbotResultComment env newest.Content = true)
      ∧ ∀ c ∈ l, (isFrogbotRescanComment env c.Content = true
          ∨ isFrogbotResultComment env c.Content = true) → c.Created ≤ newest.Created := by
  induction l with
  | nil => obtain ⟨c, hc, _⟩ := hsome; cases hc
  | cons x xs ih =>
    by_cases hxs : ∃ c ∈ xs, isFrogbotRescanComment env c.Content = true
        ∨ isFrogbotResultComment env c.Content = true
    · obtain ⟨n, hn, hbot, hmax⟩ := ih hxs
      by_cases hx : (isFrogbotRescanComment env x.Content = true
          ∨ isFrogbotResultComment env x.Content = true) ∧ n.Created < x.Created
      · refine ⟨x, List.mem_cons_self _ _, hx.1, ?_⟩
        intro c hc hcbot
        rcases List.mem_cons.mp hc with rfl | hc
        · exact le_refl _
        · exact le_trans (hmax c hc hcbot) (le_of_lt hx.2)
      · refine ⟨n, List.mem_cons_of_mem _ hn, hbot, ?_⟩
        intro c hc hcbot
        rcases List.mem_cons.mp hc with rfl | hc
        · exact not_lt.mp fun hlt => hx ⟨hcbot, hlt⟩
        · exact hmax c hc hcbot
    · obtain ⟨c, hc, hcbot⟩ := hsome
      rcases List.mem_cons.mp hc with rfl | hc
      · refine ⟨c, List.mem_cons_self _ _, hcbot, ?_⟩
        intro d hd hdbot
        rcases List.mem_cons.mp hd with rfl | hd
        · exact le_refl _
        · exact absurd ⟨d, hd, hdbot⟩ hxs
      · exact absurd ⟨c, hc, hcbot⟩ hxs

/-- C2. Let the comments be listed without error, in any order, with pairwise distinct
creation times, at least one of them a rescan request or a scan-result comment, and let
`sort.Slice` meet its contract on them (a permutation in which no comment is created
after one before it). Then there is a most recently created comment among the rescan
requests and scan-result comments, and for this comment `newest`,
`shouldScanPullRequest` returns a nil error and `shouldScan = true` exactly when `newest`
is a rescan request (`false` when it is a scan-result comment); no other comment affects
the decision. -/
theorem shouldScanPullRequest_newest_bot_comment {σ : Type} (env : Env σ)
    (repo : FrogbotRepoConfig) (prID : Int) (s : Machine σ) (comments : List CommentInfo)
    (w : σ)
    (hlist : env.ListPullRequestComments repo.RepoOwner repo.RepoName prID s.world
      = ((comments, none), w))
    (hperm : (env.sortSlice createdAfter comments).Perm comments)
    (hsorted : (env.sortSlice createdAfter comments).Pairwise
      (fun a b => createdAfter b a = false))
    (hdistinct : (comments.map CommentInfo.Created).Nodup)
    (hsome : ∃ c ∈ comments, isFrogbotRescanComment env c.Content = true
      ∨ isFrogbotResultComment env c.Content = true) :
    (∃ newest ∈ comments,
      (isFrogbotRescanComment env newest.Content = true
        ∨ isFrogbotResultComment env newest.Content = true)
      ∧ ∀ c ∈ comments, (isFrogbotRescanComment env c.Content = true
          ∨ isFrogbotResultComment env c.Content = true) → c.Created ≤ newest.Created)
    ∧ ∀ newest ∈ comments,
        (isFrogbotRescanComment env newest.Content = true
          ∨ isFrogbotResultComment env newest.Content = true) →
        (∀ c ∈ comments, (isFrogbotRescanComment env c.Content = true
          ∨ isFrogbotResultComment env c.Content = true) → c.Created ≤ newest.Created) →
        (shouldScanPullRequest env repo prID s).1
          = (isFrogbotRescanComment env newest.Content, none) := by
  refine ⟨exists_newest_bot_comment env comments hsome, ?_⟩
  intro newest hmem hbot hnewest
  rw [shouldScanPullRequest_of_listed env repo prID s comments w hlist]
  apply scanDecision_of_first_bot env _ newest hsorted (hperm.mem_iff.mpr hmem) hbot
  intro c hc hcbot
  have hc' : c ∈ comments := hperm.mem_iff.mp hc
  rcases lt_or_eq_of_le (hnewest c hc' hcbot) with h | h
  · exact Or.inr h
  · exact Or.inl (List.inj_on_of_nodup_map hdistinct hc' hmem h)

theorem insertionSortSlice_perm (less : CommentInfo → CommentInfo → Bool)
    (l : List CommentInfo) : (insertionSortSlice less l).Perm l :=
  List.perm_insertionSort _ l

theorem insertionSortSlice_sorted (l : List CommentInfo) :
    (insertionSortSlice createdAfter l).Pairwise (fun a b => createdAfter b a = false) := by
  have htotal : IsTotal CommentInfo (fun a b => createdAfter b a = false) :=
    ⟨fun a b => by
      simp only [createdAfter, decide_eq_false_iff_not, not_lt]
      exact le_total _ _⟩
  have htrans : IsTrans CommentInfo (fun a b => createdAfter b a = false) :=
    ⟨fun a b c hab hbc => by
      simp only [createdAfter, decide_eq_false_iff_not, not_lt] at hab hbc ⊢
      exact le_trans hbc hab⟩
  exact List.sorted_insertionSort (fun a b => createdAfter b a = false) l

/-! ## Theorems, part 3. The sweep over the pull requests of one repository -/

theorem Machine.record_log {σ : Type} (s : Machine σ) (e : Event) :
    (s.record e).log = s.log ++ [e] := rfl

theorem log_append_three (l : List Event) (a b c : Event) :
    l ++ [a] ++ [b] ++ [c] = l ++ a :: [b, c] := by simp

theorem log_append_five (l : List Event) (a b c d e : Event) :
    l ++ [a] ++ [b] ++ [c] ++ [d] ++ [e] = l ++ a :: [b, c, d, e] := by simp

theorem Event.stepError_of_isInner (ev : Event) (h : ev.isInner = true) :
    ev.stepError = none := by
  cases ev <;> simp_all [Event.isInner, Event.isSweepStep, Event.stepError]

theorem filter_of_inner (l : List Event) (h : ∀ ev ∈ l, ev.isInner = true) :
    l.filter Event.isSweepStep = [] ∧ l.filter Event.isRepoStep = []
      ∧ l.filterMap Event.stepError = [] := by
  refine ⟨?_, ?_, ?_⟩
  · rw [List.filter_eq_nil_iff]
    intro ev hev
    have := h ev hev
    simp only [Event.isInner, Bool.and_eq_true, Bool.not_eq_true'] at this
    simp [this.1]
  · rw [List.filter_eq_nil_iff]
    intro ev hev
    have := h ev hev
    simp only [Event.isInner, Bool.and_eq_true, Bool.not_eq_true'] at this
    simp [this.2]
  · rw [List.filterMap_eq_nil_iff]
    intro ev hev
    exact Event.stepError_of_isInner ev (h ev hev)

theorem shouldScanPullRequest_log {σ : Type} (env : Env σ) (repo : FrogbotRepoConfig)
    (prID : Int) (s : Machine σ) :
    (shouldScanPullRequest env repo prID s).2.log
      = s.log ++ [Event.ListPullRequestComments repo.RepoOwner repo.RepoName prID] := by
  unfold shouldScanPullRequest
  simp only [Env.callListPullRequestComments]
  split <;> rfl

theorem downloadAndScanPullRequest_log {σ : Type} (env : Env σ) (pr : PullRequestInfo)
    (repo : FrogbotRepoConfig) (s : Machine σ) :
    ∃ inner, (downloadAndScanPullRequest env pr repo s).2.log
        = s.log ++ Event.downloadRepoToTempDir (sourceBranchParams repo pr) :: inner
      ∧ ∀ ev ∈ inner, ev.isInner = true := by
  unfold downloadAndScanPullRequest
  simp only [Env.callDownloadRepoToTempDir, Env.callChdir, Env.callScanPullRequest,
    callCleanup, callRestoreDir]
  split
  · exact ⟨[], rfl, by simp⟩
  · split
    · refine ⟨_, log_append_three _ _ _ _, ?_⟩
      simp [Event.isInner, Event.isSweepStep, Event.isRepoStep]
    · refine ⟨_, log_append_five _ _ _ _ _ _, ?_⟩
      simp [Event.isInner, Event.isSweepStep, Event.isRepoStep]

theorem recordError_log {σ : Type} (e err : Option Error) (s : Machine σ) :
    (recordError e err s).1 = e.or err
      ∧ ∃ inner, (recordError e err s).2.log = s.log ++ inner
        ∧ ∀ ev ∈ inner, ev.isInner = true := by
  cases e with
  | none => exact ⟨rfl, [], by simp [recordError], by simp⟩
  | some msg =>
    exact ⟨rfl, [Event.logError msg], rfl,
      by simp [Event.isInner, Event.isSweepStep, Event.isRepoStep]⟩

theorem scanLoop_cons_step {σ : Type} (env : Env σ) (repo : FrogbotRepoConfig)
    (pr : PullRequestInfo) (rest : List PullRequestInfo) (err : Option Error)
    (s : Machine σ) :
    ∃ (outcome : Bool × Option Error × Option Error) (stepNew : List Event)
      (err' : Option Error) (s' : Machine σ),
      scanLoop env repo (pr :: rest) err s = scanLoop env repo rest err' s'
      ∧ s'.log = s.log ++ stepNew
      ∧ stepNew.filter Event.isSweepStep = prSteps repo pr outcome
      ∧ stepNew.filter Event.isRepoStep = []
      ∧ ∀ l : List Error,
          (err.toList ++ (stepNew.filterMap Event.stepError ++ l)).getLast?
            = (err'.toList ++ l).getLast? := by
  have hd := shouldScanPullRequest_log env repo pr.ID s
  generalize hdec : shouldScanPullRequest env repo pr.ID s = d at hd
  obtain ⟨⟨shouldScan, e⟩, sd⟩ := d
  simp only at hd
  obtain ⟨hn1, q1, hq1, hquiet1⟩ :=
    recordError_log e err (sd.record (Event.decided pr.ID shouldScan e))
  obtain ⟨hf1, hr1, he1⟩ := filter_of_inner q1 hquiet1
  cases shouldScan with
  | false =>
    refine ⟨(false, e, none),
      [Event.ListPullRequestComments repo.RepoOwner repo.RepoName pr.ID,
        Event.decided pr.ID false e] ++ q1,
      (recordError e err (sd.record (Event.decided pr.ID false e))).1,
      (recordError e err (sd.record (Event.decided pr.ID false e))).2, ?_, ?_, ?_, ?_, ?_⟩
    · rw [scanLoop, hdec]
      simp only [Bool.false_eq_true, if_false]
    · rw [hq1, Machine.record_log, hd]
      simp
    · simp [List.filter_append, hf1, Event.isSweepStep, prSteps, List.filter_cons]
    · simp [List.filter_append, hr1, Event.isRepoStep, List.filter_cons]
    · intro l
      rw [hn1]
      simp only [List.filterMap_append, he1, List.filterMap_cons, Event.stepError,
        List.filterMap_nil, List.append_nil]
      cases e <;> cases err <;> simp [Option.toList, Option.or]
  | true =>
    obtain ⟨q2, hq2, hquiet2⟩ := downloadAndScanPullRequest_log env pr repo
      (recordError e err (sd.record (Event.decided pr.ID true e))).2
    generalize hscan : downloadAndScanPullRequest env pr repo
      (recordError e err (sd.record (Event.decided pr.ID true e))).2 = sc at hq2
    obtain ⟨e2, ss⟩ := sc
    simp only at hq2
    obtain ⟨hn2, q3, hq3, hquiet3⟩ :=
      recordError_log e2 (recordError e err (sd.record (Event.decided pr.ID true e))).1
        (ss.record (Event.scanned pr e2))
    obtain ⟨hf2, hr2, he2⟩ := filter_of_inner q2 hquiet2
    obtain ⟨hf3, hr3, he3⟩ := filter_of_inner q3 hquiet3
    refine ⟨(true, e, e2),
      [Event.ListPullRequestComments repo.RepoOwner repo.RepoName pr.ID,
        Event.decided pr.ID true e] ++ q1
        ++ Event.downloadRepoToTempDir (sourceBranchParams repo pr) :: q2
        ++ [Event.scanned pr e2] ++ q3,
      (recordError e2 (recordError e err (sd.record (Event.decided pr.ID true e))).1
        (ss.record (Event.scanned pr e2))).1,
      (recordError e2 (recordError e err (sd.record (Event.decided pr.ID true e))).1
        (ss.record (Event.scanned pr e2))).2, ?_, ?_, ?_, ?_, ?_⟩
    · rw [scanLoop, hdec]
      simp only [if_true, hscan]
    · rw [hq3, Machine.record_log, hq2, hq1, Machine.record_log, hd]
      simp
    · simp [List.filter_append, hf1, hf2, hf3, Event.isSweepStep, prSteps, List.filter_cons]
    · simp [List.filter_append, hr1, hr2, hr3, Event.isRepoStep, List.filter_cons]
    · intro l
      rw [hn2, hn1]
      simp only [List.filterMap_append, he1, he2, he3, List.filterMap_cons,
        Event.stepError, List.filterMap_nil, List.append_nil]
      cases e <;> cases e2 <;> cases err <;> simp [Option.toList, Option.or]

theorem scanLoop_records {σ : Type} (env : Env σ) (repo : FrogbotRepoConfig)
    (prs : List PullRequestInfo) (err : Option Error) (s : Machine σ) :
    ∃ (outcomes : List (Bool × Option Error × Option Error)) (new : List Event),
      outcomes.length = prs.length
      ∧ (scanLoop env repo prs err s).2.log = s.log ++ new
      ∧ new.filter Event.isSweepStep = (List.zipWith (prSteps repo) prs outcomes).flatten
      ∧ new.filter Event.isRepoStep = []
      ∧ (scanLoop env repo prs err s).1
          = (err.toList ++ new.filterMap Event.stepError).getLast? := by
  induction prs generalizing err s with
  | nil =>
    refine ⟨[], [], rfl, by simp [scanLoop], rfl, rfl, ?_⟩
    cases err <;> simp [scanLoop, Option.toList]
  | cons pr rest ih =>
    obtain ⟨outcome, stepNew, err', s', hstep, hlog, hrec, hrepo, herr⟩ :=
      scanLoop_cons_step env repo pr rest err s
    obtain ⟨outcomes, new, hlen, hlog', hrec', hrepo', herr'⟩ := ih err' s'
    refine ⟨outcome :: outcomes, stepNew ++ new, by simp [hlen], ?_, ?_, ?_, ?_⟩
    · rw [hstep, hlog', hlog, List.append_assoc]
    · simp [List.filter_append, hrec, hrec']
    · simp [List.filter_append, hrepo, hrepo']
    · rw [hstep, herr', List.filterMap_append, herr]

theorem scanAllPullRequests_of_listed {σ : Type} (env : Env σ) (repo : FrogbotRepoConfig)
    (s : Machine σ) (prs : List PullRequestInfo) (w : σ)
    (hlist : env.ListOpenPullRequests repo.RepoOwner repo.RepoName s.world
      = ((prs, none), w)) :
    scanAllPullRequests env repo s
      = scanLoop env repo prs none
          { world := w,
            log := s.log ++ [Event.ListOpenPullRequests repo.RepoOwner repo.RepoName] } := by
  simp [scanAllPullRequests, Env.callListOpenPullRequests, hlist]

theorem scanAllPullRequests_records {σ : Type} (env : Env σ) (repo : FrogbotRepoConfig)
    (s : Machine σ) (prs : List PullRequestInfo) (w : σ)
    (hlist : env.ListOpenPullRequests repo.RepoOwner repo.RepoName s.world
      = ((prs, none), w)) :
    ∃ (outcomes : List (Bool × Option Error × Option Error)) (new : List Event),
      outcomes.length = prs.length
      ∧ (scanAllPullRequests env repo s).2.log = s.log ++ new
      ∧ new.filter Event.isSweepStep = (List.zipWith (prSteps repo) prs outcomes).flatten
      ∧ (scanAllPullRequests env repo s).1 = (new.filterMap Event.stepError).getLast? := by
  rw [scanAllPullRequests_of_listed env repo s prs w hlist]
  obtain ⟨outcomes, new, hlen, hlog, hrec, _, herr⟩ := scanLoop_records env repo prs none
    { world := w,
      log := s.log ++ [Event.ListOpenPullRequests repo.RepoOwner repo.RepoName] }
  refine ⟨outcomes, Event.ListOpenPullRequests repo.RepoOwner repo.RepoName :: new, hlen,
    ?_, ?_, ?_⟩
  · rw [hlog]; simp
  · simp [List.filter_cons, Event.isSweepStep, hrec]
  · rw [herr]; simp [List.filterMap_cons, Event.stepError, Option.toList]

/-! ## Theorems, part 4. Claims about the decision and the sweep -/

/-- Witness of C2, at the inputs of the specification: `[{rescan, t=3}, {result, t=1}]` gives
`(true, nil)` and `[{result, t=5}, {rescan, t=2}]` gives `(false, nil)`. -/
theorem shouldScanPullRequest_newest_bot_comment_witness :
    (shouldScanPullRequest (commentsEnv [rescanAt 3, resultAt 1]) repoA 1 start).1
        = (true, none)
    ∧ (shouldScanPullRequest (commentsEnv [resultAt 5, rescanAt 2]) repoA 1 start).1
        = (false, none) :=
  ⟨(shouldScanPullRequest_newest_bot_comment (commentsEnv [rescanAt 3, resultAt 1]) repoA 1
      start [rescanAt 3, resultAt 1] () rfl
      (insertionSortSlice_perm _ _) (insertionSortSlice_sorted _) (by decide)
      ⟨rescanAt 3, by decide, by decide⟩).2 (rescanAt 3) (by decide) (by decide) (by decide),
    (shouldScanPullRequest_newest_bot_comment (commentsEnv [resultAt 5, rescanAt 2]) repoA 1
      start [resultAt 5, rescanAt 2] () rfl
      (insertionSortSlice_perm _ _) (insertionSortSlice_sorted _) (by decide)
      ⟨resultAt 5, by decide, by decide⟩).2 (resultAt 5) (by decide) (by decide) (by decide)⟩

/-- Witness of C3, at the empty comment list and at a list with one unrelated comment. -/
theorem shouldScanPullRequest_no_bot_history_witness :
    (shouldScanPullRequest (commentsEnv []) repoA 1 start).1 = (true, none)
    ∧ (shouldScanPullRequest (commentsEnv [chatAt 7]) repoA 1 start).1 = (true, none) :=
  ⟨shouldScanPullRequest_no_bot_history (commentsEnv []) repoA 1 start [] () rfl
      (insertionSortSlice_perm _ _) (by decide),
    shouldScanPullRequest_no_bot_history (commentsEnv [chatAt 7]) repoA 1 start [chatAt 7] ()
      rfl (insertionSortSlice_perm _ _) (by decide)⟩

/-- C4. Once the open pull requests are listed, `scanAllPullRequests` performs for
every pull request, in list order, the steps of `prSteps`: it asks
`shouldScanPullRequest` once (the comments are listed, a decision is returned) and calls
`downloadAndScanPullRequest` exactly when that decision was `true`, whatever errors the
decisions and scans of the pull requests before it returned. -/
theorem scanAllPullRequests_sweeps_every_pull_request {σ : Type} (env : Env σ)
    (repo : FrogbotRepoConfig) (s : Machine σ) (prs : List PullRequestInfo) (w : σ)
    (hlist : env.ListOpenPullRequests repo.RepoOwner repo.RepoName s.world
      = ((prs, none), w)) :
    ∃ (outcomes : List (Bool × Option Error × Option Error)) (new : List Event),
      outcomes.length = prs.length
      ∧ (scanAllPullRequests env repo s).2.log = s.log ++ new
      ∧ new.filter Event.isSweepStep
          = (List.zipWith (prSteps repo) prs outcomes).flatten := by
  obtain ⟨outcomes, new, hlen, hlog, hrec, _⟩ :=
    scanAllPullRequests_records env repo s prs w hlist
  exact ⟨outcomes, new, hlen, hlog, hrec⟩

/-- Witness of C4, when the scan of pull request 2 of 3 fails: all three pull requests are decided
and scanned. -/
theorem scanAllPullRequests_sweeps_every_pull_request_witness :
    (∃ (outcomes : List (Bool × Option Error × Option Error)) (new : List Event),
      outcomes.length = threePullRequests.length
      ∧ (scanAllPullRequests (sweepEnv [(2, "scan of #2 failed")]) repoA start).2.log
          = start.log ++ new
      ∧ new.filter Event.isSweepStep
          = (List.zipWith (prSteps repoA) threePullRequests outcomes).flatten)
    ∧ (scanAllPullRequests (sweepEnv [(2, "scan of #2 failed")]) repoA start).2.log.filter
          Event.isSweepStep
        = (List.zipWith (prSteps repoA) threePullRequests
            [(true, none, none), (true, none, some "scan of #2 failed"),
              (true, none, none)]).flatten :=
  ⟨scanAllPullRequests_sweeps_every_pull_request (sweepEnv [(2, "scan of #2 failed")]) repoA
      start threePullRequests () rfl,
    by decide⟩

/-- C5. Once the open pull requests are listed, `scanAllPullRequests` returns the error
of the last step (decision or scan) that failed, in processing order, and nil exactly
when no step failed. -/
theorem scanAllPullRequests_returns_last_error {σ : Type} (env : Env σ)
    (repo : FrogbotRepoConfig) (s : Machine σ) (prs : List PullRequestInfo) (w : σ)
    (hlist : env.ListOpenPullRequests repo.RepoOwner repo.RepoName s.world
      = ((prs, none), w)) :
    ∃ new : List Event,
      (scanAllPullRequests env repo s).2.log = s.log ++ new
      ∧ (scanAllPullRequests env repo s).1 = (new.filterMap Event.stepError).getLast?
      ∧ ((scanAllPullRequests env repo s).1 = none ↔ ∀ ev ∈ new, ev.stepError = none) := by
  obtain ⟨_, new, _, hlog, _, herr⟩ := scanAllPullRequests_records env repo s prs w hlist
  refine ⟨new, hlog, herr, ?_⟩
  rw [herr, List.getLast?_eq_none_iff, List.filterMap_eq_nil_iff]

/-- Witness of C5, at the inputs of the specification: when the scans of pull requests 2 and 3 both
fail the error of pull request 3 is returned; when only the scan of pull request 2 fails
its error is returned although pull request 3 succeeded afterwards; when none fails, nil. -/
theorem scanAllPullRequests_returns_last_error_witness :
    (∃ new : List Event,
      (scanAllPullRequests
          (sweepEnv [(2, "scan of #2 failed"), (3, "scan of #3 failed")]) repoA start).2.log
        = start.log ++ new
      ∧ (scanAllPullRequests
          (sweepEnv [(2, "scan of #2 failed"), (3, "scan of #3 failed")]) repoA start).1
        = (new.filterMap Event.stepError).getLast?
      ∧ ((scanAllPullRequests
          (sweepEnv [(2, "scan of #2 failed"), (3, "scan of #3 failed")]) repoA start).1
          = none ↔ ∀ ev ∈ new, ev.stepError = none))
    ∧ (scanAllPullRequests
          (sweepEnv [(2, "scan of #2 failed"), (3, "scan of #3 failed")]) repoA start).1
        = some "scan of #3 failed"
    ∧ (scanAllPullRequests (sweepEnv [(2, "scan of #2 failed")]) repoA start).1
        = some "scan of #2 failed"
    ∧ (scanAllPullRequests (sweepEnv []) repoA start).1 = none :=
  ⟨scanAllPullRequests_returns_last_error
      (sweepEnv [(2, "scan of #2 failed"), (3, "scan of #3 failed")]) repoA start
      threePullRequests () rfl,
    by decide, by decide, by decide⟩

/-- C7. When listing the comments of a pull request fails with error `e`,
`shouldScanPullRequest` returns `(false, e)` after that one call, whatever comments came
with the error; the sweep then sets `err` to `e`, logs it, performs no download and no
scan for this pull request, and continues with the remaining pull requests. -/
theorem comment_listing_failure_skips_pull_request {σ : Type} (env : Env σ)
    (repo : FrogbotRepoConfig) (pr : PullRequestInfo) (rest : List PullRequestInfo)
    (err : Option Error) (s : Machine σ) (comments : List CommentInfo) (e : Error) (w : σ)
    (hfail : env.ListPullRequestComments repo.RepoOwner repo.RepoName pr.ID s.world
      = ((comments, some e), w)) :
    shouldScanPullRequest env repo pr.ID s
      = ((false, some e),
          { world := w,
            log := s.log ++
              [Event.ListPullRequestComments repo.RepoOwner repo.RepoName pr.ID] })
    ∧ scanLoop env repo (pr :: rest) err s
      = scanLoop env repo rest (some e)
          { world := w,
            log := s.log ++
              [Event.ListPullRequestComments repo.RepoOwner repo.RepoName pr.ID,
                Event.decided pr.ID false (some e), Event.logError e] } := by
  have hdec : shouldScanPullRequest env repo pr.ID s
      = ((false, some e),
          { world := w,
            log := s.log ++
              [Event.ListPullRequestComments repo.RepoOwner repo.RepoName pr.ID] }) := by
    simp [shouldScanPullRequest, Env.callListPullRequestComments, hfail]
  refine ⟨hdec, ?_⟩
  rw [scanLoop, hdec]
  simp [recordError, Machine.record]

/-- Witness of C7, in a sweep of three pull requests where the comments of pull request 2 cannot be
listed (the failed call even carries a rescan request): pull request 2 is decided
`false`, not downloaded, and pull request 3 is scanned. -/
theorem comment_listing_failure_skips_pull_request_witness :
    (shouldScanPullRequest listingFailsEnv repoA (pullRequest 2 "feature-2").ID start
      = ((false, some "comments unavailable"),
          { world := (),
            log := start.log ++
              [Event.ListPullRequestComments repoA.RepoOwner repoA.RepoName
                (pullRequest 2 "feature-2").ID] })
    ∧ scanLoop listingFailsEnv repoA
          (pullRequest 2 "feature-2" :: [pullRequest 3 "feature-3"]) none start
      = scanLoop listingFailsEnv repoA [pullRequest 3 "feature-3"]
          (some "comments unavailable")
          { world := (),
            log := start.log ++
              [Event.ListPullRequestComments repoA.RepoOwner repoA.RepoName
                (pullRequest 2 "feature-2").ID,
                Event.decided (pullRequest 2 "feature-2").ID false
                  (some "comments unavailable"),
                Event.logError "comments unavailable"] })
    ∧ (scanAllPullRequests listingFailsEnv repoA start).2.log.filter Event.isSweepStep
        = (List.zipWith (prSteps repoA) threePullRequests
            [(true, none, none), (false, some "comments unavailable", none),
              (true, none, none)]).flatten
    ∧ (scanAllPullRequests listingFailsEnv repoA start).1 = some "comments unavailable" :=
  ⟨comment_listing_failure_skips_pull_request listingFailsEnv repoA
      (pullRequest 2 "feature-2") [pullRequest 3 "feature-3"] none start [rescanAt 1]
      "comments unavailable" () rfl,
    by decide, by decide⟩

/-! ## Theorems, part 5. The loop over repositories -/

theorem scanAllPullRequests_repo_steps {σ : Type} (env : Env σ) (repo : FrogbotRepoConfig)
    (s : Machine σ) :
    ∃ new : List Event,
      (scanAllPullRequests env repo s).2.log = s.log ++ new
      ∧ new.filter Event.isRepoStep
          = [Event.ListOpenPullRequests repo.RepoOwner repo.RepoName] := by
  generalize hcall : env.ListOpenPullRequests repo.RepoOwner repo.RepoName s.world = call
  obtain ⟨⟨prs, lerr⟩, w⟩ := call
  cases lerr with
  | none =>
    rw [scanAllPullRequests_of_listed env repo s prs w hcall]
    obtain ⟨_, new, _, hlog, _, hrepo, _⟩ := scanLoop_records env repo prs none
      { world := w,
        log := s.log ++ [Event.ListOpenPullRequests repo.RepoOwner repo.RepoName] }
    refine ⟨Event.ListOpenPullRequests repo.RepoOwner repo.RepoName :: new, ?_, ?_⟩
    · rw [hlog]; simp
    · simp [List.filter_cons, Event.isRepoStep, hrepo]
  | some e =>
    refine ⟨[Event.ListOpenPullRequests repo.RepoOwner repo.RepoName], ?_, ?_⟩
    · simp [scanAllPullRequests, Env.callListOpenPullRequests, hcall]
    · simp [List.filter_cons, Event.isRepoStep]

/-- C6, as amended. `ScanAllPullRequestsCmd.Run` sweeps the repositories in order and
stops at the first repository whose sweep returns an error: either every repository was
swept without error and `Run` returns nil, or the configuration splits into `pre`, a
repository `cfg` and `post` such that the sweeps of `pre` returned nil, the sweep of
`cfg` returned the error `e` that `Run` returns, and no repository of `post` was swept. -/
theorem Run_stops_at_first_failing_repository {σ : Type} (env : Env σ)
    (configs : FrogbotConfigAggregator) (s : Machine σ) :
    ∃ new : List Event,
      (ScanAllPullRequestsCmd.Run env configs s).2.log = s.log ++ new
      ∧ (((ScanAllPullRequestsCmd.Run env configs s).1 = none
            ∧ new.filter Event.isRepoStep = configs.flatMap (fun cfg => repoSteps cfg none))
          ∨ ∃ (pre : List FrogbotRepoConfig) (cfg : FrogbotRepoConfig)
              (post : List FrogbotRepoConfig) (e : Error),
              configs = pre ++ cfg :: post
              ∧ (ScanAllPullRequestsCmd.Run env configs s).1 = some e
              ∧ new.filter Event.isRepoStep
                  = pre.flatMap (fun cfg => repoSteps cfg none) ++ repoSteps cfg (some e)) := by
  induction configs generalizing s with
  | nil => exact ⟨[], by simp [ScanAllPullRequestsCmd.Run], Or.inl ⟨rfl, rfl⟩⟩
  | cons config rest ih =>
    obtain ⟨sweepNew, hsweep, hsteps⟩ := scanAllPullRequests_repo_steps env config s
    generalize hrun : scanAllPullRequests env config s = sweep at hsweep
    obtain ⟨err, s1⟩ := sweep
    simp only at hsweep
    cases err with
    | some e =>
      refine ⟨sweepNew ++ [Event.swept config (some e)], ?_, Or.inr ⟨[], config, rest, e, rfl, ?_, ?_⟩⟩
      · simp [ScanAllPullRequestsCmd.Run, hrun, Machine.record, hsweep]
      · simp [ScanAllPullRequestsCmd.Run, hrun]
      · simp [List.filter_append, hsteps, List.filter_cons, Event.isRepoStep, repoSteps]
    | none =>
      obtain ⟨new, hlog, hcases⟩ := ih (s1.record (Event.swept config none))
      have hstep : ScanAllPullRequestsCmd.Run env (config :: rest) s
          = ScanAllPullRequestsCmd.Run env rest (s1.record (Event.swept config none)) := by
        simp [ScanAllPullRequestsCmd.Run, hrun]
      refine ⟨sweepNew ++ [Event.swept config none] ++ new, ?_, ?_⟩
      · rw [hstep, hlog, Machine.record_log, hsweep]
        simp
      · have hhead : (sweepNew ++ [Event.swept config none] ++ new).filter Event.isRepoStep
            = repoSteps config none ++ new.filter Event.isRepoStep := by
          simp [List.filter_append, hsteps, List.filter_cons, Event.isRepoStep, repoSteps]
        rcases hcases with ⟨hnone, hall⟩ | ⟨pre, cfg, post, e, hsplit, hsome, hpre⟩
        · left
          refine ⟨by rw [hstep, hnone], ?_⟩
          rw [hhead, hall, List.flatMap_cons]
        · right
          refine ⟨config :: pre, cfg, post, e, by rw [hsplit]; rfl, by rw [hstep, hsome], ?_⟩
          rw [hhead, hpre, List.flatMap_cons, List.append_assoc]

/-- Counterexample to C6 as stated: with two repositories, when the scan of a pull request of the
first repository fails, the sweep of the first repository returns that error, `Run`
returns it, and the second repository is never swept (its open pull requests are not
even listed), so it is not true that every repository is attempted. -/
theorem Run_skips_repositories_after_failure :
    (scanAllPullRequests (sweepEnv [(2, "scan of #2 failed")]) repoA start).1
        = some "scan of #2 failed"
    ∧ (ScanAllPullRequestsCmd.Run (sweepEnv [(2, "scan of #2 failed")]) [repoA, repoB]
          start).1 = some "scan of #2 failed"
    ∧ ¬ (∀ cfg ∈ [repoA, repoB],
          Event.ListOpenPullRequests cfg.RepoOwner cfg.RepoName
            ∈ (ScanAllPullRequestsCmd.Run (sweepEnv [(2, "scan of #2 failed")])
                [repoA, repoB] start).2.log)
    ∧ (ScanAllPullRequestsCmd.Run (sweepEnv [(2, "scan of #2 failed")]) [repoA, repoB]
          start).2.log.filter Event.isRepoStep
        = repoSteps repoA (some "scan of #2 failed") := by
  refine ⟨by decide, by decide, by decide, by decide⟩

/-! ## Theorems, part 6. The comment signatures -/

/-- The characters `strings.TrimSpace` keeps: leading white space dropped, then trailing. -/
theorem TrimSpace_data (s : String) :
    (TrimSpace s).data = (s.data.dropWhile isSpace).rdropWhile isSpace := rfl

theorem rdropWhile_append_of_all {α : Type} (p : α → Bool) (l w : List α)
    (hw : ∀ x ∈ w, p x = true) : (l ++ w).rdropWhile p = l.rdropWhile p := by
  unfold List.rdropWhile
  rw [List.reverse_append, List.dropWhile_append_of_pos]
  intro a ha
  exact hw a (List.mem_reverse.mp ha)

theorem trim_append_of_all (l w : List Char) (hw : ∀ x ∈ w, isSpace x = true) :
    ((l ++ w).dropWhile isSpace).rdropWhile isSpace
      = (l.dropWhile isSpace).rdropWhile isSpace := by
  rw [List.dropWhile_append]
  split
  · rename_i hempty
    have hnil : l.dropWhile isSpace = [] := by simpa using hempty
    rw [hnil, (List.dropWhile_eq_nil_iff).mpr hw]
  · exact rdropWhile_append_of_all isSpace _ w hw

theorem trim_surrounded (leading l trailing : List Char)
    (hl : ∀ x ∈ leading, isSpace x = true) (ht : ∀ x ∈ trailing, isSpace x = true) :
    ((leading ++ l ++ trailing).dropWhile isSpace).rdropWhile isSpace
      = (l.dropWhile isSpace).rdropWhile isSpace := by
  rw [List.append_assoc, List.dropWhile_append_of_pos hl]
  exact trim_append_of_all l trailing ht

theorem map_dropWhile_comm {α : Type} (p : α → Bool) (f : α → α)
    (hf : ∀ x, p (f x) = p x) (l : List α) :
    (l.dropWhile p).map f = (l.map f).dropWhile p := by
  induction l with
  | nil => rfl
  | cons x xs ih =>
    simp only [List.map_cons, List.dropWhile_cons, hf]
    split
    · exact ih
    · rfl

theorem map_rdropWhile_comm {α : Type} (p : α → Bool) (f : α → α)
    (hf : ∀ x, p (f x) = p x) (l : List α) :
    (l.rdropWhile p).map f = (l.map f).rdropWhile p := by
  unfold List.rdropWhile
  rw [List.map_reverse, map_dropWhile_comm p f hf, List.map_reverse]

theorem countP_not_dropWhile {α : Type} (p : α → Bool) (l : List α) :
    (l.dropWhile p).countP (fun x => !p x) = l.countP (fun x => !p x) := by
  induction l with
  | nil => rfl
  | cons x xs ih =>
    rw [List.dropWhile_cons]
    split
    · rename_i hx
      rw [ih, List.countP_cons_of_neg]
      simp [hx]
    · rfl

theorem countP_not_rdropWhile {α : Type} (p : α → Bool) (l : List α) :
    (l.rdropWhile p).countP (fun x => !p x) = l.countP (fun x => !p x) := by
  unfold List.rdropWhile
  rw [List.countP_reverse, countP_not_dropWhile, List.countP_reverse]

theorem countP_not_map {α : Type} (p : α → Bool) (f : α → α)
    (hf : ∀ x, p (f x) = p x) (l : List α) :
    (l.map f).countP (fun x => !p x) = l.countP (fun x => !p x) := by
  rw [List.countP_map]
  congr 1
  funext x
  simp [hf]

theorem trim_head_not_space (l : List Char) (ch : Char)
    (h : ((l.dropWhile isSpace).rdropWhile isSpace).head? = some ch) : isSpace ch = false := by
  have hpre : (l.dropWhile isSpace).rdropWhile isSpace <+: l.dropWhile isSpace :=
    List.rdropWhile_prefix isSpace _
  obtain ⟨t, ht⟩ := hpre
  have hhead : (l.dropWhile isSpace).head? = some ch := by
    rw [← ht]
    cases hcore : (l.dropWhile isSpace).rdropWhile isSpace with
    | nil => rw [hcore] at h; cases h
    | cons a as => rw [hcore] at h; simpa using h
  have := List.head?_dropWhile_not isSpace l
  rw [hhead] at this
  simpa using this

theorem trim_last_not_space (l : List Char) (ch : Char)
    (h : ((l.dropWhile isSpace).rdropWhile isSpace).getLast? = some ch) :
    isSpace ch = false := by
  have hne : (l.dropWhile isSpace).rdropWhile isSpace ≠ [] := by
    intro hnil; rw [hnil] at h; cases h
  have hlast := List.rdropWhile_last_not isSpace (l.dropWhile isSpace) hne
  rw [List.getLast?_eq_getLast _ hne] at h
  injection h with h
  rw [h] at hlast
  simpa using hlast

theorem isFrogbotRescanComment_iff {σ : Type} (env : Env σ) (c : String) :
    isFrogbotRescanComment env c = true
      ↔ ToLower env (TrimSpace c) = env.RescanRequestComment := by
  simp [isFrogbotRescanComment]

theorem ToLower_TrimSpace_comm {σ : Type} (env : Env σ)
    (hlow : ∀ ch, isSpace (env.unicodeToLower ch) = isSpace ch) (c : String) :
    ToLower env (TrimSpace c) = TrimSpace (ToLower env c) := by
  apply String.ext
  show ((c.data.dropWhile isSpace).rdropWhile isSpace).map env.unicodeToLower
    = ((c.data.map env.unicodeToLower).dropWhile isSpace).rdropWhile isSpace
  rw [map_rdropWhile_comm isSpace _ hlow, map_dropWhile_comm isSpace _ hlow]

/-- C11. `isFrogbotRescanComment c` is true exactly when `c`, trimmed and lower-cased,
equals `utils.RescanRequestComment`, where trimming removes a white-space prefix and a
white-space suffix of `c` and leaves a core that neither starts nor ends with white
space. Hence the answer is unchanged by surrounding white space; and, `unicode.ToLower`
mapping white space to white space and nothing else to white space, it is the same for
two comments with the same lower-case form, and it is `false` for a comment made of an
occurrence of the phrase (in any letter case) and other text that is not all white
space. -/
theorem isFrogbotRescanComment_exact_phrase {σ : Type} (env : Env σ) :
    (∀ c : String, isFrogbotRescanComment env c = true
        ↔ ToLower env (TrimSpace c) = env.RescanRequestComment)
    ∧ (∀ c : String, ∃ leading trailing : List Char,
        c.data = leading ++ (TrimSpace c).data ++ trailing
        ∧ (∀ ch ∈ leading, isSpace ch = true) ∧ (∀ ch ∈ trailing, isSpace ch = true)
        ∧ (∀ ch, (TrimSpace c).data.head? = some ch → isSpace ch = false)
        ∧ (∀ ch, (TrimSpace c).data.getLast? = some ch → isSpace ch = false))
    ∧ (∀ leading c trailing : String,
        (∀ ch ∈ leading.data, isSpace ch = true) → (∀ ch ∈ trailing.data, isSpace ch = true) →
        isFrogbotRescanComment env (leading ++ c ++ trailing) = isFrogbotRescanComment env c)
    ∧ ((∀ ch, isSpace (env.unicodeToLower ch) = isSpace ch) →
        (∀ c c' : String, ToLower env c = ToLower env c' →
          isFrogbotRescanComment env c = isFrogbotRescanComment env c')
        ∧ (∀ before phrase after : String,
            ToLower env phrase = env.RescanRequestComment →
            (∃ ch ∈ before.data ++ after.data, isSpace ch = false) →
            isFrogbotRescanComment env (before ++ phrase ++ after) = false)) := by
  refine ⟨isFrogbotRescanComment_iff env, ?_, ?_, ?_⟩
  · intro c
    obtain ⟨trailing, htrail⟩ := List.rdropWhile_prefix isSpace (c.data.dropWhile isSpace)
    refine ⟨c.data.takeWhile isSpace, trailing, ?_, ?_, ?_, ?_, ?_⟩
    · rw [TrimSpace_data, List.append_assoc, htrail, List.takeWhile_append_dropWhile]
    · intro ch hch
      exact (List.mem_takeWhile_imp hch)
    · intro ch hch
      have hall : ∀ x ∈ (c.data.dropWhile isSpace).reverse.takeWhile isSpace,
          isSpace x = true := fun x hx => List.mem_takeWhile_imp hx
      apply hall
      have hrev : (c.data.dropWhile isSpace).reverse
          = trailing.reverse ++ ((c.data.dropWhile isSpace).rdropWhile isSpace).reverse := by
        rw [← List.reverse_append, htrail]
      have hsplit := List.takeWhile_append_dropWhile isSpace
        (c.data.dropWhile isSpace).reverse
      have hdrop : (c.data.dropWhile isSpace).reverse.dropWhile isSpace
          = ((c.data.dropWhile isSpace).rdropWhile isSpace).reverse := by
        simp [List.rdropWhile]
      rw [hdrop] at hsplit
      have := List.append_cancel_right (hsplit.trans hrev)
      rw [this]
      exact List.mem_reverse.mpr hch
    · intro ch hch
      exact trim_head_not_space c.data ch hch
    · intro ch hch
      exact trim_last_not_space c.data ch hch
  · intro leading c trailing hl ht
    have htrim : TrimSpace (leading ++ c ++ trailing) = TrimSpace c := by
      apply String.ext
      rw [TrimSpace_data, TrimSpace_data]
      exact trim_surrounded leading.data c.data trailing.data hl ht
    simp only [isFrogbotRescanComment, htrim]
  · intro hlow
    constructor
    · intro c c' hcase
      simp only [isFrogbotRescanComment, ToLower_TrimSpace_comm env hlow, hcase]
    · intro before phrase after hphrase hextra
      rw [← Bool.not_eq_true, isFrogbotRescanComment_iff, ← hphrase]
      intro heq
      have hdata := congrArg String.data heq
      have hcount := congrArg (List.countP (fun x => !isSpace x)) hdata
      simp only [ToLower] at hcount
      rw [countP_not_map isSpace _ hlow, countP_not_map isSpace _ hlow, TrimSpace_data,
        countP_not_rdropWhile, countP_not_dropWhile] at hcount
      have hsplit : (before ++ phrase ++ after).data
          = before.data ++ phrase.data ++ after.data := rfl
      rw [hsplit, List.countP_append, List.countP_append] at hcount
      obtain ⟨ch, hch, hns⟩ := hextra
      have hpos : 0 < (before.data ++ after.data).countP (fun x => !isSpace x) :=
        List.countP_pos_iff.mpr ⟨ch, hch, by simp [hns]⟩
      rw [List.countP_append] at hpos
      omega

theorem isSpace_of_upper (n : Nat) (h1 : 65 ≤ n) (h2 : n ≤ 90) :
    isSpace (Char.ofNat n) = false ∧ isSpace (Char.ofNat (n + 32)) = false := by
  interval_cases n <;> decide

theorem isSpace_toLower (ch : Char) : isSpace ch.toLower = isSpace ch := by
  unfold Char.toLower
  simp only
  split
  · rename_i h
    have hch : ch = Char.ofNat ch.toNat := by
      simp [Char.ofNat_toNat]
    obtain ⟨hupper, hlower⟩ := isSpace_of_upper ch.toNat h.1 h.2
    rw [hlower]
    rw [hch]
    exact hupper.symm
  · rfl

theorem HasPrefix_iff (s p : String) : HasPrefix s p = true ↔ p.data <+: s.data := by
  simp [HasPrefix]

theorem HasPrefix_iff_take (s p : String) :
    HasPrefix s p = true ↔ s.data.take p.data.length = p.data := by
  rw [HasPrefix_iff, List.prefix_iff_eq_take, eq_comm]

theorem HasPrefix_of_leading_space (s p : String) (ch first : Char) (rest tail : List Char)
    (hs : s.data = ch :: rest) (hch : isSpace ch = true)
    (hp : p.data = first :: tail) (hfirst : isSpace first = false) :
    HasPrefix s p = false := by
  rw [← Bool.not_eq_true, HasPrefix_iff, hs, hp]
  intro hpre
  obtain ⟨t, ht⟩ := hpre
  injection ht with h1 _
  rw [h1, hch] at hfirst
  cases hfirst

theorem HasPrefix_of_variant {σ : Type} (env : Env σ) (variant rest title : String)
    (hcase : ToLower env variant = ToLower env title) (hne : variant ≠ title) :
    HasPrefix (variant ++ rest) title = false := by
  rw [← Bool.not_eq_true, HasPrefix_iff_take]
  intro htake
  have hlen : variant.data.length = title.data.length := by
    have := congrArg (fun s : String => s.data.length) hcase
    simpa [ToLower] using this
  have hdata : (variant ++ rest).data = variant.data ++ rest.data := rfl
  rw [hdata, ← hlen, List.take_left'] at htake
  · exact hne (String.ext htake)
  · rfl

/-- C12. `isFrogbotResultComment c` is true exactly when one of the two simplified titles
is a prefix of `c`, i.e. the first characters of `c` are, character for character, those
of the title. So when both titles start with a character that is not white space, a
comment that starts with white space is not a scan-result comment; and a comment that
starts with a spelling of one title in another letter case is a scan-result comment
only if it starts with the other title. -/
theorem isFrogbotResultComment_begins_with_title {σ : Type} (env : Env σ) :
    (∀ c : String, isFrogbotResultComment env c = true
        ↔ ((env.GetSimplifiedTitle env.NoVulnerabilityBannerSource).data <+: c.data
          ∨ (env.GetSimplifiedTitle env.VulnerabilitiesBannerSource).data <+: c.data))
    ∧ (∀ c : String, isFrogbotResultComment env c = true
        ↔ (c.data.take (env.GetSimplifiedTitle env.NoVulnerabilityBannerSource).data.length
              = (env.GetSimplifiedTitle env.NoVulnerabilityBannerSource).data
          ∨ c.data.take (env.GetSimplifiedTitle env.VulnerabilitiesBannerSource).data.length
              = (env.GetSimplifiedTitle env.VulnerabilitiesBannerSource).data))
    ∧ (∀ (first1 first2 : Char) (tail1 tail2 : List Char),
        (env.GetSimplifiedTitle env.NoVulnerabilityBannerSource).data = first1 :: tail1 →
        (env.GetSimplifiedTitle env.VulnerabilitiesBannerSource).data = first2 :: tail2 →
        isSpace first1 = false → isSpace first2 = false →
        ∀ (c : String) (ch : Char) (rest : List Char), c.data = ch :: rest →
          isSpace ch = true → isFrogbotResultComment env c = false)
    ∧ (∀ variant rest : String,
        ToLower env variant
          = ToLower env (env.GetSimplifiedTitle env.NoVulnerabilityBannerSource) →
        variant ≠ env.GetSimplifiedTitle env.NoVulnerabilityBannerSource →
        isFrogbotResultComment env (variant ++ rest)
          = HasPrefix (variant ++ rest)
              (env.GetSimplifiedTitle env.VulnerabilitiesBannerSource))
    ∧ (∀ variant rest : String,
        ToLower env variant
          = ToLower env (env.GetSimplifiedTitle env.VulnerabilitiesBannerSource) →
        variant ≠ env.GetSimplifiedTitle env.VulnerabilitiesBannerSource →
        isFrogbotResultComment env (variant ++ rest)
          = HasPrefix (variant ++ rest)
              (env.GetSimplifiedTitle env.NoVulnerabilityBannerSource)) := by
  refine ⟨?_, ?_, ?_, ?_, ?_⟩
  · intro c
    simp only [isFrogbotResultComment, Bool.or_eq_true, HasPrefix_iff]
  · intro c
    simp only [isFrogbotResultComment, Bool.or_eq_true, HasPrefix_iff_take]
  · intro first1 first2 tail1 tail2 h1 h2 hf1 hf2 c ch rest hc hch
    simp only [isFrogbotResultComment,
      HasPrefix_of_leading_space c _ ch first1 rest tail1 hc hch h1 hf1,
      HasPrefix_of_leading_space c _ ch first2 rest tail2 hc hch h2 hf2, Bool.or_self]
  · intro variant rest hcase hne
    simp only [isFrogbotResultComment, HasPrefix_of_variant env variant rest _ hcase hne,
      Bool.false_or]
  · intro variant rest hcase hne
    simp only [isFrogbotResultComment, HasPrefix_of_variant env variant rest _ hcase hne,
      Bool.or_false]

/-- Witness of C11 in the sample world (phrase `rescan`, ASCII lower-casing). -/
theorem isFrogbotRescanComment_exact_phrase_witness :
    (∀ ch, isSpace ((commentsEnv []).unicodeToLower ch) = isSpace ch)
    ∧ isFrogbotRescanComment (commentsEnv []) " Rescan\n" = true
    ∧ isFrogbotRescanComment (commentsEnv []) ("\t " ++ "RESCAN" ++ " \n")
        = isFrogbotRescanComment (commentsEnv []) "RESCAN"
    ∧ isFrogbotRescanComment (commentsEnv []) "RESCAN"
        = isFrogbotRescanComment (commentsEnv []) "rescan"
    ∧ isFrogbotRescanComment (commentsEnv []) ("please " ++ "Rescan" ++ " now") = false :=
  ⟨isSpace_toLower,
    ((isFrogbotRescanComment_exact_phrase (commentsEnv [])).1 " Rescan\n").mpr (by decide),
    (isFrogbotRescanComment_exact_phrase (commentsEnv [])).2.2.1 "\t " "RESCAN" " \n"
      (by decide) (by decide),
    ((isFrogbotRescanComment_exact_phrase (commentsEnv [])).2.2.2 isSpace_toLower).1
      "RESCAN" "rescan" (by decide),
    ((isFrogbotRescanComment_exact_phrase (commentsEnv [])).2.2.2 isSpace_toLower).2
      "please " "Rescan" " now" (by decide) ⟨'p', by decide, by decide⟩⟩

/-- Witness of C12 in the sample world: the title itself, the title after a blank, and
the title in lower case. -/
theorem isFrogbotResultComment_begins_with_title_witness :
    isFrogbotResultComment (commentsEnv []) "**Frogbot found the issues below**\n| table |"
        = true
    ∧ isFrogbotResultComment (commentsEnv []) " **Frogbot found the issues below**" = false
    ∧ isFrogbotResultComment (commentsEnv []) ("**frogbot found the issues below**" ++ " x")
        = HasPrefix ("**frogbot found the issues below**" ++ " x")
            ((commentsEnv []).GetSimplifiedTitle (commentsEnv []).NoVulnerabilityBannerSource)
    ∧ isFrogbotResultComment (commentsEnv []) ("**frogbot found the issues below**" ++ " x")
        = false :=
  ⟨((isFrogbotResultComment_begins_with_title (commentsEnv [])).1 _).mpr (by decide),
    (isFrogbotResultComment_begins_with_title (commentsEnv [])).2.2.1 '*' '*' _ _ rfl rfl
      (by decide) (by decide) " **Frogbot found the issues below**" ' ' _ rfl (by decide),
    (isFrogbotResultComment_begins_with_title (commentsEnv [])).2.2.2.2
      "**frogbot found the issues below**" " x" (by decide) (by decide),
    by decide⟩

/-! ## Theorems, part 7. Resources and result of `downloadAndScanPullRequest` -/

theorem downloadAndScanPullRequest_of_download_failed {σ : Type} (env : Env σ)
    (pr : PullRequestInfo) (repo : FrogbotRepoConfig) (s : Machine σ)
    (wd : String) (cleanup : Closure σ) (e : Error) (w1 : σ)
    (hdownload : env.downloadRepoToTempDir (sourceBranchParams repo pr) s.world
      = ((wd, cleanup, some e), w1)) :
    downloadAndScanPullRequest env pr repo s
      = (some e,
          { world := w1,
            log := s.log ++ [Event.downloadRepoToTempDir (sourceBranchParams repo pr)] }) := by
  have h := hdownload
  simp only [sourceBranchParams] at h
  simp [downloadAndScanPullRequest, Env.callDownloadRepoToTempDir, h, sourceBranchParams]

theorem downloadAndScanPullRequest_of_chdir_failed {σ : Type} (env : Env σ)
    (pr : PullRequestInfo) (repo : FrogbotRepoConfig) (s : Machine σ)
    (wd : String) (cleanup restoreDir : Closure σ) (e : Error) (w1 w2 : σ)
    (hdownload : env.downloadRepoToTempDir (sourceBranchParams repo pr) s.world
      = ((wd, cleanup, none), w1))
    (hchdir : env.Chdir wd w1 = ((restoreDir, some e), w2)) :
    downloadAndScanPullRequest env pr repo s
      = (some e,
          { world := (cleanup w2).2,
            log := s.log ++ [Event.downloadRepoToTempDir (sourceBranchParams repo pr),
              Event.Chdir wd, Event.cleanup] }) := by
  have h := hdownload
  simp only [sourceBranchParams] at h
  simp [downloadAndScanPullRequest, Env.callDownloadRepoToTempDir, Env.callChdir,
    callCleanup, h, hchdir, sourceBranchParams]

theorem downloadAndScanPullRequest_of_scanned {σ : Type} (env : Env σ)
    (pr : PullRequestInfo) (repo : FrogbotRepoConfig) (s : Machine σ)
    (wd : String) (cleanup restoreDir : Closure σ) (w1 w2 : σ)
    (hdownload : env.downloadRepoToTempDir (sourceBranchParams repo pr) s.world
      = ((wd, cleanup, none), w1))
    (hchdir : env.Chdir wd w1 = ((restoreDir, none), w2)) :
    downloadAndScanPullRequest env pr repo s
      = ((env.scanPullRequest (targetScanConfig repo pr) w2).1,
          { world := (cleanup (restoreDir (env.scanPullRequest
              (targetScanConfig repo pr) w2).2).2).2,
            log := s.log ++ [Event.downloadRepoToTempDir (sourceBranchParams repo pr),
              Event.Chdir wd, Event.scanPullRequest (targetScanConfig repo pr),
              Event.restoreDir, Event.cleanup] }) := by
  have h := hdownload
  simp only [sourceBranchParams] at h
  simp [downloadAndScanPullRequest, Env.callDownloadRepoToTempDir, Env.callChdir,
    Env.callScanPullRequest, callCleanup, callRestoreDir, h, hchdir, sourceBranchParams,
    targetScanConfig]

/-- C18. After a successful download, `downloadAndScanPullRequest` runs on every exit
path the cleanup returned by the download exactly once, as its last step. When the chdir
succeeds too, the events are download, chdir, scan, restore, cleanup: the restore
returned by the chdir runs exactly once, after the scan whatever its result, and before
the cleanup. When the chdir fails, the events are download, chdir, cleanup: no restore,
and still the cleanup. The returned machine holds these events, so they precede
everything the caller does next. -/
theorem downloadAndScanPullRequest_releases_resources {σ : Type} (env : Env σ)
    (pr : PullRequestInfo) (repo : FrogbotRepoConfig) (s : Machine σ)
    (wd : String) (cleanup : Closure σ) (w1 : σ)
    (hdownload : env.downloadRepoToTempDir (sourceBranchParams repo pr) s.world
      = ((wd, cleanup, none), w1)) :
    (∀ (restoreDir : Closure σ) (w2 : σ), env.Chdir wd w1 = ((restoreDir, none), w2) →
      ∃ new : List Event,
        (downloadAndScanPullRequest env pr repo s).2
          = { world := (cleanup (restoreDir (env.scanPullRequest
                (targetScanConfig repo pr) w2).2).2).2,
              log := s.log ++ new }
        ∧ new = [Event.downloadRepoToTempDir (sourceBranchParams repo pr), Event.Chdir wd,
            Event.scanPullRequest (targetScanConfig repo pr), Event.restoreDir, Event.cleanup]
        ∧ new.count Event.restoreDir = 1 ∧ new.count Event.cleanup = 1)
    ∧ (∀ (restoreDir : Closure σ) (e : Error) (w2 : σ),
      env.Chdir wd w1 = ((restoreDir, some e), w2) →
      ∃ new : List Event,
        (downloadAndScanPullRequest env pr repo s).2
          = { world := (cleanup w2).2, log := s.log ++ new }
        ∧ new = [Event.downloadRepoToTempDir (sourceBranchParams repo pr), Event.Chdir wd,
            Event.cleanup]
        ∧ new.count Event.restoreDir = 0 ∧ new.count Event.cleanup = 1) := by
  constructor
  · intro restoreDir w2 hchdir
    refine ⟨_, ?_, rfl, ?_, ?_⟩
    · rw [downloadAndScanPullRequest_of_scanned env pr repo s wd cleanup restoreDir w1 w2
        hdownload hchdir]
    · simp [List.count_cons]
    · simp [List.count_cons]
  · intro restoreDir e w2 hchdir
    refine ⟨_, ?_, rfl, ?_, ?_⟩
    · rw [downloadAndScanPullRequest_of_chdir_failed env pr repo s wd cleanup restoreDir e
        w1 w2 hdownload hchdir]
    · simp [List.count_cons]
    · simp [List.count_cons]

/-- C19. `downloadAndScanPullRequest` returns the download error when the download
fails, otherwise the chdir error when the chdir fails, otherwise exactly what
`scanPullRequest` returned: the closures `cleanup` and `restoreDir` are arbitrary here, so
whatever error they return leaves the result unchanged. -/
theorem downloadAndScanPullRequest_result {σ : Type} (env : Env σ)
    (pr : PullRequestInfo) (repo : FrogbotRepoConfig) (s : Machine σ) :
    (∀ (wd : String) (cleanup : Closure σ) (e : Error) (w1 : σ),
      env.downloadRepoToTempDir (sourceBranchParams repo pr) s.world
        = ((wd, cleanup, some e), w1) →
      (downloadAndScanPullRequest env pr repo s).1 = some e)
    ∧ (∀ (wd : String) (cleanup restoreDir : Closure σ) (e : Error) (w1 w2 : σ),
      env.downloadRepoToTempDir (sourceBranchParams repo pr) s.world
        = ((wd, cleanup, none), w1) →
      env.Chdir wd w1 = ((restoreDir, some e), w2) →
      (downloadAndScanPullRequest env pr repo s).1 = some e)
    ∧ (∀ (wd : String) (cleanup restoreDir : Closure σ) (w1 w2 : σ),
      env.downloadRepoToTempDir (sourceBranchParams repo pr) s.world
        = ((wd, cleanup, none), w1) →
      env.Chdir wd w1 = ((restoreDir, none), w2) →
      (downloadAndScanPullRequest env pr repo s).1
        = (env.scanPullRequest (targetScanConfig repo pr) w2).1) := by
  refine ⟨?_, ?_, ?_⟩
  · intro wd cleanup e w1 hdownload
    rw [downloadAndScanPullRequest_of_download_failed env pr repo s wd cleanup e w1 hdownload]
  · intro wd cleanup restoreDir e w1 w2 hdownload hchdir
    rw [downloadAndScanPullRequest_of_chdir_failed env pr repo s wd cleanup restoreDir e w1 w2
      hdownload hchdir]
  · intro wd cleanup restoreDir w1 w2 hdownload hchdir
    rw [downloadAndScanPullRequest_of_scanned env pr repo s wd cleanup restoreDir w1 w2
      hdownload hchdir]

/-- Witness of C18 in the resource world: when the scan fails, and when the chdir fails,
nothing is left in use. -/
theorem downloadAndScanPullRequest_releases_resources_witness :
    (∃ new : List Event,
      (downloadAndScanPullRequest (resourceEnv none none (some "scan failed") none none)
          (pullRequest 1 "feature-1") repoA idle).2
        = { world := [], log := idle.log ++ new }
      ∧ new = [Event.downloadRepoToTempDir (sourceBranchParams repoA (pullRequest 1 "feature-1")),
          Event.Chdir "feature-1",
          Event.scanPullRequest (targetScanConfig repoA (pullRequest 1 "feature-1")),
          Event.restoreDir, Event.cleanup]
      ∧ new.count Event.restoreDir = 1 ∧ new.count Event.cleanup = 1)
    ∧ (∃ new : List Event,
      (downloadAndScanPullRequest (resourceEnv none (some "chdir failed") none none none)
          (pullRequest 1 "feature-1") repoA idle).2
        = { world := [], log := idle.log ++ new }
      ∧ new = [Event.downloadRepoToTempDir (sourceBranchParams repoA (pullRequest 1 "feature-1")),
          Event.Chdir "feature-1", Event.cleanup]
      ∧ new.count Event.restoreDir = 0 ∧ new.count Event.cleanup = 1) :=
  ⟨(downloadAndScanPullRequest_releases_resources
      (resourceEnv none none (some "scan failed") none none) (pullRequest 1 "feature-1") repoA
      idle "feature-1" (fun w => (none, w.erase "tempdir")) ["tempdir"] rfl).1
      (fun w => (none, w.erase "cwd")) ["cwd", "tempdir"] rfl,
    (downloadAndScanPullRequest_releases_resources
      (resourceEnv none (some "chdir failed") none none none) (pullRequest 1 "feature-1") repoA
      idle "feature-1" (fun w => (none, w.erase "tempdir")) ["tempdir"] rfl).2
      (fun w => (none, w.erase "cwd")) "chdir failed" ["tempdir"] rfl⟩

/-- Witness of C19 in the resource world: a failed restore and a failed cleanup leave
the result nil; a failed download or chdir is the result. -/
theorem downloadAndScanPullRequest_result_witness :
    (downloadAndScanPullRequest
        (resourceEnv none none none (some "restore failed") (some "cleanup failed"))
        (pullRequest 1 "feature-1") repoA idle).1 = none
    ∧ (downloadAndScanPullRequest
        (resourceEnv none none (some "scan failed") (some "restore failed")
          (some "cleanup failed"))
        (pullRequest 1 "feature-1") repoA idle).1 = some "scan failed"
    ∧ (downloadAndScanPullRequest
        (resourceEnv none (some "chdir failed") none none (some "cleanup failed"))
        (pullRequest 1 "feature-1") repoA idle).1 = some "chdir failed"
    ∧ (downloadAndScanPullRequest
        (resourceEnv (some "download failed") none none none none)
        (pullRequest 1 "feature-1") repoA idle).1 = some "download failed" :=
  ⟨(downloadAndScanPullRequest_result
      (resourceEnv none none none (some "restore failed") (some "cleanup failed"))
      (pullRequest 1 "feature-1") repoA idle).2.2 "feature-1"
      (fun w => (some "cleanup failed", w.erase "tempdir"))
      (fun w => (some "restore failed", w.erase "cwd")) ["tempdir"] ["cwd", "tempdir"] rfl rfl,
    (downloadAndScanPullRequest_result
      (resourceEnv none none (some "scan failed") (some "restore failed")
        (some "cleanup failed"))
      (pullRequest 1 "feature-1") repoA idle).2.2 "feature-1"
      (fun w => (some "cleanup failed", w.erase "tempdir"))
      (fun w => (some "restore failed", w.erase "cwd")) ["tempdir"] ["cwd", "tempdir"] rfl rfl,
    (downloadAndScanPullRequest_result
      (resourceEnv none (some "chdir failed") none none (some "cleanup failed"))
      (pullRequest 1 "feature-1") repoA idle).2.1 "feature-1"
      (fun w => (some "cleanup failed", w.erase "tempdir"))
      (fun w => (none, w.erase "cwd")) "chdir failed" ["tempdir"] ["tempdir"] rfl rfl,
    (downloadAndScanPullRequest_result
      (resourceEnv (some "download failed") none none none none)
      (pullRequest 1 "feature-1") repoA idle).1 "feature-1"
      (fun w => (none, w.erase "tempdir")) "download failed" [] rfl⟩

/-! ## Theorems, part 8. E-mail receivers -/

theorem containsChars_iff (sub l : List Char) : containsChars sub l = true ↔ sub <:+: l := by
  induction l with
  | nil =>
    simp only [containsChars, List.isEmpty_iff, List.infix_nil]
  | cons c cs ih =>
    simp only [containsChars, Bool.or_eq_true, ih, List.isPrefixOf_iff_prefix,
      List.infix_cons_iff]

theorem Contains_iff (s substr : String) :
    Contains s substr = true ↔ substr.data <:+: s.data :=
  containsChars_iff _ _

theorem shouldExcludeEmailAddress_iff (emailAddress : String) (excludes : List String) :
    shouldExcludeEmailAddress emailAddress excludes = true
      ↔ ∃ x ∈ excludes, x ≠ "" ∧ x.data <:+: emailAddress.data := by
  induction excludes with
  | nil => simp [shouldExcludeEmailAddress]
  | cons x xs ih =>
    rw [shouldExcludeEmailAddress]
    by_cases hx : x ≠ "" ∧ x.data <:+: emailAddress.data
    · have : (decide (x ≠ "") && Contains emailAddress x) = true := by
        simp [hx.1, (Contains_iff _ _).mpr hx.2]
      rw [if_pos this]
      simp only [true_iff]
      exact ⟨x, List.mem_cons_self _ _, hx⟩
    · have : ¬ (decide (x ≠ "") && Contains emailAddress x) = true := by
        intro h
        simp only [Bool.and_eq_true, decide_eq_true_eq, Contains_iff] at h
        exact hx h
      rw [if_neg this, ih]
      constructor
      · rintro ⟨y, hy, h⟩
        exact ⟨y, List.mem_cons_of_mem _ hy, h⟩
      · rintro ⟨y, hy, h⟩
        rcases List.mem_cons.mp hy with rfl | hy
        · exact absurd h hx
        · exact ⟨y, hy, h⟩

theorem StringSet.mem_Add (set : StringSet) (t x : String) :
    x ∈ set.Add t ↔ x ∈ set ∨ x = t := by
  unfold StringSet.Add
  split
  · rename_i h
    constructor
    · exact Or.inl
    · rintro (h' | rfl)
      · exact h'
      · exact h
  · simp

theorem StringSet.nodup_Add (set : StringSet) (t : String) (h : set.Nodup) :
    (set.Add t).Nodup := by
  unfold StringSet.Add
  split
  · exact h
  · rename_i hnot
    exact List.Nodup.append h (List.nodup_singleton t) (by simpa using hnot)

theorem collectEmailReceivers_spec (pre : List String) (commits : List CommitInfo)
    (acc : StringSet) (hacc : acc.Nodup) :
    (collectEmailReceivers pre commits acc).Nodup
    ∧ ∀ e, e ∈ collectEmailReceivers pre commits acc
        ↔ e ∈ acc ∨ ∃ c ∈ commits, c.AuthorEmail = e
            ∧ shouldExcludeEmailAddress e excludedEmailAddresses = false
            ∧ shouldExcludeEmailAddress e pre = false := by
  induction commits generalizing acc with
  | nil => exact ⟨hacc, by simp [collectEmailReceivers]⟩
  | cons c cs ih =>
    rw [collectEmailReceivers]
    split
    · rename_i hex
      obtain ⟨hnodup, hmem⟩ := ih acc hacc
      refine ⟨hnodup, fun e => ?_⟩
      rw [hmem e]
      constructor
      · rintro (h | ⟨d, hd, h⟩)
        · exact Or.inl h
        · exact Or.inr ⟨d, List.mem_cons_of_mem _ hd, h⟩
      · rintro (h | ⟨d, hd, rfl, h1, h2⟩)
        · exact Or.inl h
        · rcases List.mem_cons.mp hd with rfl | hd
          · rw [h1, h2] at hex
            cases hex
          · exact Or.inr ⟨d, hd, rfl, h1, h2⟩
    · rename_i hex
      obtain ⟨hnodup, hmem⟩ := ih (acc.Add c.AuthorEmail) (StringSet.nodup_Add _ _ hacc)
      refine ⟨hnodup, fun e => ?_⟩
      rw [hmem e, StringSet.mem_Add]
      simp only [Bool.or_eq_true, not_or, Bool.not_eq_true] at hex
      constructor
      · rintro ((h | rfl) | ⟨d, hd, h⟩)
        · exact Or.inl h
        · exact Or.inr ⟨c, List.mem_cons_self _ _, rfl, hex.1, hex.2⟩
        · exact Or.inr ⟨d, List.mem_cons_of_mem _ hd, h⟩
      · rintro (h | ⟨d, hd, rfl, h1, h2⟩)
        · exact Or.inl (Or.inl h)
        · rcases List.mem_cons.mp hd with rfl | hd
          · exact Or.inl (Or.inr rfl)
          · exact Or.inr ⟨d, hd, rfl, h1, h2⟩

theorem shouldExcludeEmailAddress_eq_false_iff (emailAddress : String)
    (excludes : List String) :
    shouldExcludeEmailAddress emailAddress excludes = false
      ↔ ∀ x ∈ excludes, x ≠ "" → ¬ x.data <:+: emailAddress.data := by
  rw [← Bool.not_eq_true, shouldExcludeEmailAddress_iff]
  constructor
  · intro h x hx hne hin
    exact h ⟨x, hx, hne, hin⟩
  · rintro h ⟨x, hx, hne, hin⟩
    exact h x hx hne hin

theorem shouldExcludeEmailAddress_filter (emailAddress : String) (excludes : List String) :
    shouldExcludeEmailAddress emailAddress (excludes.filter fun x => x ≠ "")
      = shouldExcludeEmailAddress emailAddress excludes := by
  rw [Bool.eq_iff_iff, shouldExcludeEmailAddress_iff, shouldExcludeEmailAddress_iff]
  constructor
  · rintro ⟨x, hx, h⟩
    exact ⟨x, (List.mem_filter.mp hx).1, h⟩
  · rintro ⟨x, hx, hne, h⟩
    exact ⟨x, List.mem_filter.mpr ⟨hx, by simpa using hne⟩, hne, h⟩

theorem collectEmailReceivers_filter (pre : List String) (commits : List CommitInfo)
    (acc : StringSet) :
    collectEmailReceivers (pre.filter fun x => x ≠ "") commits acc
      = collectEmailReceivers pre commits acc := by
  induction commits generalizing acc with
  | nil => rfl
  | cons c cs ih =>
    rw [collectEmailReceivers, collectEmailReceivers, shouldExcludeEmailAddress_filter]
    split
    · exact ih acc
    · exact ih _

/-- C20. For every order in which the Go map is ranged over,
`getEmailReceiversFromCommits` returns a nil error and a list without duplicates whose
elements are exactly the author e-mails of the commits that contain, as a substring
compared character by character, none of `no-reply`, `no_reply`, `noreply`, `no.reply`,
`frogbot` and none of the non-empty pre-configured receivers. Empty pre-configured
entries change nothing, and an empty author e-mail is kept. -/
theorem getEmailReceiversFromCommits_receivers (mapOrder : List String → List String)
    (hperm : ∀ l, (mapOrder l).Perm l) (commits : List CommitInfo) (pre : List String) :
    (getEmailReceiversFromCommits mapOrder commits pre).2 = none
    ∧ (getEmailReceiversFromCommits mapOrder commits pre).1.Nodup
    ∧ (∀ e : String, e ∈ (getEmailReceiversFromCommits mapOrder commits pre).1
        ↔ ((∃ c ∈ commits, c.AuthorEmail = e)
          ∧ (∀ x ∈ ["no-reply", "no_reply", "noreply", "no.reply", "frogbot"],
              ¬ (x : String).data <:+: e.data)
          ∧ (∀ x ∈ pre, x ≠ "" → ¬ x.data <:+: e.data)))
    ∧ getEmailReceiversFromCommits mapOrder commits (pre.filter fun x => x ≠ "")
        = getEmailReceiversFromCommits mapOrder commits pre
    ∧ ((∃ c ∈ commits, c.AuthorEmail = "")
        → "" ∈ (getEmailReceiversFromCommits mapOrder commits pre).1) := by
  obtain ⟨hnodup, hmem⟩ := collectEmailReceivers_spec pre commits [] List.nodup_nil
  have hfixed : ∀ e : String, shouldExcludeEmailAddress e excludedEmailAddresses = false
      ↔ ∀ x ∈ ["no-reply", "no_reply", "noreply", "no.reply", "frogbot"],
          ¬ (x : String).data <:+: e.data := by
    intro e
    rw [shouldExcludeEmailAddress_eq_false_iff]
    constructor
    · intro h x hx
      refine h x hx ?_
      simp only [List.mem_cons, List.mem_singleton, List.not_mem_nil, or_false] at hx
      rcases hx with rfl | rfl | rfl | rfl | rfl <;> decide
    · intro h x hx _
      exact h x hx
  have hiff : ∀ e : String, e ∈ (getEmailReceiversFromCommits mapOrder commits pre).1
      ↔ ((∃ c ∈ commits, c.AuthorEmail = e)
        ∧ (∀ x ∈ ["no-reply", "no_reply", "noreply", "no.reply", "frogbot"],
            ¬ (x : String).data <:+: e.data)
        ∧ (∀ x ∈ pre, x ≠ "" → ¬ x.data <:+: e.data)) := by
    intro e
    show e ∈ mapOrder (collectEmailReceivers pre commits []) ↔ _
    rw [(hperm _).mem_iff, hmem e, ← hfixed e, ← shouldExcludeEmailAddress_eq_false_iff]
    constructor
    · rintro (h | ⟨c, hc, rfl, h1, h2⟩)
      · cases h
      · exact ⟨⟨c, hc, rfl⟩, h1, h2⟩
    · rintro ⟨⟨c, hc, rfl⟩, h1, h2⟩
      exact Or.inr ⟨c, hc, rfl, h1, h2⟩
  refine ⟨rfl, (hperm _).nodup_iff.mpr hnodup, hiff, ?_, ?_⟩
  · simp only [getEmailReceiversFromCommits, collectEmailReceivers_filter]
  · intro hempty
    rw [hiff]
    refine ⟨hempty, ?_, ?_⟩
    · intro x hx hin
      have hnil : x.data = [] := List.infix_nil.mp hin
      simp only [List.mem_cons, List.mem_singleton, List.not_mem_nil, or_false] at hx
      rcases hx with rfl | rfl | rfl | rfl | rfl <;> cases hnil
    · intro x _ hne hin
      have hnil : x.data = [] := List.infix_nil.mp hin
      exact hne (String.ext hnil)

/-- Witness of C20: duplicates are merged, `noreply` and `frogbot` addresses and the
pre-configured `bob` are left out, `No-Reply` (other letter case) and the empty e-mail
are kept. -/
theorem getEmailReceiversFromCommits_receivers_witness :
    getEmailReceiversFromCommits id
        [commitBy "a@x.io", commitBy "noreply@github.com", commitBy "a@x.io", commitBy "",
          commitBy "bob@x.io", commitBy "frogbot@jfrog.com", commitBy "No-Reply@x.io"]
        ["bob", ""]
      = (["a@x.io", "", "No-Reply@x.io"], none)
    ∧ (getEmailReceiversFromCommits id
        [commitBy "a@x.io", commitBy "noreply@github.com", commitBy "a@x.io", commitBy "",
          commitBy "bob@x.io", commitBy "frogbot@jfrog.com", commitBy "No-Reply@x.io"]
        ["bob", ""]).1.Nodup :=
  ⟨by decide,
    (getEmailReceiversFromCommits_receivers id (fun l => List.Perm.refl l)
      [commitBy "a@x.io", commitBy "noreply@github.com", commitBy "a@x.io", commitBy "",
        commitBy "bob@x.io", commitBy "frogbot@jfrog.com", commitBy "No-Reply@x.io"]
      ["bob", ""]).2.1⟩

/-! ## Theorems, part 9. The security gate of a pull-request scan -/

/-- C17: when the scan of the source branch, the download of the target branch, its scan
and the posting of the comment all succeed, `ScanPullRequestCmd.Run` returns
`securityIssueFoundErr` if `FailOnSecurityIssues` is set and the pull request has at least
one new issue, and returns no error if the setting is off or there is no new issue.
The sweep hands the repository configuration to that same `scanPullRequest`, with
`FailOnSecurityIssues` as the repository has it, and returns what it returns. -/
theorem ScanPullRequestCmd_security_gate {σ : Type} (scanEnv : ScanEnv σ)
    (repoConfig : FrogbotRepoConfig) (w w1 w2 w3 w4 : σ)
    (current previous : List ScanResult) (dir : String)
    (hsource : scanEnv.Scan ["."] repoConfig w = ((current, none), w1))
    (hdownload : scanEnv.DownloadRepository repoConfig.RepoOwner repoConfig.RepoName
      repoConfig.BaseBranch w1 = ((dir, none), w2))
    (htarget : scanEnv.Scan [dir] repoConfig w2 = ((previous, none), w3))
    (hposted : scanEnv.AddPullRequestComment repoConfig.RepoOwner repoConfig.RepoName
      repoConfig.PullRequestID (scanEnv.Render (createNewIssuesRows previous current).1) w3
      = (none, w4)) :
    ((repoConfig.FailOnSecurityIssues = true ∧ (createNewIssuesRows previous current).1 ≠ []) →
      (ScanPullRequestCmd.Run scanEnv [repoConfig] w).1 = some scanEnv.securityIssueFoundErr)
    ∧ ((repoConfig.FailOnSecurityIssues = false ∨ (createNewIssuesRows previous current).1 = []) →
      (ScanPullRequestCmd.Run scanEnv [repoConfig] w).1 = none)
    ∧ (∀ (env : Env σ) (pr : PullRequestInfo) (repo : FrogbotRepoConfig) (s : Machine σ)
        (wd : String) (cleanup restoreDir : Closure σ) (v1 v2 : σ),
        env.scanPullRequest = scanPullRequest scanEnv →
        env.downloadRepoToTempDir (sourceBranchParams repo pr) s.world
          = ((wd, cleanup, none), v1) →
        env.Chdir wd v1 = ((restoreDir, none), v2) →
        (downloadAndScanPullRequest env pr repo s).1
            = (scanPullRequest scanEnv (targetScanConfig repo pr) v2).1
          ∧ (targetScanConfig repo pr).FailOnSecurityIssues = repo.FailOnSecurityIssues) := by
  have hrows : (createNewIssuesRows previous current).2 = none := rfl
  have hrun : ScanPullRequestCmd.Run scanEnv [repoConfig] w
      = (if (repoConfig.FailOnSecurityIssues
            && !(createNewIssuesRows previous current).1.isEmpty) = true
          then (some scanEnv.securityIssueFoundErr, w4) else (none, w4)) := by
    simp only [ScanPullRequestCmd.Run, scanPullRequest, hsource, hdownload, htarget, hrows,
      hposted, ne_eq, not_true_eq_false, if_false]
  refine ⟨?_, ?_, ?_⟩
  · rintro ⟨hpolicy, hnew⟩
    rw [hrun, if_pos]
    simp [hpolicy, hnew]
  · intro h
    rw [hrun, if_neg]
    rcases h with h | h
    · simp [h]
    · simp [h]
  · intro env pr repo s wd cleanup restoreDir v1 v2 hscan hdl hchdir
    rw [downloadAndScanPullRequest_of_scanned env pr repo s wd cleanup restoreDir v1 v2 hdl
      hchdir, hscan]
    exact ⟨rfl, rfl⟩

/-- Witness of C17: a pull request that adds `XRAY-2` fails the run when the policy is
set and passes when it is not; a pull request that adds nothing passes with the policy
set. -/
theorem ScanPullRequestCmd_security_gate_witness :
    (ScanPullRequestCmd.Run
        (sampleScanEnv [{ Violations := [xray1AB] }] [{ Violations := [xray1AB, xray2CD] }])
        [singleRepo true] ()).1 = some "issues were detected by Frogbot"
    ∧ (ScanPullRequestCmd.Run
        (sampleScanEnv [{ Violations := [xray1AB] }] [{ Violations := [xray1AB, xray2CD] }])
        [singleRepo false] ()).1 = none
    ∧ (ScanPullRequestCmd.Run
        (sampleScanEnv [{ Violations := [xray1AB] }] [{ Violations := [xray1AB] }])
        [singleRepo true] ()).1 = none :=
  ⟨(ScanPullRequestCmd_security_gate
      (sampleScanEnv [{ Violations := [xray1AB] }] [{ Violations := [xray1AB, xray2CD] }])
      (singleRepo true) () () () () () [{ Violations := [xray1AB, xray2CD] }]
      [{ Violations := [xray1AB] }] "master" rfl rfl rfl rfl).1 ⟨rfl, by decide⟩,
    (ScanPullRequestCmd_security_gate
      (sampleScanEnv [{ Violations := [xray1AB] }] [{ Violations := [xray1AB, xray2CD] }])
      (singleRepo false) () () () () () [{ Violations := [xray1AB, xray2CD] }]
      [{ Violations := [xray1AB] }] "master" rfl rfl rfl rfl).2.1 (Or.inl rfl),
    (ScanPullRequestCmd_security_gate
      (sampleScanEnv [{ Violations := [xray1AB] }] [{ Violations := [xray1AB] }])
      (singleRepo true) () () () () () [{ Violations := [xray1AB] }]
      [{ Violations := [xray1AB] }] "master" rfl rfl rfl rfl).2.1 (Or.inr (by decide))⟩

/-! ## Theorems, part 10. The naming templates -/

theorem replacePlaceHolders_skip (values : List (List Char × List Char)) :
    ∀ (skipped rest : List Char),
      replacePlaceHolders values skipped.length (skipped ++ rest)
        = replacePlaceHolders values 0 rest
  | [], rest => by simp
  | _ :: skipped, rest => by
    simpa [replacePlaceHolders] using replacePlaceHolders_skip values skipped rest

theorem replacePlaceHolders_no_match (values : List (List Char × List Char))
    (c : Char) (cs : List Char)
    (h : ∀ entry ∈ values, (!entry.1.isEmpty && entry.1.isPrefixOf (c :: cs)) = false) :
    replacePlaceHolders values 0 (c :: cs) = c :: replacePlaceHolders values 0 cs := by
  have hnone : values.find?
      (fun entry => !entry.1.isEmpty && entry.1.isPrefixOf (c :: cs)) = none := by
    rw [List.find?_eq_none]
    intro entry hmem
    simp [h entry hmem]
  rw [replacePlaceHolders, hnone]

theorem replacePlaceHolders_text (values : List (List Char × List Char))
    (hkeys : ∀ entry ∈ values, ∃ name, entry.1 = (Segment.hole name).source) :
    ∀ (chars rest : List Char), '$' ∉ chars →
      replacePlaceHolders values 0 (chars ++ rest)
        = chars ++ replacePlaceHolders values 0 rest
  | [], _, _ => by simp
  | c :: chars, rest, h => by
    have hc : c ≠ '$' := fun hc => h (by simp [hc])
    have htail : '$' ∉ chars := fun hmem => h (List.mem_cons_of_mem _ hmem)
    have hstep : replacePlaceHolders values 0 (c :: (chars ++ rest))
        = c :: replacePlaceHolders values 0 (chars ++ rest) := by
      apply replacePlaceHolders_no_match
      intro entry hmem
      obtain ⟨name, hname⟩ := hkeys entry hmem
      simp [hname, Segment.source, List.isPrefixOf, Ne.symm hc]
    rw [List.cons_append, hstep, replacePlaceHolders_text values hkeys chars rest htail,
      List.cons_append]

theorem closing_prefix (m : List Char) (hm : '\x7d' ∉ m) :
    ∀ (n rest : List Char), '\x7d' ∉ n →
      ((m ++ ['\x7d']) <+: (n ++ '\x7d' :: rest) ↔ m = n) := by
  induction m with
  | nil =>
    intro n rest hn
    cases n with
    | nil => simp
    | cons x n =>
      have hx : x ≠ '\x7d' := fun hx => hn (by simp [hx])
      simp [List.cons_prefix_cons, Ne.symm hx]
  | cons a m ih =>
    intro n rest hn
    have ha : a ≠ '\x7d' := fun ha => hm (by simp [ha])
    have hm' : '\x7d' ∉ m := fun hmem => hm (List.mem_cons_of_mem _ hmem)
    cases n with
    | nil => simp [List.cons_prefix_cons, ha]
    | cons x n =>
      have hn' : '\x7d' ∉ n := fun hmem => hn (List.mem_cons_of_mem _ hmem)
      simp [List.cons_prefix_cons, ih hm' n rest hn']

theorem hole_isPrefixOf (m n rest : List Char) (hm : '\x7d' ∉ m) (hn : '\x7d' ∉ n) :
    (Segment.hole m).source.isPrefixOf ((Segment.hole n).source ++ rest)
      = decide ((Segment.hole m).source = (Segment.hole n).source) := by
  have h := closing_prefix m hm n rest hn
  by_cases hmn : m = n
  · subst hmn
    simp [Segment.source]
  · have hnot : ¬ (m ++ ['\x7d']) <+: (n ++ '\x7d' :: rest) := fun hp => hmn (h.1 hp)
    have hne : ¬ (m ++ ['\x7d'] = n ++ ['\x7d']) := fun he => hmn (List.append_cancel_right he)
    have hfalse : (m ++ ['\x7d']).isPrefixOf (n ++ '\x7d' :: rest) = false := by
      rw [Bool.eq_false_iff, Ne, List.isPrefixOf_iff_prefix]
      exact hnot
    simp [Segment.source, hfalse, hne]

theorem find?_congr_mem {α : Type} (p q : α → Bool) :
    ∀ (l : List α), (∀ x ∈ l, p x = q x) → l.find? p = l.find? q
  | [], _ => rfl
  | x :: l, h => by
    have hx : p x = q x := h x (List.mem_cons_self _ _)
    have hl : l.find? p = l.find? q :=
      find?_congr_mem p q l fun y hy => h y (List.mem_cons_of_mem _ hy)
    simp [List.find?, hx, hl]

/-- The value the character-level entries give a placeholder, or the placeholder itself. -/
theorem replacePlaceHolders_hole (values : List (List Char × List Char))
    (hkeys : ∀ entry ∈ values, ∃ name, '\x7d' ∉ name ∧ entry.1 = (Segment.hole name).source)
    (n rest : List Char) (hn : (Segment.hole n).WellFormed) :
    replacePlaceHolders values 0 ((Segment.hole n).source ++ rest)
      = (match values.find? (fun entry => decide (entry.1 = (Segment.hole n).source)) with
          | some entry => entry.2
          | none => (Segment.hole n).source) ++ replacePlaceHolders values 0 rest := by
  have hfind : values.find? (fun entry => !entry.1.isEmpty
        && entry.1.isPrefixOf ((Segment.hole n).source ++ rest))
      = values.find? (fun entry => decide (entry.1 = (Segment.hole n).source)) := by
    apply find?_congr_mem
    intro entry hmem
    obtain ⟨name, hname, hkey⟩ := hkeys entry hmem
    rw [hkey, hole_isPrefixOf name n rest hname hn.2]
    simp [Segment.source]
  have hsrc : (Segment.hole n).source ++ rest
      = '$' :: (('\x7b' :: n ++ ['\x7d']) ++ rest) := by simp [Segment.source]
  have hrest : replacePlaceHolders values 0 (('\x7b' :: n ++ ['\x7d']) ++ rest)
      = ('\x7b' :: n ++ ['\x7d']) ++ replacePlaceHolders values 0 rest := by
    apply replacePlaceHolders_text values
      (fun entry hmem => (hkeys entry hmem).imp fun _ h => h.2)
    have h1 := hn.1
    simp [h1]
  rw [hsrc] at hfind
  rw [hsrc, replacePlaceHolders, hfind]
  cases hcase : values.find? (fun entry => decide (entry.1 = (Segment.hole n).source)) with
  | none =>
    simp only []
    rw [hrest]
    simp [Segment.source]
  | some entry =>
    simp only []
    have hkey : entry.1 = (Segment.hole n).source := by
      simpa using List.find?_some hcase
    have hlen : entry.1.length - 1 = ('\x7b' :: n ++ ['\x7d']).length := by
      simp [hkey, Segment.source]
    rw [hlen, replacePlaceHolders_skip]

/-- The character-level substitution on a template given by its pieces. -/
theorem replacePlaceHolders_segments (values : List (List Char × List Char))
    (hkeys : ∀ entry ∈ values, ∃ name, '\x7d' ∉ name ∧ entry.1 = (Segment.hole name).source) :
    ∀ (segments : List Segment), (∀ segment ∈ segments, segment.WellFormed) →
      replacePlaceHolders values 0 (segments.flatMap Segment.source)
        = segments.flatMap fun segment =>
            match segment with
            | Segment.text chars => chars
            | Segment.hole name =>
              match values.find? (fun entry => decide (entry.1 = (Segment.hole name).source)) with
              | some entry => entry.2
              | none => (Segment.hole name).source
  | [], _ => by simp [replacePlaceHolders]
  | Segment.text chars :: segments, h => by
    have hwf : '$' ∉ chars := h (Segment.text chars) (List.mem_cons_self _ _)
    have ih := replacePlaceHolders_segments values hkeys segments
      fun segment hmem => h segment (List.mem_cons_of_mem _ hmem)
    rw [List.flatMap_cons, List.flatMap_cons]
    show replacePlaceHolders values 0 (chars ++ _) = chars ++ _
    rw [replacePlaceHolders_text values (fun entry hmem => (hkeys entry hmem).imp fun _ h => h.2)
      chars _ hwf, ih]
  | Segment.hole name :: segments, h => by
    have hwf : (Segment.hole name).WellFormed := h (Segment.hole name) (List.mem_cons_self _ _)
    have ih := replacePlaceHolders_segments values hkeys segments
      fun segment hmem => h segment (List.mem_cons_of_mem _ hmem)
    rw [List.flatMap_cons, List.flatMap_cons, replacePlaceHolders_hole values hkeys name _ hwf,
      ih]

/-- Where no placeholder of `values` occurs, the substitution changes nothing. -/
theorem replacePlaceHolders_verbatim (values : List (List Char × List Char)) :
    ∀ (chars : List Char), (∀ entry ∈ values, ¬ entry.1 <:+: chars) →
      replacePlaceHolders values 0 chars = chars
  | [], _ => by simp [replacePlaceHolders]
  | c :: cs, h => by
    rw [replacePlaceHolders_no_match, replacePlaceHolders_verbatim values cs]
    · intro entry hmem hinfix
      exact h entry hmem (List.infix_cons hinfix)
    · intro entry hmem
      have hnot : ¬ entry.1 <+: c :: cs := fun hp => h entry hmem hp.isInfix
      have hfalse : entry.1.isPrefixOf (c :: cs) = false := by
        rw [Bool.eq_false_iff, Ne, List.isPrefixOf_iff_prefix]
        exact hnot
      simp [hfalse]

/-- The substitution cuts every template into text without placeholders and placeholders
of `values`, and replaces the latter. -/
theorem replacePlaceHolders_pieces (values : List (List Char × List Char))
    (hne : ∀ entry ∈ values, entry.1 ≠ []) :
    ∀ (n : Nat) (chars : List Char), chars.length ≤ n →
      ∃ (pieces : List (List Char × List Char × List Char)) (last : List Char),
        chars = pieces.flatMap (fun piece => piece.1 ++ piece.2.1) ++ last
        ∧ replacePlaceHolders values 0 chars
            = pieces.flatMap (fun piece => piece.1 ++ piece.2.2) ++ last
        ∧ (∀ piece ∈ pieces, piece.2 ∈ values ∧ ∀ entry ∈ values, ¬ entry.1 <:+: piece.1)
        ∧ ∀ entry ∈ values, ¬ entry.1 <:+: last := by
  intro n
  induction n with
  | zero =>
    intro chars hlen
    have hnil : chars = [] := List.length_eq_zero.1 (Nat.le_zero.1 hlen)
    subst hnil
    exact ⟨[], [], by simp, by simp [replacePlaceHolders], by simp,
      fun entry hmem hinfix => hne entry hmem (List.infix_nil.1 hinfix)⟩
  | succ n ih =>
    intro chars hlen
    cases chars with
    | nil =>
      exact ⟨[], [], by simp, by simp [replacePlaceHolders], by simp,
        fun entry hmem hinfix => hne entry hmem (List.infix_nil.1 hinfix)⟩
    | cons c cs =>
      cases hfind : values.find?
          (fun entry => !entry.1.isEmpty && entry.1.isPrefixOf (c :: cs)) with
      | some entry =>
        have hpred := List.find?_some hfind
        have hmem : entry ∈ values := List.mem_of_find?_eq_some hfind
        simp only [Bool.and_eq_true, Bool.not_eq_true', List.isPrefixOf_iff_prefix] at hpred
        obtain ⟨rest, hrest⟩ := hpred.2
        obtain ⟨k, ks, hkey⟩ := List.exists_cons_of_ne_nil (hne entry hmem)
        rw [hkey, List.cons_append] at hrest
        have hcs : cs = ks ++ rest := (List.cons.inj hrest).2.symm
        have hlen' : rest.length ≤ n := by
          have h1 : (c :: cs).length ≤ n + 1 := hlen
          rw [hcs] at h1
          simp at h1
          omega
        obtain ⟨pieces, last, hsrc, hout, hpieces, hlast⟩ := ih rest hlen'
        refine ⟨([], entry) :: pieces, last, ?_, ?_, ?_, hlast⟩
        · rw [List.flatMap_cons, ← hrest, hkey]
          simp [← hsrc]
        · rw [replacePlaceHolders, hfind]
          simp only []
          rw [hcs, hkey]
          have hskip : (k :: ks).length - 1 = ks.length := by simp
          rw [hskip, replacePlaceHolders_skip, hout]
          simp
        · intro piece hpiece
          rcases List.mem_cons.1 hpiece with hp | hp
          · subst hp
            exact ⟨hmem, fun entry' hmem' hinfix =>
              hne entry' hmem' (List.infix_nil.1 hinfix)⟩
          · exact hpieces piece hp
      | none =>
        have hnone : ∀ entry ∈ values, ¬ entry.1 <+: c :: cs := by
          intro entry hmem hp
          have h := List.find?_eq_none.1 hfind entry hmem
          have hk : entry.1.isEmpty = false := by
            cases hdata : entry.1 with
            | nil => exact absurd hdata (hne entry hmem)
            | cons _ _ => rfl
          simp [hk, List.isPrefixOf_iff_prefix] at h
          exact h hp
        have hlen' : cs.length ≤ n := by
          have h1 : (c :: cs).length ≤ n + 1 := hlen
          simp at h1
          omega
        obtain ⟨pieces, last, hsrc, hout, hpieces, hlast⟩ := ih cs hlen'
        have hstep : replacePlaceHolders values 0 (c :: cs)
            = c :: replacePlaceHolders values 0 cs := by
          rw [replacePlaceHolders, hfind]
        cases pieces with
        | nil =>
          refine ⟨[], c :: last, ?_, ?_, by simp, ?_⟩
          · simpa using hsrc
          · rw [hstep, hout]
            simp
          · intro entry hmem hinfix
            rcases List.infix_cons_iff.1 hinfix with hp | hi
            · apply hnone entry hmem
              have hcs : cs = last := by simpa using hsrc
              rw [hcs]
              exact hp
            · exact hlast entry hmem hi
        | cons piece pieces =>
          refine ⟨(c :: piece.1, piece.2) :: pieces, last, ?_, ?_, ?_, hlast⟩
          · rw [hsrc]
            simp
          · rw [hstep, hout]
            simp
          · intro piece' hpiece'
            rcases List.mem_cons.1 hpiece' with hp | hp
            · subst hp
              refine ⟨(hpieces piece (List.mem_cons_self _ _)).1, ?_⟩
              intro entry hmem hinfix
              rcases List.infix_cons_iff.1 hinfix with hpre | hi
              · apply hnone entry hmem
                rw [hsrc, List.flatMap_cons]
                obtain ⟨tail, htail⟩ := hpre
                exact ⟨tail ++ (piece.2.1 ++ (pieces.flatMap (fun (piece :
                  List Char × List Char × List Char) => piece.1 ++ piece.2.1) ++ last)),
                  by simp [← List.append_assoc, htail]⟩
              · exact (hpieces piece (List.mem_cons_self _ _)).2 entry hmem hi
            · exact hpieces piece' (List.mem_cons_of_mem _ hp)

/-- The rendering of a template given by its pieces: text stands for itself, a placeholder
for its value. -/
theorem renderTemplate_segments (template : String) (values : List (String × String))
    (hkeys : ∀ entry ∈ values,
      ∃ name, '\x7d' ∉ name ∧ entry.1.data = (Segment.hole name).source)
    (segments : List Segment) (hwf : ∀ segment ∈ segments, segment.WellFormed)
    (htemplate : template.data = segments.flatMap Segment.source) :
    (renderTemplate template values).data = segments.flatMap (Segment.rendered values) := by
  have hkeys' : ∀ entry ∈ values.map (fun entry => (entry.1.data, entry.2.data)),
      ∃ name, '\x7d' ∉ name ∧ entry.1 = (Segment.hole name).source := by
    intro entry hmem
    obtain ⟨entry', hmem', rfl⟩ := List.mem_map.1 hmem
    exact hkeys entry' hmem'
  show replacePlaceHolders _ 0 template.data = _
  rw [htemplate, replacePlaceHolders_segments _ hkeys' segments hwf]
  congr 1
  funext segment
  cases segment with
  | text chars => rfl
  | hole name =>
    have hfind : (values.map fun entry => (entry.1.data, entry.2.data)).find?
          (fun entry => decide (entry.1 = (Segment.hole name).source))
        = (values.find? (fun entry => decide (entry.1.data = (Segment.hole name).source))).map
            fun entry => (entry.1.data, entry.2.data) := by
      rw [List.find?_map]
      rfl
    simp only [Segment.rendered, hfind]
    cases values.find? (fun entry => decide (entry.1.data = (Segment.hole name).source)) with
    | none => rfl
    | some entry => rfl

/-- A template in which no placeholder of `values` occurs is rendered as it is. -/
theorem renderTemplate_verbatim (template : String) (values : List (String × String))
    (h : ∀ entry ∈ values, ¬ entry.1.data <:+: template.data) :
    renderTemplate template values = template := by
  apply String.ext
  show replacePlaceHolders _ 0 template.data = template.data
  apply replacePlaceHolders_verbatim
  intro entry hmem
  obtain ⟨entry', hmem', rfl⟩ := List.mem_map.1 hmem
  exact h entry' hmem'

/-- Every template is rendered by replacing the placeholders of `values` that occur in it
and leaving every other character as it is. -/
theorem renderTemplate_isRendering (template : String) (values : List (String × String))
    (hne : ∀ entry ∈ values, entry.1.data ≠ []) :
    IsRendering values template (renderTemplate template values) := by
  have hne' : ∀ entry ∈ values.map (fun entry => (entry.1.data, entry.2.data)),
      entry.1 ≠ [] := by
    intro entry hmem
    obtain ⟨entry', hmem', rfl⟩ := List.mem_map.1 hmem
    exact hne entry' hmem'
  obtain ⟨pieces, last, hsrc, hout, hpieces, hlast⟩ :=
    replacePlaceHolders_pieces _ hne' template.data.length template.data (Nat.le_refl _)
  refine ⟨pieces.map (fun piece => (piece.1, String.mk piece.2.1, String.mk piece.2.2)), last,
    ?_, ?_, ?_, ?_⟩
  · rw [hsrc, List.flatMap_map]
  · show replacePlaceHolders _ 0 template.data = _
    rw [hout, List.flatMap_map]
  · intro piece hmem
    obtain ⟨piece', hmem', rfl⟩ := List.mem_map.1 hmem
    obtain ⟨hval, hfree⟩ := hpieces piece' hmem'
    obtain ⟨entry, hentry, heq⟩ := List.mem_map.1 hval
    refine ⟨?_, ?_⟩
    · rw [← heq]
      exact hentry
    · intro entry' hentry'
      exact hfree (entry'.1.data, entry'.2.data) (List.mem_map.2 ⟨entry', hentry', rfl⟩)
  · intro entry hentry
    exact hlast (entry.1.data, entry.2.data) (List.mem_map.2 ⟨entry, hentry, rfl⟩)

/-- The value of a placeholder that does not occur in the template does not matter. -/
theorem replacePlaceHolders_unused (before after : List (List Char × List Char))
    (key value value' : List Char) :
    ∀ (chars : List Char) (skip : Nat), ¬ key <:+: chars →
      replacePlaceHolders (before ++ (key, value) :: after) skip chars
        = replacePlaceHolders (before ++ (key, value') :: after) skip chars
  | [], _, _ => by simp [replacePlaceHolders]
  | c :: cs, skip + 1, h => by
    simp only [replacePlaceHolders]
    exact replacePlaceHolders_unused before after key value value' cs skip
      fun hinfix => h (List.infix_cons hinfix)
  | c :: cs, 0, h => by
    have hnot : key.isPrefixOf (c :: cs) = false := by
      rw [Bool.eq_false_iff, Ne, List.isPrefixOf_iff_prefix]
      exact fun hp => h hp.isInfix
    have htail : ¬ key <:+: cs := fun hinfix => h (List.infix_cons hinfix)
    have hfind : ∀ x : List Char, (before ++ (key, x) :: after).find?
          (fun entry => !entry.1.isEmpty && entry.1.isPrefixOf (c :: cs))
        = (before ++ after).find?
          (fun entry => !entry.1.isEmpty && entry.1.isPrefixOf (c :: cs)) := by
      intro x
      simp [List.find?_append, List.find?_cons, hnot]
    rw [replacePlaceHolders, replacePlaceHolders, hfind value, hfind value']
    cases (before ++ after).find?
        (fun entry => !entry.1.isEmpty && entry.1.isPrefixOf (c :: cs)) with
    | none =>
      simp only []
      rw [replacePlaceHolders_unused before after key value value' cs 0 htail]
    | some entry =>
      simp only []
      rw [replacePlaceHolders_unused before after key value value' cs _ htail]

/-- The three placeholders are of the form `$` `{` name `}`. -/
theorem placeHolder_shape (key : String)
    (h : key ∈ [PackagePlaceHolder, FixVersionPlaceHolder, BranchHashPlaceHolder]) :
    ∃ name, '\x7d' ∉ name ∧ key.data = (Segment.hole name).source := by
  simp only [List.mem_cons, List.mem_singleton, List.not_mem_nil, or_false] at h
  rcases h with h | h | h
  · exact ⟨"IMPACTED_PACKAGE".data, by decide, by rw [h]; rfl⟩
  · exact ⟨"FIX_VERSION".data, by decide, by rw [h]; rfl⟩
  · exact ⟨"BRANCH_NAME_HASH".data, by decide, by rw [h]; rfl⟩

theorem branchValues_keys (p v hash : String) :
    ∀ entry ∈ branchValues p v hash,
      ∃ name, '\x7d' ∉ name ∧ entry.1.data = (Segment.hole name).source := by
  intro entry hmem
  apply placeHolder_shape
  simp only [branchValues, List.mem_cons, List.mem_singleton, List.not_mem_nil,
    or_false] at hmem
  rcases hmem with h | h | h <;> simp [h]

theorem hashValues_keys (t : String) :
    ∀ entry ∈ [(BranchHashPlaceHolder, t)],
      ∃ name, '\x7d' ∉ name ∧ entry.1.data = (Segment.hole name).source := by
  intro entry hmem
  apply placeHolder_shape
  simp only [List.mem_singleton] at hmem
  simp [hmem]

theorem keys_nonempty (values : List (String × String))
    (hkeys : ∀ entry ∈ values,
      ∃ name, '\x7d' ∉ name ∧ entry.1.data = (Segment.hole name).source) :
    ∀ entry ∈ values, entry.1.data ≠ [] := by
  intro entry hmem
  obtain ⟨name, _, hkey⟩ := hkeys entry hmem
  simp [hkey, Segment.source]

theorem rendered_branch_package (p v hash : String) :
    Segment.rendered (branchValues p v hash) (Segment.hole "IMPACTED_PACKAGE".data)
      = p.data := by
  have h : (PackagePlaceHolder.data = (Segment.hole "IMPACTED_PACKAGE".data).source) := rfl
  simp [Segment.rendered, branchValues, List.find?, h]

theorem rendered_branch_version (p v hash : String) :
    Segment.rendered (branchValues p v hash) (Segment.hole "FIX_VERSION".data) = v.data := by
  have h1 : ¬ (PackagePlaceHolder.data = (Segment.hole "FIX_VERSION".data).source) := by
    decide
  have h2 : (FixVersionPlaceHolder.data = (Segment.hole "FIX_VERSION".data).source) := rfl
  simp [Segment.rendered, branchValues, List.find?, h1, h2]

theorem rendered_branch_hash (p v hash : String) :
    Segment.rendered (branchValues p v hash) (Segment.hole "BRANCH_NAME_HASH".data)
      = hash.data := by
  have h1 : ¬ (PackagePlaceHolder.data = (Segment.hole "BRANCH_NAME_HASH".data).source) := by
    decide
  have h2 : ¬ (FixVersionPlaceHolder.data
      = (Segment.hole "BRANCH_NAME_HASH".data).source) := by decide
  have h3 : (BranchHashPlaceHolder.data = (Segment.hole "BRANCH_NAME_HASH".data).source) :=
    rfl
  simp [Segment.rendered, branchValues, List.find?, h1, h2, h3]

theorem rendered_hash_only (t : String) :
    Segment.rendered [(BranchHashPlaceHolder, t)] (Segment.hole "BRANCH_NAME_HASH".data)
      = t.data := by
  have h3 : (BranchHashPlaceHolder.data = (Segment.hole "BRANCH_NAME_HASH".data).source) :=
    rfl
  simp [Segment.rendered, List.find?, h3]

/-- The default commit message. -/
theorem renderTemplate_CommitMessageTemplate (p v hash : String) :
    renderTemplate CommitMessageTemplate (branchValues p v hash)
      = "Upgrade " ++ p ++ " to " ++ v := by
  apply String.ext
  rw [renderTemplate_segments CommitMessageTemplate (branchValues p v hash)
    (branchValues_keys p v hash)
    [Segment.text "Upgrade ".data, Segment.hole "IMPACTED_PACKAGE".data,
      Segment.text " to ".data, Segment.hole "FIX_VERSION".data]
    (by decide) (by decide)]
  simp only [List.flatMap_cons, List.flatMap_nil, rendered_branch_package,
    rendered_branch_version, String.data_append, List.append_nil, List.append_assoc]
  rfl

/-- The default pull-request title. -/
theorem renderTemplate_PullRequestTitleTemplate (p v hash : String) :
    renderTemplate PullRequestTitleTemplate (branchValues p v hash)
      = "[🐸 Frogbot] Update version of " ++ p ++ " to " ++ v := by
  apply String.ext
  rw [renderTemplate_segments PullRequestTitleTemplate (branchValues p v hash)
    (branchValues_keys p v hash)
    [Segment.text "[🐸 Frogbot] Update version of ".data,
      Segment.hole "IMPACTED_PACKAGE".data, Segment.text " to ".data,
      Segment.hole "FIX_VERSION".data]
    (by decide) (by decide)]
  simp only [List.flatMap_cons, List.flatMap_nil, rendered_branch_package,
    rendered_branch_version, String.data_append, List.append_nil, List.append_assoc]
  rfl

/-- The default branch name. -/
theorem renderTemplate_BranchNameTemplate (p v hash : String) :
    renderTemplate BranchNameTemplate (branchValues p v hash)
      = "frogbot-" ++ p ++ "-" ++ hash := by
  apply String.ext
  rw [renderTemplate_segments BranchNameTemplate (branchValues p v hash)
    (branchValues_keys p v hash)
    [Segment.text "frogbot-".data, Segment.hole "IMPACTED_PACKAGE".data,
      Segment.text "-".data, Segment.hole "BRANCH_NAME_HASH".data]
    (by decide) (by decide)]
  simp only [List.flatMap_cons, List.flatMap_nil, rendered_branch_package,
    rendered_branch_hash, String.data_append, List.append_nil, List.append_assoc]
  rfl

/-- The default aggregated branch name. -/
theorem renderTemplate_AggregatedBranchNameTemplate (t : String) :
    renderTemplate AggregatedBranchNameTemplate [(BranchHashPlaceHolder, t)]
      = "frogbot-update-" ++ t ++ "-dependencies" := by
  apply String.ext
  rw [renderTemplate_segments AggregatedBranchNameTemplate [(BranchHashPlaceHolder, t)]
    (hashValues_keys t)
    [Segment.text "frogbot-update-".data, Segment.hole "BRANCH_NAME_HASH".data,
      Segment.text "-dependencies".data]
    (by decide) (by decide)]
  simp only [List.flatMap_cons, List.flatMap_nil, rendered_hash_only,
    String.data_append, List.append_nil, List.append_assoc]
  rfl

theorem stringBytes_append (a b : String) :
    stringBytes (a ++ b) = stringBytes a ++ stringBytes b := by
  simp [stringBytes, String.data_append, List.flatMap_append]

/-- The hash is the MD5 digest of `frogbot`, the branch, the package and the version. -/
theorem Md5Hash_seed (b p v : String) :
    Md5Hash ["frogbot", b, p, v] = (md5Hex (stringBytes ("frogbot" ++ b ++ p ++ v)), none) := by
  simp [Md5Hash, stringBytes_append, List.flatMap_cons]

theorem md5Hex_length (message : List Nat) : (md5Hex message).length = 32 := by
  simp [md5Hex, wordBytes, hexByte, String.length]

theorem hexByte_digits (b : Nat) : ∀ c ∈ hexByte b, c ∈ "0123456789abcdef".data := by
  have hget : ∀ i : Nat, "0123456789abcdef".data.getD i '0' ∈ "0123456789abcdef".data := by
    intro i
    rw [List.getD_eq_getElem?_getD]
    cases h : "0123456789abcdef".data[i]? with
    | none => decide
    | some c =>
      obtain ⟨hlt, hget⟩ := List.getElem?_eq_some_iff.1 h
      simp only [Option.getD_some]
      rw [← hget]
      exact List.getElem_mem hlt
  intro c hc
  simp only [hexByte, List.mem_cons, List.mem_singleton, List.not_mem_nil, or_false] at hc
  rcases hc with h | h <;> rw [h] <;> exact hget _

theorem md5Hex_digits (message : List Nat) :
    ∀ c ∈ (md5Hex message).data, c ∈ "0123456789abcdef".data := by
  intro c hc
  simp only [md5Hex, List.mem_flatMap] at hc
  obtain ⟨b, _, hb⟩ := hc
  exact hexByte_digits b c hb

/-- C13: for every package `p`, fix version `v` and base branch `b`: when the
commit-message template is empty the commit message is `Upgrade p to v`; when the title
template is empty the pull-request title is `[🐸 Frogbot] Update version of p to v`; when
the branch template is empty `GenerateFixBranchName` returns without error `frogbot-p-h`,
where `h` is the branch-name hash, the MD5 digest of `frogbot` followed by `b`, `p` and
`v` in 32 lower-case hexadecimal digits. Each generator reads its own template only. For
`md5Branch`, `mquery` and `3.4.5` the hash is `41b1f45136b25e3624b15999bd57a476`. -/
theorem naming_defaults (gm : GitManager) (b p v : String) :
    (gm.customTemplates.commitMessageTemplate = "" →
      gm.GenerateCommitMessage p v = "Upgrade " ++ p ++ " to " ++ v)
    ∧ (gm.customTemplates.pullRequestTitleTemplate = "" →
      gm.GeneratePullRequestTitle p v
        = "[🐸 Frogbot] Update version of " ++ p ++ " to " ++ v)
    ∧ (gm.customTemplates.branchNameTemplate = "" →
      gm.GenerateFixBranchName b p v
        = ("frogbot-" ++ p ++ "-" ++ md5Hex (stringBytes ("frogbot" ++ b ++ p ++ v)), none))
    ∧ (md5Hex (stringBytes ("frogbot" ++ b ++ p ++ v))).length = 32
    ∧ (∀ c ∈ (md5Hex (stringBytes ("frogbot" ++ b ++ p ++ v))).data,
        c ∈ "0123456789abcdef".data)
    ∧ md5Hex (stringBytes ("frogbot" ++ "md5Branch" ++ "mquery" ++ "3.4.5"))
        = "41b1f45136b25e3624b15999bd57a476" := by
  refine ⟨?_, ?_, ?_, md5Hex_length _, md5Hex_digits _, ?_⟩
  · intro hcommit
    simp only [GitManager.GenerateCommitMessage, hcommit, if_true]
    exact renderTemplate_CommitMessageTemplate p v ""
  · intro htitle
    simp only [GitManager.GeneratePullRequestTitle, htitle, if_true]
    exact renderTemplate_PullRequestTitleTemplate p v ""
  · intro hbranch
    simp only [GitManager.GenerateFixBranchName, Md5Hash_seed, hbranch, ne_eq,
      not_true_eq_false, if_false, if_true]
    rw [renderTemplate_BranchNameTemplate]
  · set_option maxRecDepth 100000 in decide

/-- Witness of C13: the default names of the unit tests; a custom commit-message
template leaves the default title and the default branch name as they are. -/
theorem naming_defaults_witness :
    ({} : GitManager).GenerateCommitMessage "mquery" "3.4.5" = "Upgrade mquery to 3.4.5"
    ∧ ({} : GitManager).GeneratePullRequestTitle "mquery" "3.4.5"
        = "[🐸 Frogbot] Update version of mquery to 3.4.5"
    ∧ ({} : GitManager).GenerateFixBranchName "md5Branch" "mquery" "3.4.5"
        = ("frogbot-mquery-41b1f45136b25e3624b15999bd57a476", none)
    ∧ ({ customTemplates := { commitMessageTemplate := "custom_template" } }
        : GitManager).GeneratePullRequestTitle "mquery" "3.4.5"
        = "[🐸 Frogbot] Update version of mquery to 3.4.5"
    ∧ ({ customTemplates := { commitMessageTemplate := "custom_template" } }
        : GitManager).GenerateFixBranchName "md5Branch" "mquery" "3.4.5"
        = ("frogbot-mquery-41b1f45136b25e3624b15999bd57a476", none) :=
  have h := naming_defaults {} "md5Branch" "mquery" "3.4.5"
  have h' := naming_defaults { customTemplates := { commitMessageTemplate := "custom_template" } }
    "md5Branch" "mquery" "3.4.5"
  ⟨h.1 rfl, h.2.1 rfl, by rw [h.2.2.1 rfl, h.2.2.2.2.2]; rfl, h'.2.1 rfl,
    by rw [h'.2.2.1 rfl, h'.2.2.2.2.2]; rfl⟩

/-- C14: for every non-empty template, each generator reads its own template and returns
it with every occurrence of `${IMPACTED_PACKAGE}`, `${FIX_VERSION}` and
`${BRANCH_NAME_HASH}` replaced by the package, the fix version and the hash, and every
other character as it is. The hash of a branch name is the MD5 digest of `frogbot`, the
base branch, the package and the fix version; a commit message and a title are made from
a package and a fix version without a base branch, and their hash is the empty string.
For a template made of text and placeholders `${NAME}`, each of the three recognised
placeholders gives its value and each other one stays as written. Rendering never fails,
and a template in which none of the three placeholders occurs is returned verbatim. -/
theorem naming_custom_templates (gm : GitManager) (b p v : String) :
    (PackagePlaceHolder = "$\x7bIMPACTED_PACKAGE\x7d"
      ∧ FixVersionPlaceHolder = "$\x7bFIX_VERSION\x7d"
      ∧ BranchHashPlaceHolder = "$\x7bBRANCH_NAME_HASH\x7d")
    ∧ (gm.customTemplates.commitMessageTemplate ≠ "" →
      IsRendering
          [(PackagePlaceHolder, p), (FixVersionPlaceHolder, v), (BranchHashPlaceHolder, "")]
          gm.customTemplates.commitMessageTemplate (gm.GenerateCommitMessage p v)
      ∧ (∀ segments : List Segment, (∀ segment ∈ segments, segment.WellFormed) →
          gm.customTemplates.commitMessageTemplate.data = segments.flatMap Segment.source →
          (gm.GenerateCommitMessage p v).data
            = segments.flatMap (Segment.rendered
                [(PackagePlaceHolder, p), (FixVersionPlaceHolder, v),
                  (BranchHashPlaceHolder, "")]))
      ∧ ((∀ key ∈ [PackagePlaceHolder, FixVersionPlaceHolder, BranchHashPlaceHolder],
            ¬ key.data <:+: gm.customTemplates.commitMessageTemplate.data) →
          gm.GenerateCommitMessage p v = gm.customTemplates.commitMessageTemplate))
    ∧ (gm.customTemplates.pullRequestTitleTemplate ≠ "" →
      IsRendering
          [(PackagePlaceHolder, p), (FixVersionPlaceHolder, v), (BranchHashPlaceHolder, "")]
          gm.customTemplates.pullRequestTitleTemplate (gm.GeneratePullRequestTitle p v)
      ∧ (∀ segments : List Segment, (∀ segment ∈ segments, segment.WellFormed) →
          gm.customTemplates.pullRequestTitleTemplate.data
            = segments.flatMap Segment.source →
          (gm.GeneratePullRequestTitle p v).data
            = segments.flatMap (Segment.rendered
                [(PackagePlaceHolder, p), (FixVersionPlaceHolder, v),
                  (BranchHashPlaceHolder, "")]))
      ∧ ((∀ key ∈ [PackagePlaceHolder, FixVersionPlaceHolder, BranchHashPlaceHolder],
            ¬ key.data <:+: gm.customTemplates.pullRequestTitleTemplate.data) →
          gm.GeneratePullRequestTitle p v = gm.customTemplates.pullRequestTitleTemplate))
    ∧ (gm.customTemplates.branchNameTemplate ≠ "" →
      (gm.GenerateFixBranchName b p v).2 = none
      ∧ IsRendering
          [(PackagePlaceHolder, p), (FixVersionPlaceHolder, v),
            (BranchHashPlaceHolder, md5Hex (stringBytes ("frogbot" ++ b ++ p ++ v)))]
          gm.customTemplates.branchNameTemplate (gm.GenerateFixBranchName b p v).1
      ∧ (∀ segments : List Segment, (∀ segment ∈ segments, segment.WellFormed) →
          gm.customTemplates.branchNameTemplate.data = segments.flatMap Segment.source →
          (gm.GenerateFixBranchName b p v).1.data
            = segments.flatMap (Segment.rendered
                [(PackagePlaceHolder, p), (FixVersionPlaceHolder, v),
                  (BranchHashPlaceHolder, md5Hex (stringBytes ("frogbot" ++ b ++ p ++ v)))]))
      ∧ ((∀ key ∈ [PackagePlaceHolder, FixVersionPlaceHolder, BranchHashPlaceHolder],
            ¬ key.data <:+: gm.customTemplates.branchNameTemplate.data) →
          gm.GenerateFixBranchName b p v = (gm.customTemplates.branchNameTemplate, none))) := by
  have hverbatim : ∀ (template h : String),
      (∀ key ∈ [PackagePlaceHolder, FixVersionPlaceHolder, BranchHashPlaceHolder],
        ¬ key.data <:+: template.data) →
      renderTemplate template (branchValues p v h) = template := by
    intro template h hfree
    apply renderTemplate_verbatim
    intro entry hmem
    simp only [branchValues, List.mem_cons, List.mem_singleton, List.not_mem_nil,
      or_false] at hmem
    rcases hmem with h | h | h <;> rw [h] <;> apply hfree <;> simp
  have hrender : ∀ (template h : String),
      IsRendering (branchValues p v h) template (renderTemplate template (branchValues p v h))
      ∧ (∀ segments : List Segment, (∀ segment ∈ segments, segment.WellFormed) →
          template.data = segments.flatMap Segment.source →
          (renderTemplate template (branchValues p v h)).data
            = segments.flatMap (Segment.rendered (branchValues p v h)))
      ∧ ((∀ key ∈ [PackagePlaceHolder, FixVersionPlaceHolder, BranchHashPlaceHolder],
            ¬ key.data <:+: template.data) →
          renderTemplate template (branchValues p v h) = template) :=
    fun template h =>
      ⟨renderTemplate_isRendering _ _ (keys_nonempty _ (branchValues_keys p v h)),
        fun segments hwf hsrc =>
          renderTemplate_segments _ _ (branchValues_keys p v h) segments hwf hsrc,
        hverbatim template h⟩
  refine ⟨⟨rfl, rfl, rfl⟩, ?_, ?_, ?_⟩
  · intro hne
    have h1 : gm.GenerateCommitMessage p v
        = renderTemplate gm.customTemplates.commitMessageTemplate (branchValues p v "") := by
      simp only [GitManager.GenerateCommitMessage, hne, if_false]
    rw [h1]
    exact hrender _ _
  · intro hne
    have h2 : gm.GeneratePullRequestTitle p v
        = renderTemplate gm.customTemplates.pullRequestTitleTemplate
            (branchValues p v "") := by
      simp only [GitManager.GeneratePullRequestTitle, hne, if_false]
    rw [h2]
    exact hrender _ _
  · intro hne
    have h3 : gm.GenerateFixBranchName b p v
        = (renderTemplate gm.customTemplates.branchNameTemplate
            (branchValues p v (md5Hex (stringBytes ("frogbot" ++ b ++ p ++ v)))), none) := by
      simp only [GitManager.GenerateFixBranchName, Md5Hash_seed, hne, ne_eq,
        not_true_eq_false, if_false]
    rw [h3]
    refine ⟨rfl, (hrender _ _).1, (hrender _ _).2.1, ?_⟩
    intro hfree
    rw [hverbatim _ _ hfree]

/-- Witness of C14, on the configurations of the unit tests, which set one template each:
the commit-message template `<type>: bump ${IMPACTED_PACKAGE}` gives
`<type>: bump mquery`; the title template `[CustomPR] update ${IMPACTED_PACKAGE} to
${FIX_VERSION}` gives `[CustomPR] update mquery to 3.4.5`; the branch template
`[Feature]-${IMPACTED_PACKAGE}-${BRANCH_NAME_HASH}` gives the name with the package and
the hash; an unrecognised placeholder stays as written; in a commit message the hash
placeholder is replaced by the empty hash; `custom_template` is returned verbatim. -/
theorem naming_custom_templates_witness :
    ({ customTemplates := { commitMessageTemplate := "<type>: bump $\x7bIMPACTED_PACKAGE\x7d" } }
        : GitManager).GenerateCommitMessage "mquery" "3.4.5" = "<type>: bump mquery"
    ∧ ({ customTemplates :=
          { pullRequestTitleTemplate :=
              "[CustomPR] update $\x7bIMPACTED_PACKAGE\x7d to $\x7bFIX_VERSION\x7d" } }
        : GitManager).GeneratePullRequestTitle "mquery" "3.4.5"
      = "[CustomPR] update mquery to 3.4.5"
    ∧ ({ customTemplates :=
          { branchNameTemplate :=
              "[Feature]-$\x7bIMPACTED_PACKAGE\x7d-$\x7bBRANCH_NAME_HASH\x7d" } }
        : GitManager).GenerateFixBranchName "md5Branch" "mquery" "3.4.5"
      = ("[Feature]-mquery-41b1f45136b25e3624b15999bd57a476", none)
    ∧ ({ customTemplates :=
          { commitMessageTemplate :=
              "$\x7bOTHER\x7d: $\x7bBRANCH_NAME_HASH\x7d-$\x7bIMPACTED_PACKAGE\x7d" } }
        : GitManager).GenerateCommitMessage "mquery" "3.4.5" = "$\x7bOTHER\x7d: -mquery"
    ∧ ({ customTemplates := { commitMessageTemplate := "custom_template" } }
        : GitManager).GenerateCommitMessage "mquery" "3.4.5" = "custom_template" :=
  ⟨String.ext ((((naming_custom_templates
        { customTemplates :=
            { commitMessageTemplate := "<type>: bump $\x7bIMPACTED_PACKAGE\x7d" } }
        "md5Branch" "mquery" "3.4.5").2.1 (by decide)).2.1
      [Segment.text "<type>: bump ".data, Segment.hole "IMPACTED_PACKAGE".data]
      (by decide) (by decide)).trans (by decide)),
    String.ext ((((naming_custom_templates
        { customTemplates :=
            { pullRequestTitleTemplate :=
                "[CustomPR] update $\x7bIMPACTED_PACKAGE\x7d to $\x7bFIX_VERSION\x7d" } }
        "md5Branch" "mquery" "3.4.5").2.2.1 (by decide)).2.1
      [Segment.text "[CustomPR] update ".data, Segment.hole "IMPACTED_PACKAGE".data,
        Segment.text " to ".data, Segment.hole "FIX_VERSION".data]
      (by decide) (by decide)).trans (by decide)),
    Prod.ext
      (String.ext ((((naming_custom_templates
          { customTemplates :=
              { branchNameTemplate :=
                  "[Feature]-$\x7bIMPACTED_PACKAGE\x7d-$\x7bBRANCH_NAME_HASH\x7d" } }
          "md5Branch" "mquery" "3.4.5").2.2.2 (by decide)).2.2.1
        [Segment.text "[Feature]-".data, Segment.hole "IMPACTED_PACKAGE".data,
          Segment.text "-".data, Segment.hole "BRANCH_NAME_HASH".data]
        (by decide) (by decide)).trans (by set_option maxRecDepth 100000 in decide)))
      ((naming_custom_templates
          { customTemplates :=
              { branchNameTemplate :=
                  "[Feature]-$\x7bIMPACTED_PACKAGE\x7d-$\x7bBRANCH_NAME_HASH\x7d" } }
          "md5Branch" "mquery" "3.4.5").2.2.2 (by decide)).1,
    String.ext ((((naming_custom_templates
        { customTemplates :=
            { commitMessageTemplate :=
                "$\x7bOTHER\x7d: $\x7bBRANCH_NAME_HASH\x7d-$\x7bIMPACTED_PACKAGE\x7d" } }
        "md5Branch" "mquery" "3.4.5").2.1 (by decide)).2.1
      [Segment.hole "OTHER".data, Segment.text ": ".data,
        Segment.hole "BRANCH_NAME_HASH".data, Segment.text "-".data,
        Segment.hole "IMPACTED_PACKAGE".data]
      (by decide) (by decide)).trans (by decide)),
    ((naming_custom_templates
        { customTemplates := { commitMessageTemplate := "custom_template" } }
        "md5Branch" "mquery" "3.4.5").2.1 (by decide)).2.2 (by decide)⟩

/-- C16: for every package manager `t`, `GenerateAggregatedFixBranchName` returns
without error `frogbot-update-t-dependencies` when the branch template is empty, and
otherwise the branch template with the occurrences of the hash placeholder replaced by
`t` and every other character as it is; its only input besides the template is `t`. For
Go the empty template gives `frogbot-update-go-dependencies` and the template
`[feature]-${BRANCH_NAME_HASH}` gives `[feature]-go`. -/
theorem GenerateAggregatedFixBranchName_result (gm : GitManager) (t : Technology) :
    (gm.customTemplates.branchNameTemplate = "" →
      gm.GenerateAggregatedFixBranchName t
        = ("frogbot-update-" ++ t ++ "-dependencies", none))
    ∧ (gm.customTemplates.branchNameTemplate ≠ "" →
      (gm.GenerateAggregatedFixBranchName t).2 = none
      ∧ IsRendering [(BranchHashPlaceHolder, t)] gm.customTemplates.branchNameTemplate
          (gm.GenerateAggregatedFixBranchName t).1
      ∧ ∀ segments : List Segment, (∀ segment ∈ segments, segment.WellFormed) →
          gm.customTemplates.branchNameTemplate.data = segments.flatMap Segment.source →
          (gm.GenerateAggregatedFixBranchName t).1.data
            = segments.flatMap (Segment.rendered [(BranchHashPlaceHolder, t)]))
    ∧ ({} : GitManager).GenerateAggregatedFixBranchName "go"
        = ("frogbot-update-go-dependencies", none)
    ∧ ({ customTemplates := { branchNameTemplate := "[feature]-$\x7bBRANCH_NAME_HASH\x7d" } }
        : GitManager).GenerateAggregatedFixBranchName "go" = ("[feature]-go", none) := by
  refine ⟨?_, ?_, by decide, by decide⟩
  · intro hempty
    simp only [GitManager.GenerateAggregatedFixBranchName, hempty, if_true]
    rw [renderTemplate_AggregatedBranchNameTemplate]
  · intro hcustom
    simp only [GitManager.GenerateAggregatedFixBranchName, hcustom, if_false]
    exact ⟨trivial, renderTemplate_isRendering _ _ (keys_nonempty _ (hashValues_keys t)),
      fun segments hwf hsrc => renderTemplate_segments _ _ (hashValues_keys t) segments hwf hsrc⟩

/-- C15, counterexample: the template `just-a-branch-${BRANCH_NAME_HASH}` contains no
`${FIX_VERSION}`, yet base branch `md5Branch` and package `mquery` give one branch name
for fix version `3.4.5` (the name the unit test expects) and another for `3.4.6`; so
does the empty template. -/
theorem GenerateFixBranchName_varies_with_fix_version :
    ¬ FixVersionPlaceHolder.data <:+: "just-a-branch-$\x7bBRANCH_NAME_HASH\x7d".data
    ∧ ({ customTemplates := { branchNameTemplate := "just-a-branch-$\x7bBRANCH_NAME_HASH\x7d" } }
        : GitManager).GenerateFixBranchName "md5Branch" "mquery" "3.4.5"
      = ("just-a-branch-41b1f45136b25e3624b15999bd57a476", none)
    ∧ ({ customTemplates := { branchNameTemplate := "just-a-branch-$\x7bBRANCH_NAME_HASH\x7d" } }
        : GitManager).GenerateFixBranchName "md5Branch" "mquery" "3.4.6"
      = ("just-a-branch-eed9992cdee7b696d516477fde326109", none)
    ∧ ({} : GitManager).GenerateFixBranchName "md5Branch" "mquery" "3.4.5"
      = ("frogbot-mquery-41b1f45136b25e3624b15999bd57a476", none)
    ∧ ({} : GitManager).GenerateFixBranchName "md5Branch" "mquery" "3.4.6"
      = ("frogbot-mquery-eed9992cdee7b696d516477fde326109", none)
    ∧ ({ customTemplates := { branchNameTemplate := "just-a-branch-$\x7bBRANCH_NAME_HASH\x7d" } }
        : GitManager).GenerateFixBranchName "md5Branch" "mquery" "3.4.5"
      ≠ ({ customTemplates :=
          { branchNameTemplate := "just-a-branch-$\x7bBRANCH_NAME_HASH\x7d" } }
        : GitManager).GenerateFixBranchName "md5Branch" "mquery" "3.4.6" := by
  refine ⟨by decide, ?_, ?_, ?_, ?_, ?_⟩ <;> (set_option maxRecDepth 100000 in decide)

/-- C15, amended: the value substituted for `${BRANCH_NAME_HASH}` by
`GenerateFixBranchName(b, p, v)` is a function of the base branch `b`, the impacted package
`p` and the fix version `v`: the MD5 digest, in 32 hexadecimal characters, of `frogbot`
followed by `b`, `p` and `v`. For all `b`, `p` and all fix versions `v`, `v'`, a template
that contains no `${FIX_VERSION}` yields the same branch name for `(b, p, v)` and
`(b, p, v')` when the two hashes are equal or the template contains no
`${BRANCH_NAME_HASH}` either, and calls with identical inputs yield the same name. -/
theorem GenerateFixBranchName_hash (gm : GitManager) (b p v : String) :
    gm.GenerateFixBranchName b p v
      = (renderTemplate
          (if gm.customTemplates.branchNameTemplate = "" then BranchNameTemplate
            else gm.customTemplates.branchNameTemplate)
          (branchValues p v (md5Hex (stringBytes ("frogbot" ++ b ++ p ++ v)))), none)
    ∧ (md5Hex (stringBytes ("frogbot" ++ b ++ p ++ v))).length = 32
    ∧ (∀ v' : String,
        ¬ FixVersionPlaceHolder.data <:+:
          (if gm.customTemplates.branchNameTemplate = "" then BranchNameTemplate
            else gm.customTemplates.branchNameTemplate).data →
        (md5Hex (stringBytes ("frogbot" ++ b ++ p ++ v))
            = md5Hex (stringBytes ("frogbot" ++ b ++ p ++ v'))
          ∨ ¬ BranchHashPlaceHolder.data <:+:
            (if gm.customTemplates.branchNameTemplate = "" then BranchNameTemplate
              else gm.customTemplates.branchNameTemplate).data) →
        gm.GenerateFixBranchName b p v = gm.GenerateFixBranchName b p v')
    ∧ (∀ b' p' v' : String, b' = b → p' = p → v' = v →
        gm.GenerateFixBranchName b' p' v' = gm.GenerateFixBranchName b p v)
    ∧ md5Hex (stringBytes ("frogbot" ++ "md5Branch" ++ "mquery" ++ "3.4.5"))
        = "41b1f45136b25e3624b15999bd57a476" := by
  have hname : ∀ x : String, gm.GenerateFixBranchName b p x
      = (renderTemplate
          (if gm.customTemplates.branchNameTemplate = "" then BranchNameTemplate
            else gm.customTemplates.branchNameTemplate)
          (branchValues p x (md5Hex (stringBytes ("frogbot" ++ b ++ p ++ x)))), none) := by
    intro x
    simp only [GitManager.GenerateFixBranchName, Md5Hash_seed, ne_eq, not_true_eq_false,
      if_false]
  refine ⟨hname v, md5Hex_length _, ?_, ?_, ?_⟩
  · intro v' hversion hhash
    rw [hname v, hname v']
    congr 1
    apply String.ext
    have hstep : ∀ h : String,
        (renderTemplate
          (if gm.customTemplates.branchNameTemplate = "" then BranchNameTemplate
            else gm.customTemplates.branchNameTemplate) (branchValues p v h)).data
        = (renderTemplate
          (if gm.customTemplates.branchNameTemplate = "" then BranchNameTemplate
            else gm.customTemplates.branchNameTemplate) (branchValues p v' h)).data :=
      fun h => replacePlaceHolders_unused [(PackagePlaceHolder.data, p.data)]
        [(BranchHashPlaceHolder.data, h.data)] FixVersionPlaceHolder.data v.data v'.data _ 0
        hversion
    rcases hhash with heq | hfree
    · rw [hstep, heq]
    · rw [hstep]
      exact replacePlaceHolders_unused
        [(PackagePlaceHolder.data, p.data), (FixVersionPlaceHolder.data, v'.data)] []
        BranchHashPlaceHolder.data _ _ _ 0 hfree
  · intro b' p' v' hb hp hv
    rw [hb, hp, hv]
  · set_option maxRecDepth 100000 in decide

/-! ## Theorems, part 11. A failed listing of the open pull requests -/

/-- C21. When `client.ListOpenPullRequests` fails with error `e`, `scanAllPullRequests`
returns `e`, and the machine it returns is the one the failed call left, with that call as
its only new event: no comments are listed, nothing is downloaded, scanned or logged,
whatever pull requests the failed call returned with the error. -/
theorem scanAllPullRequests_open_listing_failure {σ : Type} (env : Env σ)
    (repo : FrogbotRepoConfig) (s : Machine σ) (prs : List PullRequestInfo) (e : Error)
    (w : σ)
    (hlist : env.ListOpenPullRequests repo.RepoOwner repo.RepoName s.world
      = ((prs, some e), w)) :
    (scanAllPullRequests env repo s).1 = some e
    ∧ (scanAllPullRequests env repo s).2
        = { world := w,
            log := s.log ++ [Event.ListOpenPullRequests repo.RepoOwner repo.RepoName] }
    ∧ (scanAllPullRequests env repo s).2.log.drop s.log.length
        = [Event.ListOpenPullRequests repo.RepoOwner repo.RepoName]
    ∧ ((scanAllPullRequests env repo s).2.log.drop s.log.length).filter Event.isSweepStep
        = []
    ∧ (∀ pr ∈ prs,
        Event.ListPullRequestComments repo.RepoOwner repo.RepoName pr.ID
            ∉ (scanAllPullRequests env repo s).2.log.drop s.log.length
          ∧ Event.downloadRepoToTempDir (sourceBranchParams repo pr)
            ∉ (scanAllPullRequests env repo s).2.log.drop s.log.length
          ∧ Event.scanPullRequest (targetScanConfig repo pr)
            ∉ (scanAllPullRequests env repo s).2.log.drop s.log.length) := by
  have hrun : scanAllPullRequests env repo s
      = (some e,
          { world := w,
            log := s.log ++ [Event.ListOpenPullRequests repo.RepoOwner repo.RepoName] }) := by
    simp [scanAllPullRequests, Env.callListOpenPullRequests, hlist]
  have hnew : (scanAllPullRequests env repo s).2.log.drop s.log.length
      = [Event.ListOpenPullRequests repo.RepoOwner repo.RepoName] := by
    rw [hrun]
    simp
  refine ⟨by rw [hrun], by rw [hrun], hnew, ?_, ?_⟩
  · rw [hnew]
    rfl
  · intro pr _
    rw [hnew]
    simp

/-- Witness of C21: the listing fails while carrying three pull requests with a rescan
request each; the sweep returns the error after the one call. -/
theorem scanAllPullRequests_open_listing_failure_witness :
    scanAllPullRequests openListingFailsEnv repoA start
      = (some "pull requests unavailable",
          { world := (), log := [Event.ListOpenPullRequests "jfrog" "repo-a"] }) :=
  have h := scanAllPullRequests_open_listing_failure openListingFailsEnv repoA start
    threePullRequests "pull requests unavailable" () rfl
  Prod.ext h.1 h.2.1

end Frogbot
